import Mathlib

/-!
# Open Enclave host CRL support (`host/crypto/crl.c`)

A shallow embedding of `host/crypto/crl.c`: the magic-tagged CRL handle
(`crl_is_valid`, `oe_crl_read_der`, `oe_crl_free`), the timestamp parser
`_string_to_date`, its caller `_asn1_time_to_date`, and
`oe_crl_get_update_dates`.  The parser is embedded twice: over the text at the
scan pointer (`_string_to_date`), and over a buffer with checked reads and an
index for the scan pointer (`string_to_date_mem`); `string_to_date_mem_eq`
relates the two.  The rules of the grammar are also stated on the text
(`next_rule`, `fields_pass`, `consumed`), and `string_to_date_cases` gives the
outcome of the parser by the first rule the text violates.

Conventions of the embedding.

* A C string is a `List Char` holding the bytes of a buffer; the buffer is
  followed by a null terminator, so reading at the end of the list yields
  `NUL` (`peek`).  A `NUL` inside the list terminates the C string early,
  exactly as it does in C.  A `const char*` into the string is the suffix of
  the list that starts at the pointer.
* Unsigned machine integers are `Nat`; casts to `uint32_t` are written
  `% 2 ^ 32`.  `unsigned long` is 64 bits wide (LP64, the Linux host this
  file is built for).
* A `size_t` is a `Nat`; its conversion to the `int` length parameter of
  `BIO_new_mem_buf` is `size_to_int`, and the bytes the stream then holds
  are `mem_buf_bytes`.
* Pointers to objects of the external library are `Nat` addresses, `0`
  being `NULL`; a pointer to a record of this file is an `Option`, `none`
  being `NULL`.
* Calls into the external library are recorded, in order, in a trace, and
  their outcomes are supplied by an `openssl` record of functions of the
  trace so far.
* `OE_RAISE(r)` leaves the function with result `r` through the label `done`,
  and `OE_CHECK(e)` does so with the result of `e` when that is not `OE_OK`
  (the macros are declared in `raise.h`, which is not among the sources;
  section 7 of the specification: every internal failure is surfaced
  immediately to the direct caller).
-/

namespace Crl

/-! ## Result codes, constants and records -/

/-- Modelled from the spec: the type `oe_result_t` is declared in a header
that is not among the sources; these are the result codes `crl.c` uses, the
error kinds `InvalidParameter`, `Failure` and `Unexpected` of section 7. -/
inductive oe_result_t where
  | OE_OK
  | OE_FAILURE
  | OE_INVALID_PARAMETER
  | OE_UNEXPECTED
  deriving DecidableEq, Repr

open oe_result_t

/-- The largest `unsigned int` (`limits.h`), 32 bits. -/
def UINT_MAX : Nat := 4294967295

/-- The largest `unsigned long` (`limits.h`), 64 bits on the LP64 host. -/
def ULONG_MAX : Nat := 18446744073709551615

/-- Randomly generated magic number (`crl.c` line 16). -/
def OE_CRL_MAGIC : Nat := 0xe8c993b1cca24906

/-- Modelled from the spec: the type `oe_date_t` is declared in a header that
is not among the sources; it is the Structured Date of section 3, a record of
six unsigned 32-bit fields (`_string_to_date` casts each to `uint32_t`). -/
structure oe_date_t where
  year : Nat
  month : Nat
  day : Nat
  hours : Nat
  minutes : Nat
  seconds : Nat
  deriving DecidableEq, Repr

/-- The contents of an `oe_date_t` after `memset(date, 0, sizeof(oe_date_t))`. -/
def date_zero : oe_date_t :=
  { year := 0, month := 0, day := 0, hours := 0, minutes := 0, seconds := 0 }

/-- Modelled from the spec: the type `crl_t` is declared in `crl.h`, which is
not among the sources; it is the Private CRL Record of section 3, the magic
tag and the pointer to the decoded `X509_CRL` object (`0` is `NULL`), the two
fields `crl.c` reads and writes. -/
structure crl_t where
  magic : Nat
  crl : Nat
  deriving DecidableEq, Repr

/-- The contents of a `crl_t` after `memset(impl, 0, sizeof(crl_t))`. -/
def crl_zero : crl_t := { magic := 0, crl := 0 }

/-! ## C strings and the C library routines the parser calls -/

/-- The null byte. -/
def NUL : Char := Char.ofNat 0

/-- Reads `*p`: the first byte at the pointer, the terminator at the end of
the buffer. -/
def peek (p : List Char) : Char := p.headD NUL

/-- The C library `isspace` in the "C" locale: space, and the controls
`\t \n \v \f \r` (9 to 13). -/
def isspace (c : Char) : Bool :=
  decide (c.toNat = 32) || (decide (9 ≤ c.toNat) && decide (c.toNat ≤ 13))

/-- The C library `isdigit`: `0` to `9`. -/
def isdigit (c : Char) : Bool :=
  decide (48 ≤ c.toNat) && decide (c.toNat ≤ 57)

/-- The C library `strncmp(s1, s2, n)`: the difference of the first pair of
differing bytes among the first `n`, comparison ending at a terminator. -/
def strncmp : List Char → List Char → Nat → Int
  | _, _, 0 => 0
  | s1, s2, n + 1 =>
    if peek s1 ≠ peek s2 then ((peek s1).toNat : Int) - ((peek s2).toNat : Int)
    else if peek s1 = NUL then 0
    else strncmp s1.tail s2.tail n

/-- The C library `strcmp(s1, s2)`: the difference of the first pair of
differing bytes, comparison ending at a terminator. -/
def strcmp : List Char → List Char → Int
  | [], s2 => ((NUL).toNat : Int) - ((peek s2).toNat : Int)
  | c :: s1, s2 =>
    if c ≠ peek s2 then (c.toNat : Int) - ((peek s2).toNat : Int)
    else if c = NUL then 0
    else strcmp s1 s2.tail

/-- The value of a run of decimal digits, most significant first. -/
def digits_value (ds : List Char) : Nat :=
  ds.foldl (fun acc c => 10 * acc + (c.toNat - 48)) 0

/-- The C library `strtoul(nptr, &end, 10)` (ISO C 7.22.1.4): skips leading
white space, takes an optional sign, then the longest run of decimal digits.
Returns the value and the offset `end - nptr`.  With no digit the value is
`0` and `end = nptr` (offset `0`).  A value above `ULONG_MAX` is returned as
`ULONG_MAX`; after a minus sign the value is negated in `unsigned long`. -/
def strtoul (nptr : List Char) : Nat × Nat :=
  let ws := (nptr.takeWhile isspace).length
  let q := nptr.drop ws
  let sg := if peek q = '-' ∨ peek q = '+' then 1 else 0
  let ds := (q.drop sg).takeWhile isdigit
  if ds = [] then (0, 0)
  else
    let v := digits_value ds
    let value :=
      if v > ULONG_MAX then ULONG_MAX
      else if peek q = '-' then (ULONG_MAX + 1 - v) % (ULONG_MAX + 1)
      else v
    (value, ws + sg + ds.length)

/-! ## The timestamp parser -/

/-- The table `_month` of `_string_to_date`. -/
def _month : List (List Char) :=
  ["Jan".toList, "Feb".toList, "Mar".toList, "Apr".toList, "May".toList, "Jun".toList,
   "Jul".toList, "Aug".toList, "Sep".toList, "Oct".toList, "Nov".toList, "Dec".toList]

/-- The month loop of `_string_to_date` (lines 117 to 124), run over the
entries of the table from index `i` on, with the current `date->month` and
scan pointer `p`.  Every matching entry sets the month and advances `p` by
three; the loop does not stop at a match. -/
def month_loop : List (List Char) → Nat → Nat → List Char → Nat × List Char
  | [], _, month, p => (month, p)
  | m :: rest, i, month, p =>
    if strncmp p m 3 = 0 then month_loop rest (i + 1) (i + 1) (p.drop 3)
    else month_loop rest (i + 1) month p

/-- The check for "GMT" at the end of `_string_to_date` (lines 190 to 194),
entered with the date filled so far and the scan pointer `p`. -/
def check_gmt (date : oe_date_t) (p : List Char) : oe_result_t × oe_date_t :=
  if strcmp p "GMT".toList ≠ 0 then (OE_FAILURE, date) else
  (OE_OK, date)

/-- The block "Parse the year" of `_string_to_date` (lines 178 to 188) and
what follows it. -/
def parse_year (date : oe_date_t) (p : List Char) : oe_result_t × oe_date_t :=
  let year := strtoul p
  let e := p.drop year.2
  if year.2 = 0 ∨ peek e ≠ ' ' then (OE_FAILURE, date) else
  check_gmt { date with year := year.1 % 2 ^ 32 } e.tail

/-- The block "Parse the seconds" of `_string_to_date` (lines 166 to 176) and
what follows it. -/
def parse_seconds (date : oe_date_t) (p : List Char) : oe_result_t × oe_date_t :=
  let seconds := strtoul p
  let e := p.drop seconds.2
  if seconds.2 = 0 ∨ peek e ≠ ' ' ∨ seconds.1 > 59 then (OE_FAILURE, date) else
  parse_year { date with seconds := seconds.1 % 2 ^ 32 } e.tail

/-- The block "Parse the minutes" of `_string_to_date` (lines 154 to 164) and
what follows it. -/
def parse_minutes (date : oe_date_t) (p : List Char) : oe_result_t × oe_date_t :=
  let minutes := strtoul p
  let e := p.drop minutes.2
  if minutes.2 = 0 ∨ peek e ≠ ':' ∨ minutes.1 > 59 then (OE_FAILURE, date) else
  parse_seconds { date with minutes := minutes.1 % 2 ^ 32 } e.tail

/-- The block "Parse the hours" of `_string_to_date` (lines 142 to 152) and
what follows it. -/
def parse_hours (date : oe_date_t) (p : List Char) : oe_result_t × oe_date_t :=
  let hours := strtoul p
  let e := p.drop hours.2
  if hours.2 = 0 ∨ peek e ≠ ':' ∨ hours.1 > 23 then (OE_FAILURE, date) else
  parse_minutes { date with hours := hours.1 % 2 ^ 32 } e.tail

/-- The block "Parse the day of the month" of `_string_to_date` (lines 130 to
140) and what follows it. -/
def parse_day (date : oe_date_t) (p : List Char) : oe_result_t × oe_date_t :=
  let day := strtoul p
  let e := p.drop day.2
  if day.2 = 0 ∨ peek e ≠ ' ' ∨ day.1 < 1 ∨ day.1 > 31 then (OE_FAILURE, date) else
  parse_hours { date with day := day.1 % 2 ^ 32 } e.tail

/-- The check that ends the block "Parse the month" (line 126) and what
follows it, entered with `date->month` and `p` as the month loop left them:
`if (date->month == UINT_MAX || *p++ != ' ') OE_RAISE(OE_FAILURE)`. -/
def after_month (date : oe_date_t) (p : List Char) : oe_result_t × oe_date_t :=
  if date.month = UINT_MAX ∨ peek p ≠ ' ' then (OE_FAILURE, date) else
  parse_day date p.tail

/-- The function `_string_to_date(str, date)` for a non-null `date` whose
prior contents are the second argument: the result code and the contents of
`*date` on return.  The blocks of the function are `after_month`,
`parse_day`, `parse_hours`, `parse_minutes`, `parse_seconds`, `parse_year`
and `check_gmt`, each running the rest of the function when it passes. -/
def _string_to_date (str : List Char) (_date : oe_date_t) : oe_result_t × oe_date_t :=
  -- memset(date, 0, sizeof(oe_date_t)); date->month = UINT_MAX
  let date := { date_zero with month := UINT_MAX }
  -- for (i = 0; i < OE_COUNTOF(_month); i++) ...
  let ml := month_loop _month 0 date.month str
  after_month { date with month := ml.1 } ml.2

/-! ## The external library -/

/-- A call into the external X.509 library, with the object it is made on. -/
inductive ext_call where
  | BIO_new_mem_buf
  | d2i_X509_CRL_bio
  | X509_CRL_free (crl : Nat)
  | BIO_free
  | BIO_new
  | ASN1_TIME_print (time : Nat)
  | BIO_get_mem_ptr
  | BIO_write
  | X509_CRL_get_lastUpdate (crl : Nat)
  | X509_CRL_get_nextUpdate (crl : Nat)
  deriving DecidableEq, Repr

/-- The outcomes of the external library calls, each a function of the calls
made so far.  Streams are `true` when the call succeeds (a non-null `BIO*`, a
non-zero return); object pointers are addresses, `0` being `NULL`;
`ASN1_TIME_print` yields the text it wrote to the stream, or `none` when it
returns `0`. -/
structure openssl where
  BIO_new_mem_buf : List ext_call → Bool
  d2i_X509_CRL_bio : List ext_call → List Nat → Nat
  BIO_new : List ext_call → Bool
  ASN1_TIME_print : List ext_call → Nat → Option (List Char)
  BIO_get_mem_ptr : List ext_call → Bool
  BIO_write : List ext_call → Bool
  X509_CRL_get_lastUpdate : List ext_call → Nat → Nat
  X509_CRL_get_nextUpdate : List ext_call → Nat → Nat

/-! ## The CRL handle -/

/-- The function `_crl_init(impl, crl)`: stamps the magic and stores the object. -/
def _crl_init (_impl : crl_t) (crl : Nat) : crl_t :=
  { magic := OE_CRL_MAGIC, crl := crl }

/-- The function `crl_is_valid(impl)`:
`impl && (impl->magic == OE_CRL_MAGIC) && impl->crl`. -/
def crl_is_valid (impl : Option crl_t) : Bool :=
  match impl with
  | none => false
  | some r => decide (r.magic = OE_CRL_MAGIC) && decide (r.crl ≠ 0)

/-- The function `_crl_free(impl)`: releases the object, then zero-fills the
record.  Returns the record and the extended trace. -/
def _crl_free (tr : List ext_call) (impl : crl_t) : crl_t × List ext_call :=
  (crl_zero, tr ++ [ext_call.X509_CRL_free impl.crl])

/-- The largest `int` (`limits.h`), 32 bits. -/
def INT_MAX : Nat := 2147483647

/-- The conversion of the `size_t` `der_size` to the `int` length parameter of
`BIO_new_mem_buf` at line 56, which has no cast and no range check: a value
up to `INT_MAX` is kept, a larger one is reduced modulo `2 ^ 32` into the
range of `int` (what the compilers of the host do). -/
def size_to_int (n : Nat) : Int :=
  if n % 2 ^ 32 ≤ INT_MAX then ((n % 2 ^ 32 : Nat) : Int)
  else ((n % 2 ^ 32 : Nat) : Int) - 2 ^ 32

/-- The bytes that the stream made by `BIO_new_mem_buf(buf, len)` holds: the
first `len` bytes of `buf`, or, when `len` is negative, the bytes of `buf` up
to its first null byte (the library then takes `strlen(buf)` as the length). -/
def mem_buf_bytes (buf : List Nat) (len : Int) : List Nat :=
  if len < 0 then buf.takeWhile (fun b => decide (b ≠ 0)) else buf.take len.toNat

/-- The function `oe_crl_read_der(crl, der_data, der_size)`: the result code,
the contents of the handle on return and the trace.  A null `der_data` is
`none`; the decoder reads the stream made from `der_data` with the length
`der_size` converted to `int`. -/
def oe_crl_read_der (lib : openssl) (tr : List ext_call) (crl : Option crl_t)
    (der_data : Option (List Nat)) (der_size : Nat) :
    oe_result_t × Option crl_t × List ext_call :=
  -- if (impl) memset(impl, 0, sizeof(crl_t))
  let impl := crl.map (fun _ => crl_zero)
  match der_data, impl with
  | none, _ => (OE_UNEXPECTED, impl, tr)
  | some _, none => (OE_UNEXPECTED, impl, tr)
  | some data, some r =>
    if der_size = 0 then (OE_UNEXPECTED, impl, tr) else
    let bio := lib.BIO_new_mem_buf tr
    let tr := tr ++ [ext_call.BIO_new_mem_buf]
    if bio = false then (OE_UNEXPECTED, impl, tr) else
    let x509_crl := lib.d2i_X509_CRL_bio tr (mem_buf_bytes data (size_to_int der_size))
    let tr := tr ++ [ext_call.d2i_X509_CRL_bio]
    if x509_crl = 0 then (OE_UNEXPECTED, impl, tr ++ [ext_call.BIO_free]) else
    (OE_OK, some (_crl_init r x509_crl), tr ++ [ext_call.BIO_free])

/-- The function `oe_crl_free(crl)`: the result code, the contents of the
handle on return and the trace. -/
def oe_crl_free (tr : List ext_call) (crl : Option crl_t) :
    oe_result_t × Option crl_t × List ext_call :=
  match crl with
  | none => (OE_INVALID_PARAMETER, crl, tr)
  | some impl =>
    if crl_is_valid (some impl) = false then (OE_INVALID_PARAMETER, crl, tr) else
    let f := _crl_free tr impl
    (OE_OK, some f.1, f.2)

/-! ## The update dates -/

/-- The function `_asn1_time_to_date(time, date)` for a non-null `date` with
the given contents: the result code, the contents of `*date` on return and
the trace.  The text handed to the parser is what `ASN1_TIME_print` wrote,
followed by the null terminator that `BIO_write` appends. -/
def _asn1_time_to_date (lib : openssl) (tr : List ext_call) (time : Nat) (date : oe_date_t) :
    oe_result_t × oe_date_t × List ext_call :=
  let bio := lib.BIO_new tr
  let tr := tr ++ [ext_call.BIO_new]
  if bio = false then (OE_FAILURE, date, tr) else
  let printed := lib.ASN1_TIME_print tr time
  let tr := tr ++ [ext_call.ASN1_TIME_print time]
  match printed with
  | none => (OE_FAILURE, date, tr ++ [ext_call.BIO_free])
  | some text =>
    let got := lib.BIO_get_mem_ptr tr
    let tr := tr ++ [ext_call.BIO_get_mem_ptr]
    if got = false then (OE_FAILURE, date, tr ++ [ext_call.BIO_free]) else
    let written := lib.BIO_write tr
    let tr := tr ++ [ext_call.BIO_write]
    if written = false then (OE_FAILURE, date, tr ++ [ext_call.BIO_free]) else
    -- OE_CHECK(_string_to_date(mem->data, date))
    let r := _string_to_date (text ++ [NUL]) date
    if r.1 ≠ OE_OK then (r.1, r.2, tr ++ [ext_call.BIO_free]) else
    (OE_OK, r.2, tr ++ [ext_call.BIO_free])

/-- The function `oe_crl_get_update_dates(crl, last, next)`: the result code,
the contents of `*last` and `*next` on return (`none` for a null pointer) and
the trace. -/
def oe_crl_get_update_dates (lib : openssl) (tr : List ext_call) (crl : Option crl_t)
    (last next : Option oe_date_t) :
    oe_result_t × Option oe_date_t × Option oe_date_t × List ext_call :=
  -- if (last) memset(last, 0, ...); if (next) memset(next, 0, ...)
  let last := last.map (fun _ => date_zero)
  let next := next.map (fun _ => date_zero)
  match crl with
  | none => (OE_INVALID_PARAMETER, last, next, tr)
  | some impl =>
    if crl_is_valid (some impl) = false then (OE_INVALID_PARAMETER, last, next, tr) else
    -- if (last) { ... }
    let s1 : oe_result_t × Option oe_date_t × List ext_call :=
      match last with
      | none => (OE_OK, none, tr)
      | some d =>
        let time := lib.X509_CRL_get_lastUpdate tr impl.crl
        let tr := tr ++ [ext_call.X509_CRL_get_lastUpdate impl.crl]
        if time = 0 then (OE_FAILURE, some d, tr) else
        let r := _asn1_time_to_date lib tr time d
        (r.1, some r.2.1, r.2.2)
    if s1.1 ≠ OE_OK then (s1.1, s1.2.1, next, s1.2.2) else
    -- if (next) { ... }
    let s2 : oe_result_t × Option oe_date_t × List ext_call :=
      match next with
      | none => (OE_OK, none, s1.2.2)
      | some d =>
        let time := lib.X509_CRL_get_nextUpdate s1.2.2 impl.crl
        let tr := s1.2.2 ++ [ext_call.X509_CRL_get_nextUpdate impl.crl]
        if time = 0 then (OE_FAILURE, some d, tr) else
        let r := _asn1_time_to_date lib tr time d
        (r.1, some r.2.1, r.2.2)
    (s2.1, s1.2.1, s2.2.1, s2.2.2)

/-! ## The month step that stops at the first match -/

/-- The month step as the specification allows it to be implemented: stop at
the first table entry that matches at the current position and advance by
three exactly once. -/
def month_first_match : List (List Char) → Nat → Nat → List Char → Nat × List Char
  | [], _, month, p => (month, p)
  | m :: rest, i, month, p =>
    if strncmp p m 3 = 0 then (i + 1, p.drop 3)
    else month_first_match rest (i + 1) month p

/-- The parser with the month step that stops at the first match; everything
after the month loop is the code of `_string_to_date`. -/
def string_to_date_first_match (str : List Char) (_date : oe_date_t) :
    oe_result_t × oe_date_t :=
  let date := { date_zero with month := UINT_MAX }
  let ml := month_first_match _month 0 date.month str
  after_month { date with month := ml.1 } ml.2

/-! ## The grammar of the timestamp, for the statements below -/

/-- The value `strtoul` returns for an unsigned digit run of value `v`. -/
def clamp_ulong (v : Nat) : Nat := if v > ULONG_MAX then ULONG_MAX else v

/-- The abbreviation of month `m` (1 to 12) in the table `_month`. -/
def month_abbrev (m : Nat) : List Char := _month.getD (m - 1) []

/-- A non-empty run of ASCII decimal digits. -/
def digit_run (ds : List Char) : Bool := !ds.isEmpty && ds.all isdigit

/-- A possibly empty run of white space. -/
def white_space (w : List Char) : Bool := w.all isspace

/-- The fixed layout with the text `w1` to `w5` in front of the five numeric
fields and `tail` after the space that ends the year. -/
def timestamp_padded (m : Nat) (w1 D w2 H w3 MI w4 S w5 Y tail : List Char) : List Char :=
  month_abbrev m ++ ' ' :: (w1 ++ (D ++ ' ' :: (w2 ++ (H ++ ':' :: (w3 ++ (MI ++ ':' ::
    (w4 ++ (S ++ ' ' :: (w5 ++ (Y ++ ' ' :: tail))))))))))

/-- The text `M ' ' F1 ' ' F2 ':' F3 ':' F4 ' ' F5 ' ' "GMT"`. -/
def layout (M F1 F2 F3 F4 F5 : List Char) : List Char :=
  M ++ " ".toList ++ F1 ++ " ".toList ++ F2 ++ ":".toList ++ F3 ++ ":".toList ++ F4
    ++ " ".toList ++ F5 ++ " GMT".toList

/-- The fixed layout
`<Month3> ' ' <Day> ' ' <Hours> ':' <Minutes> ':' <Seconds> ' ' <Year> ' ' "GMT"`
for the month of index `m`. -/
def timestamp (m : Nat) (D H MI S Y : List Char) : List Char :=
  layout (month_abbrev m) D H MI S Y

/-- The fixed layout up to and including the space that ends the year,
followed by `tail`: `M ' ' F1 ' ' F2 ':' F3 ':' F4 ' ' F5 ' ' tail`. -/
def layout_with_tail (M F1 F2 F3 F4 F5 tail : List Char) : List Char :=
  M ++ " ".toList ++ F1 ++ " ".toList ++ F2 ++ ":".toList ++ F3 ++ ":".toList ++ F4
    ++ " ".toList ++ F5 ++ " ".toList ++ tail

/-- The text at `t` is exactly the three bytes "GMT" followed by the null
terminator. -/
def gmt_at_end (t : List Char) : Bool :=
  decide (t.take 3 = "GMT".toList) && decide (peek (t.drop 3) = NUL)

/-- The grammar as C1 states it: a single month abbreviation, and numeric
fields that are non-empty runs of decimal digits and nothing else. -/
def strict_timestamp (s : List Char) : Prop :=
  ∃ m D H MI S Y, 1 ≤ m ∧ m ≤ 12 ∧ digit_run D = true ∧ digit_run H = true ∧
    digit_run MI = true ∧ digit_run S = true ∧ digit_run Y = true ∧
    s = timestamp m D H MI S Y

/-- The pre-zeroed date in which only the first `k` fields of `v` have been
written, in the order the parser writes them: month, day, hours, minutes,
seconds, year. -/
def written_upto (k : Nat) (v : oe_date_t) : oe_date_t :=
  { month := v.month,
    day := if 2 ≤ k then v.day else 0,
    hours := if 3 ≤ k then v.hours else 0,
    minutes := if 4 ≤ k then v.minutes else 0,
    seconds := if 5 ≤ k then v.seconds else 0,
    year := if 6 ≤ k then v.year else 0 }

/-- The values of the first `k` fields of `v` are ones the parser writes: the
month is `UINT_MAX` (and then nothing else is written) or an index 1..12, the
day is in 1..31, the hours at most 23, the minutes and seconds at most 59, the
year a `uint32_t`. -/
def written_ok (k : Nat) (v : oe_date_t) : Prop :=
  (v.month = UINT_MAX ∨ (1 ≤ v.month ∧ v.month ≤ 12)) ∧ (v.month = UINT_MAX → k = 1) ∧
  (2 ≤ k → 1 ≤ v.day ∧ v.day ≤ 31) ∧ (3 ≤ k → v.hours ≤ 23) ∧ (4 ≤ k → v.minutes ≤ 59) ∧
  (5 ≤ k → v.seconds ≤ 59) ∧ (6 ≤ k → v.year < 2 ^ 32)

/-- A result that, when it is not `OE_OK`, is `OE_FAILURE` with a date written
up to some field and zero after it. -/
def fail_ok (r : oe_result_t × oe_date_t) : Prop :=
  r.1 ≠ OE_OK → r.1 = OE_FAILURE ∧
    ∃ k v, 1 ≤ k ∧ k ≤ 6 ∧ r.2 = written_upto k v ∧ written_ok k v

/-- An external library whose CRL object has a last-update that prints as
"Jan 1 00:00:00 1970 GMT" and no next-update (the accessor returns `NULL`). -/
def lib_no_next_update : openssl :=
  { BIO_new_mem_buf := fun _ => true
    d2i_X509_CRL_bio := fun _ _ => 1
    BIO_new := fun _ => true
    ASN1_TIME_print := fun _ _ => some "Jan 1 00:00:00 1970 GMT".toList
    BIO_get_mem_ptr := fun _ => true
    BIO_write := fun _ => true
    X509_CRL_get_lastUpdate := fun _ _ => 1
    X509_CRL_get_nextUpdate := fun _ _ => 0 }

/-- A numeric field as `strtoul` consumes it: optional white space, an
optional sign, then a non-empty run of decimal digits. -/
def numeric_field (f : List Char) : Bool :=
  let q := f.dropWhile isspace
  digit_run (if peek q = '-' ∨ peek q = '+' then q.tail else q)

/-- An external library whose decoder rejects every input (returns `NULL`). -/
def lib_decode_fails : openssl :=
  { lib_no_next_update with d2i_X509_CRL_bio := fun _ _ => 0 }

/-- The numeric scan at `p` meets no digit: after the white space and the
optional sign that `strtoul` skips, the next byte is not a decimal digit. -/
def scan_without_digit (p : List Char) : Bool :=
  let q := p.dropWhile isspace
  !isdigit (peek (if peek q = '-' ∨ peek q = '+' then q.tail else q))

/-! ## The parser over a buffer with checked reads

The same functions once more, over a buffer whose reads are checked.  The
buffer `mem` holds the bytes of the string followed by its terminator and
nothing else; a pointer is an index into it, and the memory from the pointer
`p` on is `mem.drop p`.  A read past the end of the buffer, that is past the
terminator, yields `none`, and so does every function that performs one. -/

/-- Reads `*p`, the memory from `p` on being `m`: `none` past the end of the
buffer. -/
def read_byte (m : List Char) : Option Char := m.head?

/-- The C library `strncmp(s1, s2, n)` with checked reads of `s1`, given as
the memory from the pointer on; `s2` is a string literal. -/
def strncmp_mem : List Char → List Char → Nat → Option Int
  | _, _, 0 => some 0
  | [], _, _ + 1 => none
  | c :: s1, s2, n + 1 =>
    if c ≠ peek s2 then some ((c.toNat : Int) - ((peek s2).toNat : Int))
    else if c = NUL then some 0
    else strncmp_mem s1 s2.tail n

/-- The C library `strcmp(s1, s2)` with checked reads of `s1`, given as the
memory from the pointer on; `s2` is a string literal. -/
def strcmp_mem : List Char → List Char → Option Int
  | [], _ => none
  | c :: s1, s2 =>
    if c ≠ peek s2 then some ((c.toNat : Int) - ((peek s2).toNat : Int))
    else if c = NUL then some 0
    else strcmp_mem s1 s2.tail

/-- A scan over the bytes that satisfy `f`, with checked reads: bytes are read
one after the other until one does not satisfy `f`; the number of bytes that
did. -/
def scan_mem (f : Char → Bool) : List Char → Option Nat
  | [] => none
  | c :: m => if f c = true then (scan_mem f m).map (fun n => n + 1) else some 0

/-- The C library `strtoul(nptr, &end, 10)` with checked reads, `nptr` given
as the memory from the pointer on: the value and the offset `end - nptr`. -/
def strtoul_mem (nptr : List Char) : Option (Nat × Nat) :=
  match scan_mem isspace nptr with
  | none => none
  | some ws =>
    match read_byte (nptr.drop ws) with
    | none => none
    | some c =>
      let sg := if c = '-' ∨ c = '+' then 1 else 0
      match scan_mem isdigit (nptr.drop (ws + sg)) with
      | none => none
      | some n =>
        if n = 0 then some (0, 0)
        else
          let v := digits_value ((nptr.drop (ws + sg)).take n)
          let value :=
            if v > ULONG_MAX then ULONG_MAX
            else if c = '-' then (ULONG_MAX + 1 - v) % (ULONG_MAX + 1)
            else v
          some (value, ws + sg + n)

/-- The month loop of `_string_to_date` over the buffer `mem`, the scan
pointer `p` being an index. -/
def month_loop_mem (mem : List Char) : List (List Char) → Nat → Nat → Nat → Option (Nat × Nat)
  | [], _, month, p => some (month, p)
  | m :: rest, i, month, p =>
    match strncmp_mem (mem.drop p) m 3 with
    | none => none
    | some r =>
      if r = 0 then month_loop_mem mem rest (i + 1) (i + 1) (p + 3)
      else month_loop_mem mem rest (i + 1) month p

/-- The check for "GMT" over the buffer: the result code, the date and the
scan pointer on return. -/
def check_gmt_mem (mem : List Char) (date : oe_date_t) (p : Nat) :
    Option (oe_result_t × oe_date_t × Nat) :=
  match strcmp_mem (mem.drop p) "GMT".toList with
  | none => none
  | some r => if r ≠ 0 then some (OE_FAILURE, date, p) else some (OE_OK, date, p)

/-- The block "Parse the year" over the buffer.  `*end` is read only when
`p == end` is false. -/
def parse_year_mem (mem : List Char) (date : oe_date_t) (p : Nat) :
    Option (oe_result_t × oe_date_t × Nat) :=
  match strtoul_mem (mem.drop p) with
  | none => none
  | some year =>
    if year.2 = 0 then some (OE_FAILURE, date, p) else
    match read_byte (mem.drop (p + year.2)) with
    | none => none
    | some c =>
      if c ≠ ' ' then some (OE_FAILURE, date, p) else
      check_gmt_mem mem { date with year := year.1 % 2 ^ 32 } (p + year.2 + 1)

/-- The block "Parse the seconds" over the buffer. -/
def parse_seconds_mem (mem : List Char) (date : oe_date_t) (p : Nat) :
    Option (oe_result_t × oe_date_t × Nat) :=
  match strtoul_mem (mem.drop p) with
  | none => none
  | some seconds =>
    if seconds.2 = 0 then some (OE_FAILURE, date, p) else
    match read_byte (mem.drop (p + seconds.2)) with
    | none => none
    | some c =>
      if c ≠ ' ' ∨ seconds.1 > 59 then some (OE_FAILURE, date, p) else
      parse_year_mem mem { date with seconds := seconds.1 % 2 ^ 32 } (p + seconds.2 + 1)

/-- The block "Parse the minutes" over the buffer. -/
def parse_minutes_mem (mem : List Char) (date : oe_date_t) (p : Nat) :
    Option (oe_result_t × oe_date_t × Nat) :=
  match strtoul_mem (mem.drop p) with
  | none => none
  | some minutes =>
    if minutes.2 = 0 then some (OE_FAILURE, date, p) else
    match read_byte (mem.drop (p + minutes.2)) with
    | none => none
    | some c =>
      if c ≠ ':' ∨ minutes.1 > 59 then some (OE_FAILURE, date, p) else
      parse_seconds_mem mem { date with minutes := minutes.1 % 2 ^ 32 } (p + minutes.2 + 1)

/-- The block "Parse the hours" over the buffer. -/
def parse_hours_mem (mem : List Char) (date : oe_date_t) (p : Nat) :
    Option (oe_result_t × oe_date_t × Nat) :=
  match strtoul_mem (mem.drop p) with
  | none => none
  | some hours =>
    if hours.2 = 0 then some (OE_FAILURE, date, p) else
    match read_byte (mem.drop (p + hours.2)) with
    | none => none
    | some c =>
      if c ≠ ':' ∨ hours.1 > 23 then some (OE_FAILURE, date, p) else
      parse_minutes_mem mem { date with hours := hours.1 % 2 ^ 32 } (p + hours.2 + 1)

/-- The block "Parse the day of the month" over the buffer. -/
def parse_day_mem (mem : List Char) (date : oe_date_t) (p : Nat) :
    Option (oe_result_t × oe_date_t × Nat) :=
  match strtoul_mem (mem.drop p) with
  | none => none
  | some day =>
    if day.2 = 0 then some (OE_FAILURE, date, p) else
    match read_byte (mem.drop (p + day.2)) with
    | none => none
    | some c =>
      if c ≠ ' ' ∨ day.1 < 1 ∨ day.1 > 31 then some (OE_FAILURE, date, p) else
      parse_hours_mem mem { date with day := day.1 % 2 ^ 32 } (p + day.2 + 1)

/-- The check that ends the block "Parse the month" over the buffer:
`*p++ != ' '` is evaluated only when the month is not `UINT_MAX`; it reads
`*p` and advances `p` whatever the byte is. -/
def after_month_mem (mem : List Char) (date : oe_date_t) (p : Nat) :
    Option (oe_result_t × oe_date_t × Nat) :=
  if date.month = UINT_MAX then some (OE_FAILURE, date, p) else
  match read_byte (mem.drop p) with
  | none => none
  | some c =>
    if c ≠ ' ' then some (OE_FAILURE, date, p + 1) else
    parse_day_mem mem date (p + 1)

/-- The function `_string_to_date(str, date)` over the buffer `mem`, `str`
pointing at its first byte: `none` when a read is past the end of the buffer,
otherwise the result code, the date and the scan pointer `p` on return. -/
def string_to_date_mem (mem : List Char) (_date : oe_date_t) :
    Option (oe_result_t × oe_date_t × Nat) :=
  let date := { date_zero with month := UINT_MAX }
  match month_loop_mem mem _month 0 date.month 0 with
  | none => none
  | some ml => after_month_mem mem { date with month := ml.1 } ml.2

/-- An external library whose decoder returns an object for every stream of
two bytes or more and `NULL` for a shorter one. -/
def lib_needs_two_bytes : openssl :=
  { lib_no_next_update with
    d2i_X509_CRL_bio := fun _ bytes => if bytes.length < 2 then 0 else 1 }

/-! ## The rules of the grammar, on the text -/

/-- The value of a numeric field, as `strtoul` gives it: the value of the digit
run, `ULONG_MAX` when that does not fit in an `unsigned long`, negated in
`unsigned long` after a minus sign. -/
def numeric_value (F : List Char) : Nat :=
  let q := F.dropWhile isspace
  let v := digits_value (if peek q = '-' ∨ peek q = '+' then q.tail else q)
  if v > ULONG_MAX then ULONG_MAX
  else if peek q = '-' then (ULONG_MAX + 1 - v) % (ULONG_MAX + 1)
  else v

/-- The text `p` begins with one of the twelve month abbreviations. -/
def begins_with_month (p : List Char) : Prop :=
  ∃ m r, 1 ≤ m ∧ m ≤ 12 ∧ p = month_abbrev m ++ r

/-- The text `p` passes a numeric rule: it begins with a numeric field that is
immediately followed by the separator `sep` and whose value is in `lo..hi`. -/
def field_rule (sep : Char) (lo hi : Nat) (p : List Char) : Prop :=
  ∃ F rest, p = F ++ sep :: rest ∧ numeric_field F = true ∧
    lo ≤ numeric_value F ∧ numeric_value F ≤ hi

/-- The rule that comes after `k` rules have been passed, on the text `p` left
to scan: the space after the month (`k = 0`), the day, the hours, the minutes,
the seconds, the year (any value), the literal "GMT" (`k = 6`). -/
def next_rule (k : Nat) (p : List Char) : Prop :=
  match k with
  | 0 => peek p = ' '
  | 1 => field_rule ' ' 1 31 p
  | 2 => field_rule ':' 0 23 p
  | 3 => field_rule ':' 0 59 p
  | 4 => field_rule ' ' 0 59 p
  | 5 => field_rule ' ' 0 ULONG_MAX p
  | 6 => gmt_at_end p = true
  | _ => False

/-- The text consumed when `k` rules have been passed: the month text `M`,
then its space (`1 ≤ k`), the day and its space (`2 ≤ k`), the hours and their
colon, the minutes and their colon, the seconds and their space, the year and
its space (`6 ≤ k`). -/
def consumed (k : Nat) (M F1 F2 F3 F4 F5 : List Char) : List Char :=
  M ++ (if 1 ≤ k then [' '] else []) ++ (if 2 ≤ k then F1 ++ [' '] else [])
    ++ (if 3 ≤ k then F2 ++ [':'] else []) ++ (if 4 ≤ k then F3 ++ [':'] else [])
    ++ (if 5 ≤ k then F4 ++ [' '] else []) ++ (if 6 ≤ k then F5 ++ [' '] else [])

/-- The numeric fields of the rules passed, when `k` rules have been passed,
are numeric fields with their values in range. -/
def fields_pass (k : Nat) (F1 F2 F3 F4 F5 : List Char) : Prop :=
  (2 ≤ k → numeric_field F1 = true ∧ 1 ≤ numeric_value F1 ∧ numeric_value F1 ≤ 31) ∧
  (3 ≤ k → numeric_field F2 = true ∧ numeric_value F2 ≤ 23) ∧
  (4 ≤ k → numeric_field F3 = true ∧ numeric_value F3 ≤ 59) ∧
  (5 ≤ k → numeric_field F4 = true ∧ numeric_value F4 ≤ 59) ∧
  (6 ≤ k → numeric_field F5 = true)

/-- The block of `_string_to_date` that runs once `k` rules have been passed:
the check after the month loop, then the blocks for the day, the hours, the
minutes, the seconds and the year, then the check for "GMT". -/
def block_after (k : Nat) : oe_date_t → List Char → oe_result_t × oe_date_t :=
  match k with
  | 0 => after_month
  | 1 => parse_day
  | 2 => parse_hours
  | 3 => parse_minutes
  | 4 => parse_seconds
  | 5 => parse_year
  | _ => check_gmt

/-- The date made of the month index `mo` and the values of the five numeric
fields, the year cast to `uint32_t`. -/
def field_values (mo : Nat) (F1 F2 F3 F4 F5 : List Char) : oe_date_t :=
  { year := numeric_value F5 % 2 ^ 32, month := mo, day := numeric_value F1,
    hours := numeric_value F2, minutes := numeric_value F3, seconds := numeric_value F4 }

/-! ## Characters and the C library routines -/

theorem char_eq_of_toNat {a b : Char} (h : a.toNat = b.toNat) : a = b := by
  apply Char.ext
  cases a with
  | mk va ha =>
    cases b with
    | mk vb hb =>
      simp only [Char.toNat] at h
      cases va with
      | mk fa =>
        cases vb with
        | mk fb =>
          simp only [UInt32.toNat] at h
          congr
          exact BitVec.eq_of_toNat_eq h

theorem char_sub_ne_zero {a b : Char} (h : a ≠ b) : ((a.toNat : Int) - (b.toNat : Int)) ≠ 0 := by
  intro h0
  apply h
  apply char_eq_of_toNat
  omega

theorem isspace_NUL : isspace NUL = false := by decide
theorem isdigit_NUL : isdigit NUL = false := by decide

theorem isdigit_not_space {c : Char} (h : isdigit c = true) : isspace c = false := by
  simp only [isdigit, isspace, Bool.and_eq_true, decide_eq_true_eq] at *
  simp only [Bool.or_eq_false_iff, Bool.and_eq_false_iff, decide_eq_false_iff_not]
  omega

theorem takeWhile_nil_of_peek (f : Char → Bool) (r : List Char) (h : f (peek r) = false) :
    r.takeWhile f = [] := by
  cases r with
  | nil => rfl
  | cons c r => simp only [peek, List.headD_cons] at h; simp [List.takeWhile_cons, h]

theorem takeWhile_run (f : Char → Bool) (xs r : List Char) (hxs : ∀ c ∈ xs, f c = true)
    (hr : f (peek r) = false) : (xs ++ r).takeWhile f = xs := by
  rw [List.takeWhile_append_of_pos hxs, takeWhile_nil_of_peek f r hr, List.append_nil]

theorem peek_append_of_ne_nil (xs r : List Char) (h : xs ≠ []) : peek (xs ++ r) = peek xs := by
  cases xs with
  | nil => exact absurd rfl h
  | cons c xs => rfl

theorem isdigit_peek_of_run (ds : List Char) (hds : ∀ c ∈ ds, isdigit c = true) (hne : ds ≠ []) :
    isdigit (peek ds) = true := by
  cases ds with
  | nil => exact absurd rfl hne
  | cons c ds => exact hds c (List.mem_cons_self _ _)

theorem strtoul_field (ws ds rest : List Char)
    (hws : ∀ c ∈ ws, isspace c = true) (hds : ∀ c ∈ ds, isdigit c = true) (hne : ds ≠ [])
    (hrest : isdigit (peek rest) = false) :
    strtoul (ws ++ (ds ++ rest)) = (clamp_ulong (digits_value ds), ws.length + ds.length) := by
  have hd : isdigit (peek (ds ++ rest)) = true := by
    rw [peek_append_of_ne_nil ds rest hne]; exact isdigit_peek_of_run ds hds hne
  have h1 : (ws ++ (ds ++ rest)).takeWhile isspace = ws :=
    takeWhile_run isspace ws (ds ++ rest) hws (isdigit_not_space hd)
  have hm : peek (ds ++ rest) ≠ '-' := by
    intro h; rw [h] at hd; exact absurd hd (by decide)
  have hp : peek (ds ++ rest) ≠ '+' := by
    intro h; rw [h] at hd; exact absurd hd (by decide)
  have h2 : (ds ++ rest).takeWhile isdigit = ds := takeWhile_run isdigit ds rest hds hrest
  simp only [strtoul, h1, List.drop_left, hm, hp, or_self, if_false, List.drop_zero, h2, hne,
    clamp_ulong, Nat.add_zero]

theorem month_loop_abbrev (m : Nat) (h1 : 1 ≤ m) (h12 : m ≤ 12) (rest : List Char) :
    month_loop _month 0 UINT_MAX (month_abbrev m ++ ' ' :: rest) = (m, ' ' :: rest) := by
  interval_cases m <;>
    simp [month_abbrev, _month, month_loop, strncmp, peek, NUL]

theorem drop_field (w ds r : List Char) : (w ++ (ds ++ r)).drop (w.length + ds.length) = r := by
  rw [← List.append_assoc, ← List.length_append, List.drop_left]

theorem field_length_ne_zero (w ds : List Char) (hne : ds ≠ []) : w.length + ds.length ≠ 0 := by
  have : 0 < ds.length := List.length_pos.mpr hne
  omega

theorem clamp_ulong_small (v b : Nat) (hb : b < ULONG_MAX) : clamp_ulong v > b ↔ v > b := by
  unfold clamp_ulong
  split <;> omega

theorem clamp_ulong_of_le (v : Nat) (h : v ≤ ULONG_MAX) : clamp_ulong v = v := by
  unfold clamp_ulong
  split <;> omega

theorem parse_day_field (date : oe_date_t) (w ds rest : List Char)
    (hw : ∀ c ∈ w, isspace c = true) (hds : ∀ c ∈ ds, isdigit c = true) (hne : ds ≠ []) :
    parse_day date (w ++ (ds ++ ' ' :: rest)) =
      if digits_value ds < 1 ∨ digits_value ds > 31 then (OE_FAILURE, date)
      else parse_hours { date with day := digits_value ds } rest := by
  have hs := strtoul_field w ds (' ' :: rest) hw hds hne rfl
  have hgt := clamp_ulong_small (digits_value ds) 31 (by decide)
  by_cases hr : digits_value ds < 1 ∨ digits_value ds > 31
  · have hc : clamp_ulong (digits_value ds) < 1 ∨ clamp_ulong (digits_value ds) > 31 := by
      rcases hr with h | h
      · left; rw [clamp_ulong_of_le _ (by unfold ULONG_MAX; omega)]; exact h
      · right; exact hgt.mpr h
    simp only [parse_day, hs, drop_field, hc, hr, or_true, if_true]
  · have hv : clamp_ulong (digits_value ds) = digits_value ds :=
      clamp_ulong_of_le _ (by unfold ULONG_MAX; omega)
    have hmod : digits_value ds % 2 ^ 32 = digits_value ds := Nat.mod_eq_of_lt (by omega)
    simp only [parse_day, hs, drop_field, hv, hr, field_length_ne_zero w ds hne, peek,
      List.headD_cons, ne_eq, not_true_eq_false, or_false, false_or, if_false, List.tail_cons,
      hmod]

theorem parse_hours_field (date : oe_date_t) (w ds rest : List Char)
    (hw : ∀ c ∈ w, isspace c = true) (hds : ∀ c ∈ ds, isdigit c = true) (hne : ds ≠ []) :
    parse_hours date (w ++ (ds ++ ':' :: rest)) =
      if digits_value ds > 23 then (OE_FAILURE, date)
      else parse_minutes { date with hours := digits_value ds } rest := by
  have hs := strtoul_field w ds (':' :: rest) hw hds hne rfl
  have hgt := clamp_ulong_small (digits_value ds) 23 (by decide)
  by_cases hr : digits_value ds > 23
  · simp only [parse_hours, hs, drop_field, hgt.mpr hr, hr, or_true, if_true]
  · have hv : clamp_ulong (digits_value ds) = digits_value ds :=
      clamp_ulong_of_le _ (by unfold ULONG_MAX; omega)
    have hmod : digits_value ds % 2 ^ 32 = digits_value ds := Nat.mod_eq_of_lt (by omega)
    simp only [parse_hours, hs, drop_field, hv, hr, field_length_ne_zero w ds hne, peek,
      List.headD_cons, ne_eq, not_true_eq_false, or_false, if_false, List.tail_cons, hmod]

theorem parse_minutes_field (date : oe_date_t) (w ds rest : List Char)
    (hw : ∀ c ∈ w, isspace c = true) (hds : ∀ c ∈ ds, isdigit c = true) (hne : ds ≠ []) :
    parse_minutes date (w ++ (ds ++ ':' :: rest)) =
      if digits_value ds > 59 then (OE_FAILURE, date)
      else parse_seconds { date with minutes := digits_value ds } rest := by
  have hs := strtoul_field w ds (':' :: rest) hw hds hne rfl
  have hgt := clamp_ulong_small (digits_value ds) 59 (by decide)
  by_cases hr : digits_value ds > 59
  · simp only [parse_minutes, hs, drop_field, hgt.mpr hr, hr, or_true, if_true]
  · have hv : clamp_ulong (digits_value ds) = digits_value ds :=
      clamp_ulong_of_le _ (by unfold ULONG_MAX; omega)
    have hmod : digits_value ds % 2 ^ 32 = digits_value ds := Nat.mod_eq_of_lt (by omega)
    simp only [parse_minutes, hs, drop_field, hv, hr, field_length_ne_zero w ds hne, peek,
      List.headD_cons, ne_eq, not_true_eq_false, or_false, if_false, List.tail_cons, hmod]

theorem parse_seconds_field (date : oe_date_t) (w ds rest : List Char)
    (hw : ∀ c ∈ w, isspace c = true) (hds : ∀ c ∈ ds, isdigit c = true) (hne : ds ≠ []) :
    parse_seconds date (w ++ (ds ++ ' ' :: rest)) =
      if digits_value ds > 59 then (OE_FAILURE, date)
      else parse_year { date with seconds := digits_value ds } rest := by
  have hs := strtoul_field w ds (' ' :: rest) hw hds hne rfl
  have hgt := clamp_ulong_small (digits_value ds) 59 (by decide)
  by_cases hr : digits_value ds > 59
  · simp only [parse_seconds, hs, drop_field, hgt.mpr hr, hr, or_true, if_true]
  · have hv : clamp_ulong (digits_value ds) = digits_value ds :=
      clamp_ulong_of_le _ (by unfold ULONG_MAX; omega)
    have hmod : digits_value ds % 2 ^ 32 = digits_value ds := Nat.mod_eq_of_lt (by omega)
    simp only [parse_seconds, hs, drop_field, hv, hr, field_length_ne_zero w ds hne, peek,
      List.headD_cons, ne_eq, not_true_eq_false, or_false, if_false, List.tail_cons, hmod]

theorem parse_year_field (date : oe_date_t) (w ds rest : List Char)
    (hw : ∀ c ∈ w, isspace c = true) (hds : ∀ c ∈ ds, isdigit c = true) (hne : ds ≠ []) :
    parse_year date (w ++ (ds ++ ' ' :: rest)) =
      check_gmt { date with year := clamp_ulong (digits_value ds) % 2 ^ 32 } rest := by
  have hs := strtoul_field w ds (' ' :: rest) hw hds hne rfl
  simp only [parse_year, hs, drop_field, field_length_ne_zero w ds hne, peek,
    List.headD_cons, ne_eq, not_true_eq_false, or_false, if_false, List.tail_cons]

theorem check_gmt_literal (date : oe_date_t) : check_gmt date "GMT".toList = (OE_OK, date) := by
  simp [check_gmt, strcmp, peek, NUL]

theorem after_month_space (date : oe_date_t) (rest : List Char) (h : date.month ≠ UINT_MAX) :
    after_month date (' ' :: rest) = parse_day date rest := by
  simp only [after_month, h, peek, List.headD_cons, ne_eq, not_true_eq_false, or_false,
    if_false, List.tail_cons]

theorem digit_run_ne_nil {ds : List Char} (h : digit_run ds = true) : ds ≠ [] := by
  intro hn; subst hn; exact absurd h (by decide)

theorem digit_run_all {ds : List Char} (h : digit_run ds = true) : ∀ c ∈ ds, isdigit c = true := by
  simp only [digit_run, Bool.and_eq_true, List.all_eq_true] at h
  exact h.2

theorem white_space_all {w : List Char} (h : white_space w = true) :
    ∀ c ∈ w, isspace c = true := by
  simpa only [white_space, List.all_eq_true] using h

theorem timestamp_eq_padded (m : Nat) (D H MI S Y : List Char) :
    timestamp m D H MI S Y = timestamp_padded m [] D [] H [] MI [] S [] Y "GMT".toList := by
  simp [timestamp, layout, timestamp_padded, List.append_assoc]

theorem string_to_date_padded (m : Nat) (w1 D w2 H w3 MI w4 S w5 Y tail : List Char)
    (d0 : oe_date_t) (h1 : 1 ≤ m) (h12 : m ≤ 12)
    (hw1 : white_space w1 = true) (hD : digit_run D = true)
    (hw2 : white_space w2 = true) (hH : digit_run H = true)
    (hw3 : white_space w3 = true) (hMI : digit_run MI = true)
    (hw4 : white_space w4 = true) (hS : digit_run S = true)
    (hw5 : white_space w5 = true) (hY : digit_run Y = true) :
    _string_to_date (timestamp_padded m w1 D w2 H w3 MI w4 S w5 Y tail) d0 =
      if digits_value D < 1 ∨ digits_value D > 31 then
        (OE_FAILURE, { date_zero with month := m })
      else if digits_value H > 23 then
        (OE_FAILURE, { date_zero with month := m, day := digits_value D })
      else if digits_value MI > 59 then
        (OE_FAILURE, { date_zero with month := m, day := digits_value D,
                                      hours := digits_value H })
      else if digits_value S > 59 then
        (OE_FAILURE, { date_zero with month := m, day := digits_value D,
                                      hours := digits_value H, minutes := digits_value MI })
      else
        check_gmt { year := clamp_ulong (digits_value Y) % 2 ^ 32, month := m,
                    day := digits_value D, hours := digits_value H,
                    minutes := digits_value MI, seconds := digits_value S } tail := by
  have hm : m ≠ UINT_MAX := by unfold UINT_MAX; omega
  simp only [_string_to_date, timestamp_padded, month_loop_abbrev m h1 h12]
  rw [after_month_space _ _ hm,
    parse_day_field _ w1 D _ (white_space_all hw1) (digit_run_all hD) (digit_run_ne_nil hD)]
  split
  · rfl
  rw [parse_hours_field _ w2 H _ (white_space_all hw2) (digit_run_all hH) (digit_run_ne_nil hH)]
  split
  · rfl
  rw [parse_minutes_field _ w3 MI _ (white_space_all hw3) (digit_run_all hMI)
    (digit_run_ne_nil hMI)]
  split
  · rfl
  rw [parse_seconds_field _ w4 S _ (white_space_all hw4) (digit_run_all hS) (digit_run_ne_nil hS)]
  split
  · rfl
  rw [parse_year_field _ w5 Y _ (white_space_all hw5) (digit_run_all hY) (digit_run_ne_nil hY)]

/-! ## The parser on well-formed timestamps -/

/-- C3: completeness of `_string_to_date` on well-formed input.  For every
month index `m` in 1..12 and every rendering of the day, hours, minutes,
seconds and year as non-empty runs of decimal digits (leading zeros allowed)
with the day in 1..31, the hours at most 23, the minutes and seconds at most 59
and the year below `2 ^ 32`, the parser returns `OE_OK` and the date holds
exactly those values; no check relates the day to the month. -/
theorem string_to_date_complete (m : Nat) (D H MI S Y : List Char) (d0 : oe_date_t)
    (hm1 : 1 ≤ m) (hm12 : m ≤ 12)
    (hD : digit_run D = true) (hH : digit_run H = true) (hMI : digit_run MI = true)
    (hS : digit_run S = true) (hY : digit_run Y = true)
    (hd1 : 1 ≤ digits_value D) (hd31 : digits_value D ≤ 31) (hh : digits_value H ≤ 23)
    (hmi : digits_value MI ≤ 59) (hs : digits_value S ≤ 59) (hy : digits_value Y < 2 ^ 32) :
    _string_to_date (timestamp m D H MI S Y) d0 =
      (OE_OK, { year := digits_value Y, month := m, day := digits_value D,
                hours := digits_value H, minutes := digits_value MI,
                seconds := digits_value S }) := by
  rw [timestamp_eq_padded,
    string_to_date_padded m [] D [] H [] MI [] S [] Y _ d0 hm1 hm12 rfl hD rfl hH rfl hMI rfl hS
      rfl hY]
  have hc : clamp_ulong (digits_value Y) % 2 ^ 32 = digits_value Y := by
    rw [clamp_ulong_of_le _ (by unfold ULONG_MAX; omega)]
    exact Nat.mod_eq_of_lt hy
  rw [if_neg (by omega), if_neg (by omega), if_neg (by omega), if_neg (by omega), hc,
    check_gmt_literal]

set_option maxRecDepth 100000 in
/-- The witness of C3 named by the specification: "Dec 31 23:59:59 2099 GMT"
parses to `{12, 31, 23, 59, 59, 2099}`. -/
theorem string_to_date_complete_witness :
    (1 ≤ 12 ∧ 12 ≤ 12 ∧ digit_run "31".toList = true ∧ digits_value "2099".toList < 2 ^ 32) ∧
    _string_to_date "Dec 31 23:59:59 2099 GMT".toList date_zero =
      (OE_OK, { year := 2099, month := 12, day := 31, hours := 23, minutes := 59,
                seconds := 59 }) :=
  ⟨by decide,
   string_to_date_complete 12 "31".toList "23".toList "59".toList "59".toList "2099".toList
     date_zero (by decide) (by decide) (by decide) (by decide) (by decide) (by decide) (by decide)
     (by decide) (by decide) (by decide) (by decide) (by decide) (by decide)⟩

set_option maxRecDepth 100000 in
/-- The other witness of C3: "Jan 1 00:00:00 1970 GMT" parses to
`{1, 1, 0, 0, 0, 1970}`. -/
theorem string_to_date_epoch :
    _string_to_date "Jan 1 00:00:00 1970 GMT".toList date_zero =
      (OE_OK, { year := 1970, month := 1, day := 1, hours := 0, minutes := 0, seconds := 0 }) := by
  decide

set_option maxRecDepth 100000 in
/-- No day-of-month versus month check is made: "Feb 30 12:00:00 2024 GMT"
parses. -/
theorem string_to_date_feb_30 :
    _string_to_date "Feb 30 12:00:00 2024 GMT".toList date_zero =
      (OE_OK, { year := 2024, month := 2, day := 30, hours := 12, minutes := 0, seconds := 0 }) := by
  decide

/-- C4: range rejection in `_string_to_date`.  For every string of the fixed
layout whose numeric fields are non-empty runs of decimal digits of any
length, if the value of the day is 0 or above 31, or the hours are above 23,
or the minutes or the seconds are above 59, the parser returns `OE_FAILURE`;
the values are unbounded naturals, so this covers runs that do not fit in an
`unsigned long`. -/
theorem string_to_date_range_rejects (m : Nat) (D H MI S Y : List Char) (d0 : oe_date_t)
    (hm1 : 1 ≤ m) (hm12 : m ≤ 12)
    (hD : digit_run D = true) (hH : digit_run H = true) (hMI : digit_run MI = true)
    (hS : digit_run S = true) (hY : digit_run Y = true)
    (hbad : digits_value D = 0 ∨ digits_value D > 31 ∨ digits_value H > 23 ∨
      digits_value MI > 59 ∨ digits_value S > 59) :
    (_string_to_date (timestamp m D H MI S Y) d0).1 = OE_FAILURE := by
  rw [timestamp_eq_padded,
    string_to_date_padded m [] D [] H [] MI [] S [] Y _ d0 hm1 hm12 rfl hD rfl hH rfl hMI rfl hS
      rfl hY]
  split
  · rfl
  split
  · rfl
  split
  · rfl
  split
  · rfl
  omega

set_option maxRecDepth 100000 in
/-- The witness of C4 named by the specification: "Dec 31 23:59:60 2099 GMT"
fails, the seconds being out of range. -/
theorem string_to_date_range_rejects_witness :
    digits_value "60".toList > 59 ∧
    (_string_to_date "Dec 31 23:59:60 2099 GMT".toList date_zero).1 = OE_FAILURE :=
  ⟨by decide,
   string_to_date_range_rejects 12 "31".toList "23".toList "59".toList "60".toList
     "2099".toList date_zero (by decide) (by decide) (by decide) (by decide) (by decide)
     (by decide) (by decide) (Or.inr (Or.inr (Or.inr (Or.inr (by decide)))))⟩

set_option maxRecDepth 100000 in
/-- The other witness of C4: "Dec 32 00:00:00 2000 GMT" fails, the day being
out of range. -/
theorem string_to_date_day_32 :
    (_string_to_date "Dec 32 00:00:00 2000 GMT".toList date_zero).1 = OE_FAILURE := by
  decide

set_option maxRecDepth 100000 in
/-- A day that does not fit in an `unsigned long` is read as `ULONG_MAX` and
fails the range check. -/
theorem string_to_date_day_overflow :
    digits_value "99999999999999999999".toList > ULONG_MAX ∧
    (_string_to_date "Dec 99999999999999999999 00:00:00 2000 GMT".toList date_zero).1 =
      OE_FAILURE := by
  decide

/-! ## White space in front of a numeric field -/

set_option maxRecDepth 100000 in
/-- C2 as stated fails: "Jan  1 00:00:00 1970 GMT", with two spaces between
the month and the day, is not rejected; it parses to `{1, 1, 0, 0, 0, 1970}`. -/
theorem string_to_date_double_space_accepted :
    (_string_to_date "Jan  1 00:00:00 1970 GMT".toList date_zero).1 ≠ OE_FAILURE ∧
    _string_to_date "Jan  1 00:00:00 1970 GMT".toList date_zero =
      (OE_OK, { year := 1970, month := 1, day := 1, hours := 0, minutes := 0, seconds := 0 }) := by
  decide

/-- C2, amended: white space in front of a numeric field is skipped by
`strtoul`.  For every well-formed timestamp (fields non-empty digit runs, day
in 1..31, hours at most 23, minutes and seconds at most 59), inserting any
white space `w1` to `w5` in front of the five numeric fields gives `OE_OK` and
the same date as the string without the inserted white space. -/
theorem string_to_date_leading_space (m : Nat) (w1 D w2 H w3 MI w4 S w5 Y : List Char)
    (d0 : oe_date_t) (hm1 : 1 ≤ m) (hm12 : m ≤ 12)
    (hw1 : white_space w1 = true) (hw2 : white_space w2 = true) (hw3 : white_space w3 = true)
    (hw4 : white_space w4 = true) (hw5 : white_space w5 = true)
    (hD : digit_run D = true) (hH : digit_run H = true) (hMI : digit_run MI = true)
    (hS : digit_run S = true) (hY : digit_run Y = true)
    (hd1 : 1 ≤ digits_value D) (hd31 : digits_value D ≤ 31) (hh : digits_value H ≤ 23)
    (hmi : digits_value MI ≤ 59) (hs : digits_value S ≤ 59) :
    (_string_to_date (timestamp_padded m w1 D w2 H w3 MI w4 S w5 Y "GMT".toList) d0).1 = OE_OK ∧
    _string_to_date (timestamp_padded m w1 D w2 H w3 MI w4 S w5 Y "GMT".toList) d0 =
      _string_to_date (timestamp m D H MI S Y) d0 := by
  rw [timestamp_eq_padded,
    string_to_date_padded m [] D [] H [] MI [] S [] Y _ d0 hm1 hm12 rfl hD rfl hH rfl hMI rfl hS
      rfl hY,
    string_to_date_padded m w1 D w2 H w3 MI w4 S w5 Y _ d0 hm1 hm12 hw1 hD hw2 hH hw3 hMI hw4 hS
      hw5 hY]
  rw [if_neg (by omega), if_neg (by omega), if_neg (by omega), if_neg (by omega),
    check_gmt_literal]
  exact ⟨rfl, rfl⟩

set_option maxRecDepth 100000 in
/-- The amended C2 at "Jan  1 00:00:00 1970 GMT": one extra space in front of
the day, same result as "Jan 1 00:00:00 1970 GMT". -/
theorem string_to_date_leading_space_witness :
    (white_space " ".toList = true ∧ digit_run "1".toList = true) ∧
    ((_string_to_date "Jan  1 00:00:00 1970 GMT".toList date_zero).1 = OE_OK ∧
     _string_to_date "Jan  1 00:00:00 1970 GMT".toList date_zero =
       _string_to_date "Jan 1 00:00:00 1970 GMT".toList date_zero) :=
  ⟨by decide,
   string_to_date_leading_space 1 " ".toList "1".toList [] "00".toList [] "00".toList []
     "00".toList [] "1970".toList date_zero (by decide) (by decide) (by decide) (by decide)
     (by decide) (by decide) (by decide) (by decide) (by decide) (by decide) (by decide)
     (by decide) (by decide) (by decide) (by decide) (by decide) (by decide)⟩

/-! ## What the parser accepts -/

theorem peek_ne_NUL_cons {p : List Char} {c : Char} (h : peek p = c) (hc : c ≠ NUL) :
    p = c :: p.tail := by
  cases p with
  | nil => exact absurd h.symm hc
  | cons a p => simp only [peek, List.headD_cons] at h; rw [h, List.tail_cons]

theorem strncmp_zero (n : Nat) : ∀ (p m : List Char), strncmp p m n = 0 → m.length = n →
    (∀ c ∈ m, c ≠ NUL) → p = m ++ p.drop n := by
  induction n with
  | zero =>
    intro p m _ hlen _
    rw [List.length_eq_zero.mp hlen]; rfl
  | succ n ih =>
    intro p m h hlen hnul
    cases m with
    | nil => simp at hlen
    | cons c m =>
      have hc : c ≠ NUL := hnul c (List.mem_cons_self _ _)
      rw [strncmp] at h
      by_cases hpc : peek p = peek (c :: m)
      · rw [if_neg (not_not.mpr hpc)] at h
        have hp : peek p = c := hpc
        rw [if_neg (by rw [hp]; exact hc)] at h
        have hcons := peek_ne_NUL_cons hp hc
        have hrec := ih p.tail m h (by simpa using hlen)
          (fun x hx => hnul x (List.mem_cons_of_mem _ hx))
        rw [hcons, List.drop_succ_cons, List.cons_append]
        exact congrArg (List.cons c) hrec
      · rw [if_pos hpc] at h
        exact absurd h (char_sub_ne_zero hpc)

theorem strcmp_zero : ∀ (p m : List Char), strcmp p m = 0 → (∀ c ∈ m, c ≠ NUL) →
    ∃ rest, p = m ++ rest ∧ peek rest = NUL := by
  intro p
  induction p with
  | nil =>
    intro m h hnul
    cases m with
    | nil => exact ⟨[], rfl, rfl⟩
    | cons c m =>
      have hc : c ≠ NUL := hnul c (List.mem_cons_self _ _)
      rw [strcmp] at h
      exact absurd h (char_sub_ne_zero (fun e => hc e.symm))
  | cons a p ih =>
    intro m h hnul
    cases m with
    | nil =>
      rw [strcmp] at h
      by_cases ha : a = peek []
      · exact ⟨a :: p, rfl, ha⟩
      · rw [if_pos ha] at h
        exact absurd h (char_sub_ne_zero ha)
    | cons c m =>
      have hc : c ≠ NUL := hnul c (List.mem_cons_self _ _)
      rw [strcmp] at h
      by_cases ha : a = peek (c :: m)
      · rw [if_neg (not_not.mpr ha)] at h
        have hac : a = c := ha
        rw [if_neg (by rw [hac]; exact hc)] at h
        obtain ⟨rest, hrest, hpk⟩ := ih m h (fun x hx => hnul x (List.mem_cons_of_mem _ hx))
        exact ⟨rest, by rw [hac, hrest, List.cons_append], hpk⟩
      · rw [if_pos ha] at h
        exact absurd h (char_sub_ne_zero ha)

theorem month_table_entries : ∀ m ∈ _month, m.length = 3 ∧ ∀ c ∈ m, c ≠ NUL := by
  decide

theorem month_loop_consumed (t : List (List Char))
    (ht : ∀ m ∈ t, m.length = 3 ∧ ∀ c ∈ m, c ≠ NUL) :
    ∀ (i month : Nat) (p : List Char),
      ((month_loop t i month p).1 = month ∧ (month_loop t i month p).2 = p) ∨
      (i + 1 ≤ (month_loop t i month p).1 ∧ (month_loop t i month p).1 ≤ i + t.length ∧
        ∃ mon ∈ t, ∃ X, p = mon ++ (X ++ (month_loop t i month p).2)) := by
  induction t with
  | nil => intro i month p; left; exact ⟨rfl, rfl⟩
  | cons m rest ih =>
    intro i month p
    have ih2 := ih (fun x hx => ht x (List.mem_cons_of_mem _ hx))
    rw [month_loop]
    by_cases hm : strncmp p m 3 = 0
    · rw [if_pos hm]
      have hmm := ht m (List.mem_cons_self _ _)
      have hp := strncmp_zero 3 p m hm hmm.1 hmm.2
      right
      rcases ih2 (i + 1) (i + 1) (p.drop 3) with ⟨h1, h2⟩ | ⟨h1, h2, mon, hmon, X, hX⟩
      · refine ⟨by omega, by simp only [List.length_cons]; omega, m, List.mem_cons_self _ _, [], ?_⟩
        rw [h2, List.nil_append]; exact hp
      · refine ⟨by omega, by simp only [List.length_cons]; omega, m, List.mem_cons_self _ _,
          mon ++ X, ?_⟩
        rw [List.append_assoc, ← hX]; exact hp
    · rw [if_neg hm]
      rcases ih2 (i + 1) month p with ⟨h1, h2⟩ | ⟨h1, h2, mon, hmon, X, hX⟩
      · left; exact ⟨h1, h2⟩
      · right
        exact ⟨by omega, by simp only [List.length_cons]; omega, mon,
          List.mem_cons_of_mem _ hmon, X, hX⟩

theorem take_takeWhile_length (f : Char → Bool) (l : List Char) :
    l.take (l.takeWhile f).length = l.takeWhile f := by
  have h := List.take_left (l.takeWhile f) (l.dropWhile f)
  rw [List.takeWhile_append_dropWhile] at h
  exact h

theorem drop_takeWhile_length (f : Char → Bool) (l : List Char) :
    l.drop (l.takeWhile f).length = l.dropWhile f := by
  have h := List.drop_left (l.takeWhile f) (l.dropWhile f)
  rw [List.takeWhile_append_dropWhile] at h
  exact h

theorem dropWhile_self_of_peek (f : Char → Bool) (l : List Char) (h : f (peek l) = false) :
    l.dropWhile f = l := by
  cases l with
  | nil => rfl
  | cons c l => simp only [peek, List.headD_cons] at h; simp [List.dropWhile_cons, h]

theorem peek_dropWhile (f : Char → Bool) (hf : f NUL = false) (l : List Char) :
    f (peek (l.dropWhile f)) = false := by
  induction l with
  | nil => exact hf
  | cons c l ih =>
    rw [List.dropWhile_cons]
    by_cases hc : f c = true
    · rw [if_pos hc]; exact ih
    · rw [if_neg hc]; simpa [peek] using hc

theorem drop_add_left (m n : Nat) (l : List Char) : l.drop (m + n) = (l.drop m).drop n := by
  rw [List.drop_drop, Nat.add_comm]

theorem digit_run_takeWhile (l : List Char) (h : l.takeWhile isdigit ≠ []) :
    digit_run (l.takeWhile isdigit) = true := by
  simp only [digit_run, Bool.and_eq_true, List.all_eq_true, Bool.not_eq_true',
    List.isEmpty_eq_false]
  exact ⟨h, fun _ hc => List.mem_takeWhile_imp hc⟩

theorem takeWhile_all (f : Char → Bool) (l : List Char) : ∀ c ∈ l.takeWhile f, f c = true :=
  fun _ hc => List.mem_takeWhile_imp hc

/-- The shape of what `strtoul` consumes when it consumes anything: white
space, an optional sign, a non-empty digit run, ending at a non-digit. -/
theorem strtoul_shape (p : List Char) (h : (strtoul p).2 ≠ 0) :
    ∃ ws sg ds, p = ws ++ (sg ++ (ds ++ p.drop (strtoul p).2)) ∧
      (strtoul p).2 = ws.length + sg.length + ds.length ∧
      white_space ws = true ∧ (sg = [] ∨ sg = ['-'] ∨ sg = ['+']) ∧ digit_run ds = true ∧
      (sg = [] → peek ds ≠ '-' ∧ peek ds ≠ '+') ∧
      isdigit (peek (p.drop (strtoul p).2)) = false := by
  have hp : p = p.takeWhile isspace ++ p.dropWhile isspace :=
    (List.takeWhile_append_dropWhile isspace p).symm
  generalize hws : p.takeWhile isspace = ws at hp
  generalize hq : p.dropWhile isspace = q at hp
  have hwsall : white_space ws = true := by
    rw [← hws]; simp only [white_space, List.all_eq_true]; exact takeWhile_all isspace p
  have hdq : p.drop ws.length = q := by rw [← hws, drop_takeWhile_length, hq]
  by_cases hsign : peek q = '-' ∨ peek q = '+'
  · have hqc : q = peek q :: q.tail := by
      rcases hsign with e | e
      · exact peek_ne_NUL_cons rfl (by rw [e]; decide)
      · exact peek_ne_NUL_cons rfl (by rw [e]; decide)
    have hd1 : q.drop 1 = q.tail := by rw [List.drop_one]
    have hoff : (strtoul p).2 = if q.tail.takeWhile isdigit = [] then 0
        else ws.length + 1 + (q.tail.takeWhile isdigit).length := by
      simp only [strtoul, hws, hdq, hsign, if_true, hd1]
      split <;> rfl
    by_cases hds : q.tail.takeWhile isdigit = []
    · rw [hoff, if_pos hds] at h; exact absurd rfl h
    · rw [if_neg hds] at hoff
      refine ⟨ws, [peek q], q.tail.takeWhile isdigit, ?_, ?_, hwsall, ?_, ?_, ?_, ?_⟩
      · rw [hoff, Nat.add_assoc, drop_add_left, hdq, drop_add_left, hd1, drop_takeWhile_length,
          List.takeWhile_append_dropWhile]
        simpa using (by rw [← hqc]; exact hp)
      · rw [hoff]; rfl
      · rcases hsign with e | e
        · right; left; rw [e]
        · right; right; rw [e]
      · exact digit_run_takeWhile _ hds
      · intro hnil; exact absurd hnil (by simp)
      · rw [hoff, Nat.add_assoc, drop_add_left, hdq, drop_add_left, hd1, drop_takeWhile_length]
        exact peek_dropWhile isdigit isdigit_NUL _
  · have hoff : (strtoul p).2 = if q.takeWhile isdigit = [] then 0
        else ws.length + 0 + (q.takeWhile isdigit).length := by
      simp only [strtoul, hws, hdq, hsign, if_false, List.drop_zero]
      split <;> rfl
    by_cases hds : q.takeWhile isdigit = []
    · rw [hoff, if_pos hds] at h; exact absurd rfl h
    · rw [if_neg hds] at hoff
      have hpk : peek (q.takeWhile isdigit) = peek q := by
        have h2 := peek_append_of_ne_nil (q.takeWhile isdigit) (q.dropWhile isdigit) hds
        rw [List.takeWhile_append_dropWhile] at h2
        exact h2.symm
      refine ⟨ws, [], q.takeWhile isdigit, ?_, ?_, hwsall, Or.inl rfl, ?_, ?_, ?_⟩
      · rw [hoff, Nat.add_zero, drop_add_left, hdq, drop_takeWhile_length, List.nil_append,
          List.takeWhile_append_dropWhile]
        exact hp
      · rw [hoff]; rfl
      · exact digit_run_takeWhile _ hds
      · intro _
        rw [hpk]
        exact ⟨fun e => hsign (Or.inl e), fun e => hsign (Or.inr e)⟩
      · rw [hoff, Nat.add_zero, drop_add_left, hdq, drop_takeWhile_length]
        exact peek_dropWhile isdigit isdigit_NUL _

theorem failure_ne_ok : ¬ (OE_FAILURE = OE_OK) := by decide

theorem numeric_field_of_shape (ws sg ds : List Char) (hws : white_space ws = true)
    (hsg : sg = [] ∨ sg = ['-'] ∨ sg = ['+']) (hds : digit_run ds = true)
    (hns : sg = [] → peek ds ≠ '-' ∧ peek ds ≠ '+') :
    numeric_field (ws ++ (sg ++ ds)) = true := by
  have hd : isdigit (peek ds) = true :=
    isdigit_peek_of_run ds (digit_run_all hds) (digit_run_ne_nil hds)
  unfold numeric_field
  rw [List.dropWhile_append_of_pos (white_space_all hws)]
  rcases hsg with e | e | e
  · subst e
    obtain ⟨h1, h2⟩ := hns rfl
    rw [List.nil_append, dropWhile_self_of_peek isspace ds (isdigit_not_space hd)]
    simp only [h1, h2, or_self, if_false]
    exact hds
  · subst e
    rw [dropWhile_self_of_peek isspace _ (by rfl)]
    simpa [peek] using hds
  · subst e
    rw [dropWhile_self_of_peek isspace _ (by rfl)]
    simpa [peek] using hds

/-- A successful numeric scan followed by the separator `c`: the text at `p`
is a numeric field, then `c`, then what the next block scans. -/
theorem field_of_strtoul (p : List Char) (c : Char) (hc : c ≠ NUL) (hoff : (strtoul p).2 ≠ 0)
    (hsep : peek (p.drop (strtoul p).2) = c) :
    ∃ F, p = F ++ c :: (p.drop (strtoul p).2).tail ∧ numeric_field F = true := by
  obtain ⟨ws, sg, ds, hp, _, hws, hsg, hds, hns, _⟩ := strtoul_shape p hoff
  refine ⟨ws ++ (sg ++ ds), ?_, numeric_field_of_shape ws sg ds hws hsg hds hns⟩
  rw [← peek_ne_NUL_cons hsep hc, List.append_assoc, List.append_assoc]
  exact hp

theorem check_gmt_ok (date : oe_date_t) (p : List Char) (h : (check_gmt date p).1 = OE_OK) :
    ∃ rest, p = "GMT".toList ++ rest ∧ peek rest = NUL := by
  unfold check_gmt at h
  by_cases hc : strcmp p "GMT".toList = 0
  · exact strcmp_zero p _ hc (by decide)
  · rw [if_pos hc] at h; exact absurd h failure_ne_ok

theorem parse_year_ok (date : oe_date_t) (p : List Char) (h : (parse_year date p).1 = OE_OK) :
    ∃ F rest, p = F ++ ' ' :: ("GMT".toList ++ rest) ∧ numeric_field F = true ∧
      peek rest = NUL := by
  unfold parse_year at h
  simp only at h
  by_cases hc : (strtoul p).2 = 0 ∨ peek (p.drop (strtoul p).2) ≠ ' '
  · rw [if_pos hc] at h; exact absurd h failure_ne_ok
  · rw [if_neg hc] at h
    rw [not_or, not_not] at hc
    obtain ⟨F, hF, hnum⟩ := field_of_strtoul p ' ' (by decide) hc.1 hc.2
    obtain ⟨rest, hrest, hpk⟩ := check_gmt_ok _ _ h
    exact ⟨F, rest, by rw [← hrest]; exact hF, hnum, hpk⟩

theorem parse_seconds_ok (date : oe_date_t) (p : List Char)
    (h : (parse_seconds date p).1 = OE_OK) :
    ∃ F rest date2, p = F ++ ' ' :: rest ∧ numeric_field F = true ∧
      (parse_year date2 rest).1 = OE_OK := by
  unfold parse_seconds at h
  simp only at h
  by_cases hc : (strtoul p).2 = 0 ∨ peek (p.drop (strtoul p).2) ≠ ' ' ∨ (strtoul p).1 > 59
  · rw [if_pos hc] at h; exact absurd h failure_ne_ok
  · rw [if_neg hc] at h
    simp only [not_or, not_not] at hc
    obtain ⟨F, hF, hnum⟩ := field_of_strtoul p ' ' (by decide) hc.1 hc.2.1
    exact ⟨F, _, _, hF, hnum, h⟩

theorem parse_minutes_ok (date : oe_date_t) (p : List Char)
    (h : (parse_minutes date p).1 = OE_OK) :
    ∃ F rest date2, p = F ++ ':' :: rest ∧ numeric_field F = true ∧
      (parse_seconds date2 rest).1 = OE_OK := by
  unfold parse_minutes at h
  simp only at h
  by_cases hc : (strtoul p).2 = 0 ∨ peek (p.drop (strtoul p).2) ≠ ':' ∨ (strtoul p).1 > 59
  · rw [if_pos hc] at h; exact absurd h failure_ne_ok
  · rw [if_neg hc] at h
    simp only [not_or, not_not] at hc
    obtain ⟨F, hF, hnum⟩ := field_of_strtoul p ':' (by decide) hc.1 hc.2.1
    exact ⟨F, _, _, hF, hnum, h⟩

theorem parse_hours_ok (date : oe_date_t) (p : List Char)
    (h : (parse_hours date p).1 = OE_OK) :
    ∃ F rest date2, p = F ++ ':' :: rest ∧ numeric_field F = true ∧
      (parse_minutes date2 rest).1 = OE_OK := by
  unfold parse_hours at h
  simp only at h
  by_cases hc : (strtoul p).2 = 0 ∨ peek (p.drop (strtoul p).2) ≠ ':' ∨ (strtoul p).1 > 23
  · rw [if_pos hc] at h; exact absurd h failure_ne_ok
  · rw [if_neg hc] at h
    simp only [not_or, not_not] at hc
    obtain ⟨F, hF, hnum⟩ := field_of_strtoul p ':' (by decide) hc.1 hc.2.1
    exact ⟨F, _, _, hF, hnum, h⟩

theorem parse_day_ok (date : oe_date_t) (p : List Char)
    (h : (parse_day date p).1 = OE_OK) :
    ∃ F rest date2, p = F ++ ' ' :: rest ∧ numeric_field F = true ∧
      (parse_hours date2 rest).1 = OE_OK := by
  unfold parse_day at h
  simp only at h
  by_cases hc : (strtoul p).2 = 0 ∨ peek (p.drop (strtoul p).2) ≠ ' ' ∨ (strtoul p).1 < 1 ∨
      (strtoul p).1 > 31
  · rw [if_pos hc] at h; exact absurd h failure_ne_ok
  · rw [if_neg hc] at h
    simp only [not_or, not_not] at hc
    obtain ⟨F, hF, hnum⟩ := field_of_strtoul p ' ' (by decide) hc.1 hc.2.1
    exact ⟨F, _, _, hF, hnum, h⟩

theorem after_month_ok (date : oe_date_t) (p : List Char)
    (h : (after_month date p).1 = OE_OK) :
    date.month ≠ UINT_MAX ∧ p = ' ' :: p.tail ∧ (parse_day date p.tail).1 = OE_OK := by
  unfold after_month at h
  by_cases hc : date.month = UINT_MAX ∨ peek p ≠ ' '
  · rw [if_pos hc] at h; exact absurd h failure_ne_ok
  · rw [if_neg hc] at h
    simp only [not_or, not_not] at hc
    exact ⟨hc.1, peek_ne_NUL_cons hc.2 (by decide), h⟩

/-- Every accepted string: a month abbreviation at position 0, whatever else
the month loop consumed, then the five numeric fields with their separators
and the literal "GMT" at the terminator. -/
theorem string_to_date_ok_layout (s : List Char) (d0 : oe_date_t)
    (h : (_string_to_date s d0).1 = OE_OK) :
    ∃ mon X F1 F2 F3 F4 F5 rest, mon ∈ _month ∧
      s = layout (mon ++ X) F1 F2 F3 F4 F5 ++ rest ∧
      numeric_field F1 = true ∧ numeric_field F2 = true ∧ numeric_field F3 = true ∧
      numeric_field F4 = true ∧ numeric_field F5 = true ∧ peek rest = NUL := by
  unfold _string_to_date at h
  simp only at h
  obtain ⟨hmo, hsp, hday⟩ := after_month_ok _ _ h
  simp only at hmo
  rcases month_loop_consumed _month month_table_entries 0 UINT_MAX s with
    ⟨h1, _⟩ | ⟨_, _, mon, hmon, X, hX⟩
  · exact absurd h1 hmo
  · obtain ⟨F1, r1, d1, e1, n1, k1⟩ := parse_day_ok _ _ hday
    obtain ⟨F2, r2, d2, e2, n2, k2⟩ := parse_hours_ok _ _ k1
    obtain ⟨F3, r3, d3, e3, n3, k3⟩ := parse_minutes_ok _ _ k2
    obtain ⟨F4, r4, d4, e4, n4, k4⟩ := parse_seconds_ok _ _ k3
    obtain ⟨F5, rest, e5, n5, hpk⟩ := parse_year_ok _ _ k4
    refine ⟨mon, X, F1, F2, F3, F4, F5, rest, hmon, ?_, n1, n2, n3, n4, n5, hpk⟩
    rw [hX, hsp, e1, e2, e3, e4, e5]
    simp [layout, List.append_assoc]

theorem month_abbrev_of_mem (mon : List Char) (h : mon ∈ _month) :
    ∃ m, 1 ≤ m ∧ m ≤ 12 ∧ mon = month_abbrev m := by
  simp only [_month, List.mem_cons, List.mem_singleton, List.not_mem_nil, or_false] at h
  rcases h with h | h | h | h | h | h | h | h | h | h | h | h
  · exact ⟨1, by decide, by decide, h⟩
  · exact ⟨2, by decide, by decide, h⟩
  · exact ⟨3, by decide, by decide, h⟩
  · exact ⟨4, by decide, by decide, h⟩
  · exact ⟨5, by decide, by decide, h⟩
  · exact ⟨6, by decide, by decide, h⟩
  · exact ⟨7, by decide, by decide, h⟩
  · exact ⟨8, by decide, by decide, h⟩
  · exact ⟨9, by decide, by decide, h⟩
  · exact ⟨10, by decide, by decide, h⟩
  · exact ⟨11, by decide, by decide, h⟩
  · exact ⟨12, by decide, by decide, h⟩

set_option maxRecDepth 100000 in
/-- C1 as stated fails: "Jan +1 00:00:00 1970 GMT" is accepted although its
day field carries a sign, so the string is not of the strict grammar. -/
theorem string_to_date_sign_accepted :
    (_string_to_date "Jan +1 00:00:00 1970 GMT".toList date_zero).1 = OE_OK ∧
    ¬ strict_timestamp "Jan +1 00:00:00 1970 GMT".toList := by
  refine ⟨by decide, ?_⟩
  rintro ⟨m, D, H, MI, S, Y, h1, h12, hD, -, -, -, -, heq⟩
  cases D with
  | nil => exact absurd hD (by decide)
  | cons c D =>
    have hc : isdigit c = true := digit_run_all hD c (List.mem_cons_self _ _)
    interval_cases m <;>
      simp [timestamp, layout, month_abbrev, _month] at heq
    rw [← heq.1] at hc
    exact absurd hc (by decide)

/-- C1, amended: grammar soundness of `_string_to_date`.  If the parser
returns `OE_OK` then the string begins, at position 0, with one of the twelve
abbreviations, and from the space that ends the month step on it is
`' ' F1 ' ' F2 ':' F3 ':' F4 ' ' F5 ' ' "GMT"` up to the terminator, where
each numeric field is optional white space, an optional sign and a non-empty
run of decimal digits, immediately followed by its single separator.  What
the month step consumed after the first abbreviation is `X`. -/
theorem string_to_date_sound (s : List Char) (d0 : oe_date_t)
    (h : (_string_to_date s d0).1 = OE_OK) :
    ∃ m X F1 F2 F3 F4 F5 rest, 1 ≤ m ∧ m ≤ 12 ∧
      s = layout (month_abbrev m ++ X) F1 F2 F3 F4 F5 ++ rest ∧
      numeric_field F1 = true ∧ numeric_field F2 = true ∧ numeric_field F3 = true ∧
      numeric_field F4 = true ∧ numeric_field F5 = true ∧ peek rest = NUL := by
  obtain ⟨mon, X, F1, F2, F3, F4, F5, rest, hmon, hs, n1, n2, n3, n4, n5, hpk⟩ :=
    string_to_date_ok_layout s d0 h
  obtain ⟨m, h1, h12, hm⟩ := month_abbrev_of_mem mon hmon
  exact ⟨m, X, F1, F2, F3, F4, F5, rest, h1, h12, by rw [← hm]; exact hs, n1, n2, n3, n4, n5,
    hpk⟩

set_option maxRecDepth 100000 in
/-- The amended C1 at "Jan +1 00:00:00 1970 GMT". -/
theorem string_to_date_sound_witness :
    (_string_to_date "Jan +1 00:00:00 1970 GMT".toList date_zero).1 = OE_OK ∧
    ∃ m X F1 F2 F3 F4 F5 rest, 1 ≤ m ∧ m ≤ 12 ∧
      "Jan +1 00:00:00 1970 GMT".toList = layout (month_abbrev m ++ X) F1 F2 F3 F4 F5 ++ rest ∧
      numeric_field F1 = true ∧ numeric_field F2 = true ∧ numeric_field F3 = true ∧
      numeric_field F4 = true ∧ numeric_field F5 = true ∧ peek rest = NUL :=
  ⟨by decide, string_to_date_sound "Jan +1 00:00:00 1970 GMT".toList date_zero (by decide)⟩

/-! ## The result and the date of a rejected string -/

theorem month_loop_range (s : List Char) :
    (month_loop _month 0 UINT_MAX s).1 = UINT_MAX ∨
    (1 ≤ (month_loop _month 0 UINT_MAX s).1 ∧ (month_loop _month 0 UINT_MAX s).1 ≤ 12) := by
  rcases month_loop_consumed _month month_table_entries 0 UINT_MAX s with ⟨h, _⟩ | ⟨h1, h2, _⟩
  · left; exact h
  · right; exact ⟨h1, by simpa [_month] using h2⟩

theorem mod_le_of_le {v b : Nat} (h : v ≤ b) : v % 2 ^ 32 ≤ b :=
  Nat.le_trans (Nat.mod_le _ _) h

theorem check_gmt_fail_ok (v : oe_date_t) (p : List Char) (h : written_ok 6 v) :
    fail_ok (check_gmt (written_upto 6 v) p) := by
  intro hne
  unfold check_gmt at hne ⊢
  split_ifs at hne ⊢ with c
  · exact ⟨rfl, 6, v, by decide, by decide, rfl, h⟩
  · exact absurd rfl hne

theorem parse_year_fail_ok (v : oe_date_t) (p : List Char) (h : written_ok 5 v) :
    fail_ok (parse_year (written_upto 5 v) p) := by
  unfold parse_year
  simp only
  split_ifs with c
  · intro _
    exact ⟨rfl, 5, v, by decide, by decide, rfl, h⟩
  · have hw : written_ok 6 { v with year := (strtoul p).1 % 2 ^ 32 } := by
      unfold written_ok at h ⊢
      obtain ⟨h1, h2, h3, h4, h5, h6, _⟩ := h
      refine ⟨h1, fun e => absurd (h2 e) (by decide), fun _ => h3 (by decide),
        fun _ => h4 (by decide), fun _ => h5 (by decide), fun _ => h6 (by decide),
        fun _ => Nat.mod_lt _ (by decide)⟩
    have e : ({ written_upto 5 v with year := (strtoul p).1 % 2 ^ 32 } : oe_date_t) =
        written_upto 6 { v with year := (strtoul p).1 % 2 ^ 32 } := by
      simp [written_upto]
    rw [e]
    exact check_gmt_fail_ok { v with year := (strtoul p).1 % 2 ^ 32 } _ hw

theorem parse_seconds_fail_ok (v : oe_date_t) (p : List Char) (h : written_ok 4 v) :
    fail_ok (parse_seconds (written_upto 4 v) p) := by
  unfold parse_seconds
  simp only
  split_ifs with c
  · intro _
    exact ⟨rfl, 4, v, by decide, by decide, rfl, h⟩
  · simp only [not_or, not_not, not_lt, gt_iff_lt] at c
    have hw : written_ok 5 { v with seconds := (strtoul p).1 % 2 ^ 32 } := by
      unfold written_ok at h ⊢
      obtain ⟨h1, h2, h3, h4, h5, _, _⟩ := h
      refine ⟨h1, fun e => absurd (h2 e) (by decide), fun _ => h3 (by decide),
        fun _ => h4 (by decide), fun _ => h5 (by decide), fun _ => mod_le_of_le c.2.2,
        fun e => absurd e (by decide)⟩
    have e : ({ written_upto 4 v with seconds := (strtoul p).1 % 2 ^ 32 } : oe_date_t) =
        written_upto 5 { v with seconds := (strtoul p).1 % 2 ^ 32 } := by
      simp [written_upto]
    rw [e]
    exact parse_year_fail_ok { v with seconds := (strtoul p).1 % 2 ^ 32 } _ hw

theorem parse_minutes_fail_ok (v : oe_date_t) (p : List Char) (h : written_ok 3 v) :
    fail_ok (parse_minutes (written_upto 3 v) p) := by
  unfold parse_minutes
  simp only
  split_ifs with c
  · intro _
    exact ⟨rfl, 3, v, by decide, by decide, rfl, h⟩
  · simp only [not_or, not_not, not_lt, gt_iff_lt] at c
    have hw : written_ok 4 { v with minutes := (strtoul p).1 % 2 ^ 32 } := by
      unfold written_ok at h ⊢
      obtain ⟨h1, h2, h3, h4, _, _, _⟩ := h
      refine ⟨h1, fun e => absurd (h2 e) (by decide), fun _ => h3 (by decide),
        fun _ => h4 (by decide), fun _ => mod_le_of_le c.2.2, fun e => absurd e (by decide),
        fun e => absurd e (by decide)⟩
    have e : ({ written_upto 3 v with minutes := (strtoul p).1 % 2 ^ 32 } : oe_date_t) =
        written_upto 4 { v with minutes := (strtoul p).1 % 2 ^ 32 } := by
      simp [written_upto]
    rw [e]
    exact parse_seconds_fail_ok { v with minutes := (strtoul p).1 % 2 ^ 32 } _ hw

theorem parse_hours_fail_ok (v : oe_date_t) (p : List Char) (h : written_ok 2 v) :
    fail_ok (parse_hours (written_upto 2 v) p) := by
  unfold parse_hours
  simp only
  split_ifs with c
  · intro _
    exact ⟨rfl, 2, v, by decide, by decide, rfl, h⟩
  · simp only [not_or, not_not, not_lt, gt_iff_lt] at c
    have hw : written_ok 3 { v with hours := (strtoul p).1 % 2 ^ 32 } := by
      unfold written_ok at h ⊢
      obtain ⟨h1, h2, h3, _, _, _, _⟩ := h
      refine ⟨h1, fun e => absurd (h2 e) (by decide), fun _ => h3 (by decide),
        fun _ => mod_le_of_le c.2.2, fun e => absurd e (by decide),
        fun e => absurd e (by decide), fun e => absurd e (by decide)⟩
    have e : ({ written_upto 2 v with hours := (strtoul p).1 % 2 ^ 32 } : oe_date_t) =
        written_upto 3 { v with hours := (strtoul p).1 % 2 ^ 32 } := by
      simp [written_upto]
    rw [e]
    exact parse_minutes_fail_ok { v with hours := (strtoul p).1 % 2 ^ 32 } _ hw

theorem parse_day_fail_ok (v : oe_date_t) (p : List Char) (h : written_ok 1 v)
    (hm : v.month ≠ UINT_MAX) : fail_ok (parse_day (written_upto 1 v) p) := by
  unfold parse_day
  simp only
  split_ifs with c
  · intro _
    exact ⟨rfl, 1, v, by decide, by decide, rfl, h⟩
  · simp only [not_or, not_not, not_lt, gt_iff_lt] at c
    have hw : written_ok 2 { v with day := (strtoul p).1 % 2 ^ 32 } := by
      unfold written_ok at h ⊢
      obtain ⟨h1, _, _, _, _, _, _⟩ := h
      have hle : (strtoul p).1 ≤ 31 := c.2.2.2
      have hmod : (strtoul p).1 % 2 ^ 32 = (strtoul p).1 := Nat.mod_eq_of_lt (by omega)
      refine ⟨h1, fun e => absurd e hm, fun _ => ?_, fun e => absurd e (by decide),
        fun e => absurd e (by decide), fun e => absurd e (by decide),
        fun e => absurd e (by decide)⟩
      simp only [hmod]
      exact ⟨c.2.2.1, hle⟩
    have e : ({ written_upto 1 v with day := (strtoul p).1 % 2 ^ 32 } : oe_date_t) =
        written_upto 2 { v with day := (strtoul p).1 % 2 ^ 32 } := by
      simp [written_upto]
    rw [e]
    exact parse_hours_fail_ok { v with day := (strtoul p).1 % 2 ^ 32 } _ hw

theorem string_to_date_fail_ok (s : List Char) (d0 : oe_date_t) :
    fail_ok (_string_to_date s d0) := by
  have hml := month_loop_range s
  unfold _string_to_date
  simp only
  generalize (month_loop _month 0 UINT_MAX s).1 = mo at hml
  generalize (month_loop _month 0 UINT_MAX s).2 = p
  have hw : written_ok 1 { date_zero with month := mo } :=
    ⟨hml, fun _ => rfl, fun e => absurd e (by decide), fun e => absurd e (by decide),
      fun e => absurd e (by decide), fun e => absurd e (by decide),
      fun e => absurd e (by decide)⟩
  unfold after_month
  split_ifs with c
  · intro _
    exact ⟨rfl, 1, { date_zero with month := mo }, by decide, by decide,
      by simp [written_upto, date_zero], hw⟩
  · simp only [not_or, not_not] at c
    have e : ({ date_zero with month := mo } : oe_date_t) =
        written_upto 1 { date_zero with month := mo } := by
      simp [written_upto, date_zero]
    rw [e]
    exact parse_day_fail_ok { date_zero with month := mo } _ hw c.1

theorem string_to_date_result (s : List Char) (d0 : oe_date_t) :
    (_string_to_date s d0).1 = OE_OK ∨ (_string_to_date s d0).1 = OE_FAILURE := by
  by_cases h : (_string_to_date s d0).1 = OE_OK
  · left; exact h
  · right; exact (string_to_date_fail_ok s d0 h).1

/-! ## The literal at the end -/

theorem strcmp_gmt_of_at_end (t : List Char) (h : gmt_at_end t = true) :
    strcmp t "GMT".toList = 0 := by
  simp only [gmt_at_end, Bool.and_eq_true, decide_eq_true_eq] at h
  obtain ⟨h3, hpk⟩ := h
  have ht : t = "GMT".toList ++ t.drop 3 := by
    conv_lhs => rw [← List.take_append_drop 3 t, h3]
  rw [ht]
  generalize t.drop 3 = rest at hpk
  cases rest with
  | nil => simp [strcmp, peek, NUL]
  | cons c rest =>
    simp only [peek, List.headD_cons] at hpk
    subst hpk
    simp [strcmp, peek, NUL]

theorem gmt_at_end_of_strcmp (t : List Char) (h : strcmp t "GMT".toList = 0) :
    gmt_at_end t = true := by
  obtain ⟨rest, ht, hpk⟩ := strcmp_zero t _ h (by decide)
  subst ht
  simp only [gmt_at_end, Bool.and_eq_true, decide_eq_true_eq]
  exact ⟨rfl, hpk⟩

theorem check_gmt_eq (date : oe_date_t) (t : List Char) :
    check_gmt date t = (if gmt_at_end t = true then OE_OK else OE_FAILURE, date) := by
  unfold check_gmt
  by_cases h : strcmp t "GMT".toList = 0
  · rw [if_neg (not_not.mpr h), if_pos (gmt_at_end_of_strcmp t h)]
  · rw [if_pos h, if_neg (fun hg => h (strcmp_gmt_of_at_end t hg))]

theorem layout_append (M F1 F2 F3 F4 F5 rest : List Char) :
    layout M F1 F2 F3 F4 F5 ++ rest =
      layout_with_tail M F1 F2 F3 F4 F5 ("GMT".toList ++ rest) := by
  simp [layout, layout_with_tail, List.append_assoc]

theorem layout_with_tail_eq_padded (m : Nat) (D H MI S Y tail : List Char) :
    layout_with_tail (month_abbrev m) D H MI S Y tail =
      timestamp_padded m [] D [] H [] MI [] S [] Y tail := by
  simp [layout_with_tail, timestamp_padded, List.append_assoc]

/-- C5: the exact literal suffix.  Whenever `_string_to_date` returns `OE_OK`
the string is of the layout up to the space that ends the year, and the text
that remains there is exactly "GMT" followed by the null terminator.
Conversely, for a string that is well formed up to the space that ends the
year, the parser returns `OE_OK` when the remaining text is exactly "GMT"
followed by the terminator and `OE_FAILURE` for every other remaining text
(another zone, another case, extra characters, nothing); and every string
that is not accepted yields `OE_FAILURE`. -/
theorem string_to_date_gmt_suffix :
    (∀ (s : List Char) (d0 : oe_date_t), (_string_to_date s d0).1 = OE_OK →
      ∃ M F1 F2 F3 F4 F5 tail, s = layout_with_tail M F1 F2 F3 F4 F5 tail ∧
        numeric_field F5 = true ∧ gmt_at_end tail = true) ∧
    (∀ (m : Nat) (D H MI S Y tail : List Char) (d0 : oe_date_t), 1 ≤ m → m ≤ 12 →
      digit_run D = true → digit_run H = true → digit_run MI = true → digit_run S = true →
      digit_run Y = true → 1 ≤ digits_value D → digits_value D ≤ 31 → digits_value H ≤ 23 →
      digits_value MI ≤ 59 → digits_value S ≤ 59 →
      (_string_to_date (layout_with_tail (month_abbrev m) D H MI S Y tail) d0).1 =
        if gmt_at_end tail = true then OE_OK else OE_FAILURE) ∧
    (∀ (s : List Char) (d0 : oe_date_t), (_string_to_date s d0).1 ≠ OE_OK →
      (_string_to_date s d0).1 = OE_FAILURE) := by
  refine ⟨?_, ?_, ?_⟩
  · intro s d0 h
    obtain ⟨mon, X, F1, F2, F3, F4, F5, rest, _, hs, _, _, _, _, n5, hpk⟩ :=
      string_to_date_ok_layout s d0 h
    refine ⟨mon ++ X, F1, F2, F3, F4, F5, "GMT".toList ++ rest, ?_, n5, ?_⟩
    · rw [hs, layout_append]
    · simp only [gmt_at_end, Bool.and_eq_true, decide_eq_true_eq]
      exact ⟨rfl, hpk⟩
  · intro m D H MI S Y tail d0 hm1 hm12 hD hH hMI hS hY hd1 hd31 hh hmi hs
    rw [layout_with_tail_eq_padded,
      string_to_date_padded m [] D [] H [] MI [] S [] Y _ d0 hm1 hm12 rfl hD rfl hH rfl hMI rfl
        hS rfl hY]
    rw [if_neg (by omega), if_neg (by omega), if_neg (by omega), if_neg (by omega),
      check_gmt_eq]
  · intro s d0 h
    rcases string_to_date_result s d0 with e | e
    · exact absurd e h
    · exact e

set_option maxRecDepth 100000 in
/-- The witness of C5 named by the specification: "Dec 31 23:59:59 2099 UTC"
fails, the literal being wrong. -/
theorem string_to_date_gmt_suffix_witness :
    gmt_at_end "UTC".toList = false ∧
    (_string_to_date "Dec 31 23:59:59 2099 UTC".toList date_zero).1 = OE_FAILURE :=
  ⟨by decide,
   string_to_date_gmt_suffix.2.1 12 "31".toList "23".toList "59".toList "59".toList "2099".toList
     "UTC".toList date_zero (by decide) (by decide) (by decide) (by decide) (by decide)
     (by decide) (by decide) (by decide) (by decide) (by decide) (by decide) (by decide)⟩

set_option maxRecDepth 100000 in
/-- Other tails that fail: another case, extra characters, nothing. -/
theorem string_to_date_other_tails :
    (_string_to_date "Dec 31 23:59:59 2099 gmt".toList date_zero).1 = OE_FAILURE ∧
    (_string_to_date "Dec 31 23:59:59 2099 GMT ".toList date_zero).1 = OE_FAILURE ∧
    (_string_to_date "Dec 31 23:59:59 2099 GMTX".toList date_zero).1 = OE_FAILURE ∧
    (_string_to_date "Dec 31 23:59:59 2099 ".toList date_zero).1 = OE_FAILURE := by
  decide

/-! ## The month loop against a first-match month step -/

set_option maxRecDepth 100000 in
/-- C6 at its failing input: on "JanFeb 1 00:00:00 1970 GMT" the month loop
matches "Jan" at position 0, advances, matches "Feb" at position 3 and
advances again, so `_string_to_date` returns `OE_OK` with month 2, while the
parser with the first-match month step returns `OE_FAILURE` with month 1. -/
theorem month_loop_differs_from_first_match :
    _string_to_date "JanFeb 1 00:00:00 1970 GMT".toList date_zero =
      (OE_OK, { year := 1970, month := 2, day := 1, hours := 0, minutes := 0, seconds := 0 }) ∧
    string_to_date_first_match "JanFeb 1 00:00:00 1970 GMT".toList date_zero =
      (OE_FAILURE, { date_zero with month := 1 }) ∧
    month_loop _month 0 UINT_MAX "JanFeb 1 00:00:00 1970 GMT".toList =
      (2, " 1 00:00:00 1970 GMT".toList) := by
  decide

theorem strncmp_ne_zero_of_peek (q m : List Char) (n : Nat) (h : peek q ≠ peek m) :
    strncmp q m (n + 1) ≠ 0 := by
  rw [strncmp, if_pos h]
  exact char_sub_ne_zero h

theorem month_table_no_space : ∀ m ∈ _month, peek m ≠ ' ' := by
  decide

theorem month_loop_at_space (t : List (List Char)) (ht : ∀ m ∈ t, peek m ≠ ' ')
    (q : List Char) (hq : peek q = ' ') :
    ∀ (i mo : Nat), month_loop t i mo q = (mo, q) := by
  induction t with
  | nil => intro i mo; rfl
  | cons m rest ih =>
    intro i mo
    have hne : strncmp q m 3 ≠ 0 :=
      strncmp_ne_zero_of_peek q m 2 (by rw [hq]; exact fun e => ht m (List.mem_cons_self _ _) e.symm)
    rw [month_loop, if_neg hne]
    exact ih (fun x hx => ht x (List.mem_cons_of_mem _ hx)) (i + 1) mo

theorem month_loop_eq_first_match (t : List (List Char)) (ht : ∀ m ∈ t, peek m ≠ ' ') :
    ∀ (i mo : Nat) (p : List Char), peek (month_first_match t i mo p).2 = ' ' →
      month_loop t i mo p = month_first_match t i mo p := by
  induction t with
  | nil => intro i mo p _; rfl
  | cons m rest ih =>
    intro i mo p h
    have ht2 : ∀ x ∈ rest, peek x ≠ ' ' := fun x hx => ht x (List.mem_cons_of_mem _ hx)
    rw [month_first_match] at h ⊢
    rw [month_loop]
    by_cases hm : strncmp p m 3 = 0
    · rw [if_pos hm] at h ⊢
      rw [if_pos hm]
      exact month_loop_at_space rest ht2 _ h (i + 1) (i + 1)
    · rw [if_neg hm] at h ⊢
      rw [if_neg hm]
      exact ih ht2 (i + 1) mo p h

/-- Every string the parser with the first-match month step accepts is
accepted by `_string_to_date` with the same date: the two differ only on
strings that the first-match parser rejects. -/
theorem first_match_ok_imp_same (s : List Char) (d0 : oe_date_t)
    (h : (string_to_date_first_match s d0).1 = OE_OK) :
    _string_to_date s d0 = string_to_date_first_match s d0 := by
  unfold string_to_date_first_match at h ⊢
  unfold _string_to_date
  simp only at h ⊢
  obtain ⟨_, hsp, _⟩ := after_month_ok _ _ h
  have hpk : peek (month_first_match _month 0 UINT_MAX s).2 = ' ' := by
    rw [hsp]; rfl
  rw [month_loop_eq_first_match _month month_table_no_space 0 UINT_MAX s hpk]

/-! ## The date after a failure -/

set_option maxRecDepth 100000 in
/-- C7 as stated fails: on the empty string the parser fails and leaves
`UINT_MAX` in the month; on "Dec 31 23:59:60 2099 GMT" it fails at the seconds
and leaves the month, day, hours and minutes it has parsed. -/
theorem string_to_date_failure_not_zero :
    (_string_to_date [] date_zero).1 ≠ OE_OK ∧
    (_string_to_date [] date_zero).2 = { date_zero with month := 4294967295 } ∧
    (_string_to_date [] date_zero).2 ≠ date_zero ∧
    _string_to_date "Dec 31 23:59:60 2099 GMT".toList date_zero =
      (OE_FAILURE, { year := 0, month := 12, day := 31, hours := 23, minutes := 59,
                     seconds := 0 }) := by
  decide

/-! ## The update dates -/

theorem asn1_time_to_date_result (lib : openssl) (tr : List ext_call) (time : Nat)
    (date : oe_date_t) :
    (_asn1_time_to_date lib tr time date).1 = OE_OK ∨
    (_asn1_time_to_date lib tr time date).1 = OE_FAILURE := by
  unfold _asn1_time_to_date
  simp only
  repeat' split
  all_goals first | (right; rfl) | (left; rfl) | exact string_to_date_result _ _

theorem check_gmt_month (date : oe_date_t) (p : List Char) :
    (check_gmt date p).2.month = date.month := by
  unfold check_gmt; split_ifs <;> rfl

theorem parse_year_month (date : oe_date_t) (p : List Char) :
    (parse_year date p).2.month = date.month := by
  unfold parse_year; simp only; split_ifs
  · rfl
  · rw [check_gmt_month]

theorem parse_seconds_month (date : oe_date_t) (p : List Char) :
    (parse_seconds date p).2.month = date.month := by
  unfold parse_seconds; simp only; split_ifs
  · rfl
  · rw [parse_year_month]

theorem parse_minutes_month (date : oe_date_t) (p : List Char) :
    (parse_minutes date p).2.month = date.month := by
  unfold parse_minutes; simp only; split_ifs
  · rfl
  · rw [parse_seconds_month]

theorem parse_hours_month (date : oe_date_t) (p : List Char) :
    (parse_hours date p).2.month = date.month := by
  unfold parse_hours; simp only; split_ifs
  · rfl
  · rw [parse_minutes_month]

theorem parse_day_month (date : oe_date_t) (p : List Char) :
    (parse_day date p).2.month = date.month := by
  unfold parse_day; simp only; split_ifs
  · rfl
  · rw [parse_hours_month]

theorem after_month_month (date : oe_date_t) (p : List Char) :
    (after_month date p).2.month = date.month := by
  unfold after_month; split_ifs
  · rfl
  · rw [parse_day_month]

/-- On success the month is an index of the table. -/
theorem string_to_date_ok_month (s : List Char) (d0 : oe_date_t)
    (h : (_string_to_date s d0).1 = OE_OK) :
    1 ≤ (_string_to_date s d0).2.month ∧ (_string_to_date s d0).2.month ≤ 12 := by
  have hml := month_loop_range s
  unfold _string_to_date at h ⊢
  simp only at h ⊢
  rw [after_month_month]
  obtain ⟨hne, _, _⟩ := after_month_ok _ _ h
  simp only at hne ⊢
  rcases hml with e | e
  · exact absurd e hne
  · exact e

theorem asn1_time_to_date_ok_ne_zero (lib : openssl) (tr : List ext_call) (time : Nat)
    (date : oe_date_t) (h : (_asn1_time_to_date lib tr time date).1 = OE_OK) :
    (_asn1_time_to_date lib tr time date).2.1.month ≠ 0 := by
  unfold _asn1_time_to_date at h ⊢
  simp only at h ⊢
  repeat' split at h
  all_goals first | exact absurd h failure_ne_ok | skip
  · rename_i c4
    exact absurd h c4
  · rename_i c1 _ text hpr c2 c3 c4
    have hm := string_to_date_ok_month _ date (not_not.mp c4)
    simp only [if_neg c1, hpr, if_neg c2, if_neg c3, if_neg c4]
    omega

set_option maxRecDepth 100000 in
/-- C8 as stated fails: with a last-update that converts and no next-update,
`oe_crl_get_update_dates` called with both outputs returns `OE_FAILURE`, the
next output is all-zero, but the last output holds the converted date. -/
theorem get_update_dates_last_left_populated :
    oe_crl_get_update_dates lib_no_next_update []
        (some { magic := OE_CRL_MAGIC, crl := 1 }) (some date_zero) (some date_zero) =
      (OE_FAILURE,
       some { year := 1970, month := 1, day := 1, hours := 0, minutes := 0, seconds := 0 },
       some date_zero,
       [ext_call.X509_CRL_get_lastUpdate 1, ext_call.BIO_new, ext_call.ASN1_TIME_print 1,
        ext_call.BIO_get_mem_ptr, ext_call.BIO_write, ext_call.BIO_free,
        ext_call.X509_CRL_get_nextUpdate 1]) ∧
    (oe_crl_get_update_dates lib_no_next_update []
        (some { magic := OE_CRL_MAGIC, crl := 1 }) (some date_zero) (some date_zero)).2.1 ≠
      some date_zero := by
  decide

/-- C8, amended: no roll-back of the last-update output.  For every valid
handle whose last-update is present and converts to the date `dl`, and whose
next-update is absent or fails to convert, `oe_crl_get_update_dates` called
with both outputs returns `OE_FAILURE`; on return the last output holds `dl`,
which is not all-zero, and the next output is all-zero when the next-update
is absent. -/
theorem get_update_dates_next_fails (lib : openssl) (tr : List ext_call) (impl : crl_t)
    (l0 n0 dl : oe_date_t) (tr2 : List ext_call)
    (hv : crl_is_valid (some impl) = true)
    (hlast : lib.X509_CRL_get_lastUpdate tr impl.crl ≠ 0)
    (hconv : _asn1_time_to_date lib (tr ++ [ext_call.X509_CRL_get_lastUpdate impl.crl])
      (lib.X509_CRL_get_lastUpdate tr impl.crl) date_zero = (OE_OK, dl, tr2))
    (hnext : lib.X509_CRL_get_nextUpdate tr2 impl.crl = 0 ∨
      (_asn1_time_to_date lib (tr2 ++ [ext_call.X509_CRL_get_nextUpdate impl.crl])
        (lib.X509_CRL_get_nextUpdate tr2 impl.crl) date_zero).1 ≠ OE_OK) :
    (oe_crl_get_update_dates lib tr (some impl) (some l0) (some n0)).1 = OE_FAILURE ∧
    (oe_crl_get_update_dates lib tr (some impl) (some l0) (some n0)).2.1 = some dl ∧
    dl ≠ date_zero ∧
    (lib.X509_CRL_get_nextUpdate tr2 impl.crl = 0 →
      (oe_crl_get_update_dates lib tr (some impl) (some l0) (some n0)).2.2.1 =
        some date_zero) := by
  have hdl : dl ≠ date_zero := by
    have h := asn1_time_to_date_ok_ne_zero lib _ _ date_zero (by rw [hconv])
    rw [hconv] at h
    intro e
    rw [e] at h
    exact h rfl
  have hvf : ¬ (crl_is_valid (some impl) = false) := by rw [hv]; decide
  simp only [oe_crl_get_update_dates, Option.map_some', hvf, if_false, hlast, hconv, ne_eq,
    not_true_eq_false]
  by_cases hn : lib.X509_CRL_get_nextUpdate tr2 impl.crl = 0
  · simp only [hn, if_true]
    exact ⟨rfl, rfl, hdl, fun _ => rfl⟩
  · have hc : (_asn1_time_to_date lib (tr2 ++ [ext_call.X509_CRL_get_nextUpdate impl.crl])
        (lib.X509_CRL_get_nextUpdate tr2 impl.crl) date_zero).1 ≠ OE_OK := by
      rcases hnext with h | h
      · exact absurd h hn
      · exact h
    simp only [hn, if_false]
    refine ⟨?_, rfl, hdl, fun e => False.elim e⟩
    rcases asn1_time_to_date_result lib (tr2 ++ [ext_call.X509_CRL_get_nextUpdate impl.crl])
      (lib.X509_CRL_get_nextUpdate tr2 impl.crl) date_zero with h | h
    · exact absurd h hc
    · exact h

set_option maxRecDepth 100000 in
/-- The amended C8 at a CRL whose last-update prints as
"Jan 1 00:00:00 1970 GMT" and whose next-update is absent. -/
theorem get_update_dates_next_fails_witness :
    crl_is_valid (some { magic := OE_CRL_MAGIC, crl := 1 }) = true ∧
    ((oe_crl_get_update_dates lib_no_next_update []
        (some { magic := OE_CRL_MAGIC, crl := 1 }) (some date_zero) (some date_zero)).1 =
        OE_FAILURE ∧
     (oe_crl_get_update_dates lib_no_next_update []
        (some { magic := OE_CRL_MAGIC, crl := 1 }) (some date_zero) (some date_zero)).2.1 =
        some { year := 1970, month := 1, day := 1, hours := 0, minutes := 0, seconds := 0 } ∧
     ({ year := 1970, month := 1, day := 1, hours := 0, minutes := 0, seconds := 0 } : oe_date_t)
        ≠ date_zero ∧
     (lib_no_next_update.X509_CRL_get_nextUpdate
        [ext_call.X509_CRL_get_lastUpdate 1, ext_call.BIO_new, ext_call.ASN1_TIME_print 1,
         ext_call.BIO_get_mem_ptr, ext_call.BIO_write, ext_call.BIO_free] 1 = 0 →
      (oe_crl_get_update_dates lib_no_next_update []
        (some { magic := OE_CRL_MAGIC, crl := 1 }) (some date_zero) (some date_zero)).2.2.1 =
        some date_zero)) :=
  ⟨by decide,
   get_update_dates_next_fails lib_no_next_update [] { magic := OE_CRL_MAGIC, crl := 1 }
     date_zero date_zero
     { year := 1970, month := 1, day := 1, hours := 0, minutes := 0, seconds := 0 }
     [ext_call.X509_CRL_get_lastUpdate 1, ext_call.BIO_new, ext_call.ASN1_TIME_print 1,
      ext_call.BIO_get_mem_ptr, ext_call.BIO_write, ext_call.BIO_free]
     (by decide) (by decide) (by decide) (Or.inl (by decide))⟩

/-! ## The handle -/

theorem crl_is_valid_iff (impl : Option crl_t) :
    crl_is_valid impl = true ↔ ∃ r, impl = some r ∧ r.magic = OE_CRL_MAGIC ∧ r.crl ≠ 0 := by
  cases impl with
  | none => simp [crl_is_valid]
  | some r => simp [crl_is_valid]

theorem get_update_dates_invalid (lib : openssl) (tr : List ext_call) (crl : Option crl_t)
    (last next : Option oe_date_t) (h : crl_is_valid crl = false) :
    oe_crl_get_update_dates lib tr crl last next =
      (OE_INVALID_PARAMETER, last.map (fun _ => date_zero), next.map (fun _ => date_zero),
       tr) := by
  cases crl with
  | none => rfl
  | some impl => simp only [oe_crl_get_update_dates, h, if_true]

/-- C9: fail-fast on an invalid handle.  `crl_is_valid` is true exactly for a
non-null record whose tag is `OE_CRL_MAGIC` and whose object is non-null; and
for every record on which it is false, `oe_crl_free` and
`oe_crl_get_update_dates` return `OE_INVALID_PARAMETER` with the trace of
external calls unchanged (no accessor and no destructor is called), and
`oe_crl_free` leaves the record as it was. -/
theorem invalid_handle_fails_fast (lib : openssl) (tr : List ext_call) (crl : Option crl_t)
    (last next : Option oe_date_t) (h : crl_is_valid crl = false) :
    (∀ impl : Option crl_t,
      crl_is_valid impl = true ↔ ∃ r, impl = some r ∧ r.magic = OE_CRL_MAGIC ∧ r.crl ≠ 0) ∧
    oe_crl_free tr crl = (OE_INVALID_PARAMETER, crl, tr) ∧
    (oe_crl_get_update_dates lib tr crl last next).1 = OE_INVALID_PARAMETER ∧
    (oe_crl_get_update_dates lib tr crl last next).2.2.2 = tr := by
  refine ⟨crl_is_valid_iff, ?_, ?_, ?_⟩
  · cases crl with
    | none => rfl
    | some impl => simp only [oe_crl_free, h, if_true]
  · rw [get_update_dates_invalid lib tr crl last next h]
  · rw [get_update_dates_invalid lib tr crl last next h]

/-- C9 at a record that was freed (zero-filled), and so is invalid. -/
theorem invalid_handle_fails_fast_witness :
    crl_is_valid (some crl_zero) = false ∧
    ((∀ impl : Option crl_t,
      crl_is_valid impl = true ↔ ∃ r, impl = some r ∧ r.magic = OE_CRL_MAGIC ∧ r.crl ≠ 0) ∧
     oe_crl_free [] (some crl_zero) = (OE_INVALID_PARAMETER, some crl_zero, []) ∧
     (oe_crl_get_update_dates lib_no_next_update [] (some crl_zero) (some date_zero)
        (some date_zero)).1 = OE_INVALID_PARAMETER ∧
     (oe_crl_get_update_dates lib_no_next_update [] (some crl_zero) (some date_zero)
        (some date_zero)).2.2.2 = []) :=
  ⟨by decide,
   invalid_handle_fails_fast lib_no_next_update [] (some crl_zero) (some date_zero)
     (some date_zero) (by decide)⟩

/-- C10 as stated fails: on a null handle, an output date that held
`{1, 1, 1, 1, 1, 1}` before the call is all-zero on return. -/
theorem get_update_dates_invalid_overwrites :
    crl_is_valid none = false ∧
    (oe_crl_get_update_dates lib_no_next_update [] none
        (some { year := 1, month := 1, day := 1, hours := 1, minutes := 1, seconds := 1 })
        none).2.1 = some date_zero ∧
    (oe_crl_get_update_dates lib_no_next_update [] none
        (some { year := 1, month := 1, day := 1, hours := 1, minutes := 1, seconds := 1 })
        none).2.1 ≠
      some { year := 1, month := 1, day := 1, hours := 1, minutes := 1, seconds := 1 } := by
  decide

/-- C10, amended: on an invalid handle `oe_crl_get_update_dates` zero-fills
the requested outputs before it checks the handle.  For every invalid handle
and every prior content of the outputs, the call returns
`OE_INVALID_PARAMETER`, every requested (non-null) output date is all-zero on
return, an output that was not requested stays null, and no external call is
made. -/
theorem get_update_dates_invalid_zeroes (lib : openssl) (tr : List ext_call)
    (crl : Option crl_t) (last next : Option oe_date_t) (h : crl_is_valid crl = false) :
    oe_crl_get_update_dates lib tr crl last next =
      (OE_INVALID_PARAMETER, last.map (fun _ => date_zero), next.map (fun _ => date_zero),
       tr) :=
  get_update_dates_invalid lib tr crl last next h

/-- The amended C10 at a null handle with a last output that held
`{1, 1, 1, 1, 1, 1}` and no next output. -/
theorem get_update_dates_invalid_zeroes_witness :
    crl_is_valid none = false ∧
    oe_crl_get_update_dates lib_no_next_update [] none
        (some { year := 1, month := 1, day := 1, hours := 1, minutes := 1, seconds := 1 })
        none =
      (OE_INVALID_PARAMETER, some date_zero, none, []) :=
  ⟨by decide,
   get_update_dates_invalid_zeroes lib_no_next_update [] none
     (some { year := 1, month := 1, day := 1, hours := 1, minutes := 1, seconds := 1 }) none
     (by decide)⟩

/-! ## Decoding into the handle -/

theorem read_der_bad_argument (lib : openssl) (tr : List ext_call) (crl : Option crl_t)
    (der_data : Option (List Nat)) (der_size : Nat)
    (h : der_data = none ∨ der_size = 0 ∨ crl = none) :
    oe_crl_read_der lib tr crl der_data der_size =
      (OE_UNEXPECTED, crl.map (fun _ => crl_zero), tr) := by
  cases der_data with
  | none => rfl
  | some data =>
    cases crl with
    | none => rfl
    | some r =>
      rcases h with h | h | h
      · exact absurd h (by simp)
      · simp only [oe_crl_read_der, Option.map_some', h, if_true]
      · exact absurd h (by simp)

/-- C11 at its failing inputs: with a null `der_data`, with `der_size` 0 and
with a null handle, `oe_crl_read_der` returns `OE_UNEXPECTED`, not
`OE_INVALID_PARAMETER`, and makes no external call. -/
theorem read_der_bad_argument_unexpected :
    oe_crl_read_der lib_no_next_update [] (some crl_zero) none 0 =
      (OE_UNEXPECTED, some crl_zero, []) ∧
    oe_crl_read_der lib_no_next_update [] (some crl_zero) (some [48, 0]) 0 =
      (OE_UNEXPECTED, some crl_zero, []) ∧
    oe_crl_read_der lib_no_next_update [] none (some [48, 0]) 2 =
      (OE_UNEXPECTED, none, []) ∧
    (oe_crl_read_der lib_no_next_update [] (some crl_zero) none 0).1 ≠ OE_INVALID_PARAMETER := by
  decide

/-- C12: a failed decode never leaves a valid-looking handle.  For every
non-null handle, whatever record it held before the call (a valid one
included), and every input, if `oe_crl_read_der` returns anything other than
`OE_OK` then on return the record is zero-filled and `crl_is_valid` is false. -/
theorem read_der_failure_scrubs (lib : openssl) (tr : List ext_call) (r : crl_t)
    (der_data : Option (List Nat)) (der_size : Nat)
    (h : (oe_crl_read_der lib tr (some r) der_data der_size).1 ≠ OE_OK) :
    (oe_crl_read_der lib tr (some r) der_data der_size).2.1 = some crl_zero ∧
    crl_is_valid (oe_crl_read_der lib tr (some r) der_data der_size).2.1 = false := by
  have hz : crl_is_valid (some crl_zero) = false := by decide
  cases der_data with
  | none => exact ⟨rfl, hz⟩
  | some data =>
    simp only [oe_crl_read_der, Option.map_some'] at h ⊢
    split_ifs at h ⊢ with c1 c2 c3
    · exact ⟨rfl, hz⟩
    · exact ⟨rfl, hz⟩
    · exact ⟨rfl, hz⟩
    · exact absurd rfl h

/-- C12 at a handle that held a valid record, with a null `der_data`. -/
theorem read_der_failure_scrubs_witness :
    crl_is_valid (some { magic := OE_CRL_MAGIC, crl := 7 }) = true ∧
    (oe_crl_read_der lib_no_next_update [] (some { magic := OE_CRL_MAGIC, crl := 7 }) none
        0).1 ≠ OE_OK ∧
    ((oe_crl_read_der lib_no_next_update [] (some { magic := OE_CRL_MAGIC, crl := 7 }) none
        0).2.1 = some crl_zero ∧
     crl_is_valid (oe_crl_read_der lib_no_next_update []
        (some { magic := OE_CRL_MAGIC, crl := 7 }) none 0).2.1 = false) :=
  ⟨by decide, by decide,
   read_der_failure_scrubs lib_no_next_update [] { magic := OE_CRL_MAGIC, crl := 7 } none 0
     (by decide)⟩

theorem read_der_decoded (lib : openssl) (tr : List ext_call) (r : crl_t) (data : List Nat)
    (der_size : Nat) (hsize : der_size ≠ 0) (hbio : lib.BIO_new_mem_buf tr = true) :
    oe_crl_read_der lib tr (some r) (some data) der_size =
      if lib.d2i_X509_CRL_bio (tr ++ [ext_call.BIO_new_mem_buf])
          (mem_buf_bytes data (size_to_int der_size)) = 0 then
        (OE_UNEXPECTED, some crl_zero,
         tr ++ [ext_call.BIO_new_mem_buf] ++ [ext_call.d2i_X509_CRL_bio] ++ [ext_call.BIO_free])
      else
        (OE_OK,
         some { magic := OE_CRL_MAGIC,
                crl := lib.d2i_X509_CRL_bio (tr ++ [ext_call.BIO_new_mem_buf])
                  (mem_buf_bytes data (size_to_int der_size)) },
         tr ++ [ext_call.BIO_new_mem_buf] ++ [ext_call.d2i_X509_CRL_bio] ++
           [ext_call.BIO_free]) := by
  simp only [oe_crl_read_der, Option.map_some', hsize, if_false, hbio, Bool.true_eq_false,
    _crl_init]

theorem mem_buf_bytes_in_range (data : List Nat) (n : Nat) (h : n ≤ INT_MAX) :
    mem_buf_bytes data (size_to_int n) = data.take n := by
  have hi : INT_MAX = 2147483647 := rfl
  have hmod : n % 2 ^ 32 = n := Nat.mod_eq_of_lt (by omega)
  simp only [mem_buf_bytes, size_to_int, hmod, h, if_true]
  rw [if_neg (by omega)]
  simp

/-- The handle lifecycle on what the decoder is handed.  For every handle
buffer and every input for which the stream is created and the external
decoder returns the non-null object `x` from the stream: `oe_crl_read_der`
returns `OE_OK` and leaves the record `{OE_CRL_MAGIC, x}`, which is valid;
`oe_crl_free` on it returns `OE_OK`, adds exactly one call to the trace, the
destructor on `x`, and leaves the record zero-filled, which is not valid; a
second `oe_crl_free` returns `OE_INVALID_PARAMETER`, leaves the record as it
is and adds no call.  The stream holds the `der_size` bytes of the input only
when `der_size` is at most `INT_MAX` (`mem_buf_bytes_in_range`). -/
theorem handle_lifecycle (lib : openssl) (tr : List ext_call) (r : crl_t) (data : List Nat)
    (der_size x : Nat) (hsize : der_size ≠ 0) (hbio : lib.BIO_new_mem_buf tr = true)
    (hx : lib.d2i_X509_CRL_bio (tr ++ [ext_call.BIO_new_mem_buf])
      (mem_buf_bytes data (size_to_int der_size)) = x)
    (hx0 : x ≠ 0) :
    ∃ tr1, oe_crl_read_der lib tr (some r) (some data) der_size =
        (OE_OK, some { magic := OE_CRL_MAGIC, crl := x }, tr1) ∧
      crl_is_valid (some { magic := OE_CRL_MAGIC, crl := x }) = true ∧
      oe_crl_free tr1 (some { magic := OE_CRL_MAGIC, crl := x }) =
        (OE_OK, some crl_zero, tr1 ++ [ext_call.X509_CRL_free x]) ∧
      crl_is_valid (some crl_zero) = false ∧
      oe_crl_free (tr1 ++ [ext_call.X509_CRL_free x]) (some crl_zero) =
        (OE_INVALID_PARAMETER, some crl_zero, tr1 ++ [ext_call.X509_CRL_free x]) := by
  have hv : crl_is_valid (some { magic := OE_CRL_MAGIC, crl := x }) = true := by
    simp [crl_is_valid, hx0]
  refine ⟨tr ++ [ext_call.BIO_new_mem_buf] ++ [ext_call.d2i_X509_CRL_bio] ++
    [ext_call.BIO_free], ?_, hv, ?_, by decide, ?_⟩
  · rw [read_der_decoded lib tr r data der_size hsize hbio, hx, if_neg hx0]
  · simp only [oe_crl_free, hv, Bool.true_eq_false, if_false, _crl_free]
  · simp only [oe_crl_free]
    rfl

/-- The handle lifecycle at a library whose decoder returns the object at
address 1, on an input of two bytes. -/
theorem handle_lifecycle_example :
    ((2 : Nat) ≠ 0 ∧ lib_no_next_update.BIO_new_mem_buf [] = true ∧ (1 : Nat) ≠ 0) ∧
    ∃ tr1, oe_crl_read_der lib_no_next_update [] (some crl_zero) (some [48, 0]) 2 =
        (OE_OK, some { magic := OE_CRL_MAGIC, crl := 1 }, tr1) ∧
      crl_is_valid (some { magic := OE_CRL_MAGIC, crl := 1 }) = true ∧
      oe_crl_free tr1 (some { magic := OE_CRL_MAGIC, crl := 1 }) =
        (OE_OK, some crl_zero, tr1 ++ [ext_call.X509_CRL_free 1]) ∧
      crl_is_valid (some crl_zero) = false ∧
      oe_crl_free (tr1 ++ [ext_call.X509_CRL_free 1]) (some crl_zero) =
        (OE_INVALID_PARAMETER, some crl_zero, tr1 ++ [ext_call.X509_CRL_free 1]) :=
  ⟨by decide,
   handle_lifecycle lib_no_next_update [] crl_zero [48, 0] 2 1 (by decide) (by decide)
     (by decide) (by decide)⟩

theorem needs_two_bytes_accepts (t : List ext_call) (l : List Nat) (h : 2 ≤ l.length) :
    lib_needs_two_bytes.d2i_X509_CRL_bio t l = 1 := by
  show (if l.length < 2 then 0 else 1) = 1
  rw [if_neg (by omega)]

theorem needs_two_bytes_rejects (t : List ext_call) (l : List Nat) (h : l.length < 2) :
    lib_needs_two_bytes.d2i_X509_CRL_bio t l = 0 := by
  show (if l.length < 2 then 0 else 1) = 0
  rw [if_pos h]

theorem mem_buf_bytes_zero (l : List Nat) : mem_buf_bytes l 0 = [] := by
  simp only [mem_buf_bytes, lt_irrefl, if_false, Int.toNat_zero, List.take_zero]

theorem mem_buf_bytes_negative (b : Nat) (l : List Nat) (hb : b ≠ 0) :
    mem_buf_bytes (b :: 0 :: l) (-2147483648) = [b] := by
  have hneg : ((-2147483648 : Int) < 0) := by decide
  simp only [mem_buf_bytes, hneg, if_true, List.takeWhile_cons, hb, ne_eq, not_false_eq_true,
    decide_True, not_true_eq_false, decide_False, Bool.false_eq_true, if_false]

/-- C13 at its failing inputs.  A buffer of `2 ^ 32` bytes that the decoder
accepts, passed with `der_size = 2 ^ 32`: the length becomes the `int` 0, the
stream is empty, the decoder returns null and `oe_crl_read_der` returns
`OE_UNEXPECTED` with the record zero-filled and not valid.  A buffer of
`2 ^ 31` bytes that the decoder accepts and whose second byte is null, passed
with `der_size = 2 ^ 31`: the length becomes a negative `int`, the stream
holds the one byte in front of the null byte, and the result is the same. -/
theorem read_der_oversize_fails :
    (size_to_int 4294967296 = 0 ∧
     lib_needs_two_bytes.d2i_X509_CRL_bio [ext_call.BIO_new_mem_buf]
       ((List.replicate 4294967296 48).take 4294967296) = 1 ∧
     oe_crl_read_der lib_needs_two_bytes [] (some crl_zero)
       (some (List.replicate 4294967296 48)) 4294967296 =
       (OE_UNEXPECTED, some crl_zero,
        [ext_call.BIO_new_mem_buf, ext_call.d2i_X509_CRL_bio, ext_call.BIO_free])) ∧
    (size_to_int 2147483648 = -2147483648 ∧
     lib_needs_two_bytes.d2i_X509_CRL_bio [ext_call.BIO_new_mem_buf]
       ((48 :: 0 :: List.replicate 2147483646 48).take 2147483648) = 1 ∧
     oe_crl_read_der lib_needs_two_bytes [] (some crl_zero)
       (some (48 :: 0 :: List.replicate 2147483646 48)) 2147483648 =
       (OE_UNEXPECTED, some crl_zero,
        [ext_call.BIO_new_mem_buf, ext_call.d2i_X509_CRL_bio, ext_call.BIO_free])) ∧
    crl_is_valid (some crl_zero) = false := by
  have h32 : size_to_int 4294967296 = 0 := by decide
  have h31 : size_to_int 2147483648 = -2147483648 := by decide
  have hb : lib_needs_two_bytes.BIO_new_mem_buf [] = true := rfl
  refine ⟨⟨h32, ?_, ?_⟩, ⟨h31, ?_, ?_⟩, by decide⟩
  · apply needs_two_bytes_accepts
    rw [List.length_take, List.length_replicate]
    omega
  · rw [read_der_decoded _ _ _ _ _ (by decide) hb, h32, mem_buf_bytes_zero,
      if_pos (needs_two_bytes_rejects _ _ (by simp))]
    rfl
  · apply needs_two_bytes_accepts
    rw [List.length_take, List.length_cons, List.length_cons, List.length_replicate]
    omega
  · rw [read_der_decoded _ _ _ _ _ (by decide) hb, h31, mem_buf_bytes_negative _ _ (by decide),
      if_pos (needs_two_bytes_rejects _ _ (by simp))]
    rfl

/-- C14: a failed decode.  For every non-null handle and every non-null,
non-empty input for which the stream is created and the external decoder
returns null, `oe_crl_read_der` returns `OE_UNEXPECTED`; the calls it makes
are the creation of the stream, the decoder and the release of the stream, in
that order (no object was created, so none is left to release), and the
record on return is zero-filled: no CRL object is stored and the handle is
not valid. -/
theorem read_der_decode_failure (lib : openssl) (tr : List ext_call) (r : crl_t)
    (data : List Nat) (der_size : Nat) (hsize : der_size ≠ 0)
    (hbio : lib.BIO_new_mem_buf tr = true)
    (hx : lib.d2i_X509_CRL_bio (tr ++ [ext_call.BIO_new_mem_buf])
      (mem_buf_bytes data (size_to_int der_size)) = 0) :
    oe_crl_read_der lib tr (some r) (some data) der_size =
      (OE_UNEXPECTED, some crl_zero,
       tr ++ [ext_call.BIO_new_mem_buf] ++ [ext_call.d2i_X509_CRL_bio] ++ [ext_call.BIO_free]) ∧
    crl_zero.crl = 0 ∧ crl_is_valid (some crl_zero) = false := by
  rw [read_der_decoded lib tr r data der_size hsize hbio, if_pos hx]
  exact ⟨rfl, rfl, by decide⟩

/-- C14 at a library whose decoder returns null, on a handle that held a valid
record. -/
theorem read_der_decode_failure_witness :
    ((2 : Nat) ≠ 0 ∧ lib_decode_fails.BIO_new_mem_buf [] = true ∧
      lib_decode_fails.d2i_X509_CRL_bio [ext_call.BIO_new_mem_buf] [48, 0] = 0) ∧
    (oe_crl_read_der lib_decode_fails [] (some { magic := OE_CRL_MAGIC, crl := 7 })
        (some [48, 0]) 2 =
      (OE_UNEXPECTED, some crl_zero,
       [ext_call.BIO_new_mem_buf, ext_call.d2i_X509_CRL_bio, ext_call.BIO_free]) ∧
     crl_zero.crl = 0 ∧ crl_is_valid (some crl_zero) = false) :=
  ⟨by decide,
   read_der_decode_failure lib_decode_fails [] { magic := OE_CRL_MAGIC, crl := 7 } [48, 0] 2
     (by decide) (by decide) (by decide)⟩

/-! ## The date of an accepted string -/

theorem check_gmt_date (date : oe_date_t) (p : List Char) : (check_gmt date p).2 = date := by
  unfold check_gmt; split_ifs <;> rfl

theorem parse_year_ok_date (date : oe_date_t) (p : List Char)
    (h : (parse_year date p).1 = OE_OK) :
    ∃ y, y < 2 ^ 32 ∧ (parse_year date p).2 = { date with year := y } := by
  unfold parse_year at h ⊢
  simp only at h ⊢
  by_cases hc : (strtoul p).2 = 0 ∨ peek (p.drop (strtoul p).2) ≠ ' '
  · rw [if_pos hc] at h; exact absurd h failure_ne_ok
  · rw [if_neg hc]
    exact ⟨(strtoul p).1 % 2 ^ 32, Nat.mod_lt _ (by decide), check_gmt_date _ _⟩

theorem parse_seconds_ok_date (date : oe_date_t) (p : List Char)
    (h : (parse_seconds date p).1 = OE_OK) :
    ∃ s y, s ≤ 59 ∧ y < 2 ^ 32 ∧
      (parse_seconds date p).2 = { date with seconds := s, year := y } := by
  unfold parse_seconds at h ⊢
  simp only at h ⊢
  by_cases hc : (strtoul p).2 = 0 ∨ peek (p.drop (strtoul p).2) ≠ ' ' ∨ (strtoul p).1 > 59
  · rw [if_pos hc] at h; exact absurd h failure_ne_ok
  · rw [if_neg hc] at h ⊢
    simp only [not_or, not_not, not_lt, gt_iff_lt] at hc
    obtain ⟨y, hy, e⟩ := parse_year_ok_date _ _ h
    exact ⟨(strtoul p).1 % 2 ^ 32, y, mod_le_of_le hc.2.2, hy, e⟩

theorem parse_minutes_ok_date (date : oe_date_t) (p : List Char)
    (h : (parse_minutes date p).1 = OE_OK) :
    ∃ mi s y, mi ≤ 59 ∧ s ≤ 59 ∧ y < 2 ^ 32 ∧
      (parse_minutes date p).2 = { date with minutes := mi, seconds := s, year := y } := by
  unfold parse_minutes at h ⊢
  simp only at h ⊢
  by_cases hc : (strtoul p).2 = 0 ∨ peek (p.drop (strtoul p).2) ≠ ':' ∨ (strtoul p).1 > 59
  · rw [if_pos hc] at h; exact absurd h failure_ne_ok
  · rw [if_neg hc] at h ⊢
    simp only [not_or, not_not, not_lt, gt_iff_lt] at hc
    obtain ⟨s, y, hs, hy, e⟩ := parse_seconds_ok_date _ _ h
    exact ⟨(strtoul p).1 % 2 ^ 32, s, y, mod_le_of_le hc.2.2, hs, hy, e⟩

theorem parse_hours_ok_date (date : oe_date_t) (p : List Char)
    (h : (parse_hours date p).1 = OE_OK) :
    ∃ hh mi s y, hh ≤ 23 ∧ mi ≤ 59 ∧ s ≤ 59 ∧ y < 2 ^ 32 ∧
      (parse_hours date p).2 =
        { date with hours := hh, minutes := mi, seconds := s, year := y } := by
  unfold parse_hours at h ⊢
  simp only at h ⊢
  by_cases hc : (strtoul p).2 = 0 ∨ peek (p.drop (strtoul p).2) ≠ ':' ∨ (strtoul p).1 > 23
  · rw [if_pos hc] at h; exact absurd h failure_ne_ok
  · rw [if_neg hc] at h ⊢
    simp only [not_or, not_not, not_lt, gt_iff_lt] at hc
    obtain ⟨mi, s, y, hmi, hs, hy, e⟩ := parse_minutes_ok_date _ _ h
    exact ⟨(strtoul p).1 % 2 ^ 32, mi, s, y, mod_le_of_le hc.2.2, hmi, hs, hy, e⟩

theorem parse_day_ok_date (date : oe_date_t) (p : List Char)
    (h : (parse_day date p).1 = OE_OK) :
    ∃ d hh mi s y, 1 ≤ d ∧ d ≤ 31 ∧ hh ≤ 23 ∧ mi ≤ 59 ∧ s ≤ 59 ∧ y < 2 ^ 32 ∧
      (parse_day date p).2 =
        { date with day := d, hours := hh, minutes := mi, seconds := s, year := y } := by
  unfold parse_day at h ⊢
  simp only at h ⊢
  by_cases hc : (strtoul p).2 = 0 ∨ peek (p.drop (strtoul p).2) ≠ ' ' ∨ (strtoul p).1 < 1 ∨
      (strtoul p).1 > 31
  · rw [if_pos hc] at h; exact absurd h failure_ne_ok
  · rw [if_neg hc] at h ⊢
    simp only [not_or, not_not, not_lt, gt_iff_lt] at hc
    obtain ⟨hh, mi, s, y, hhh, hmi, hs, hy, e⟩ := parse_hours_ok_date _ _ h
    have hle : (strtoul p).1 ≤ 31 := hc.2.2.2
    have hmod : (strtoul p).1 % 2 ^ 32 = (strtoul p).1 := Nat.mod_eq_of_lt (by omega)
    refine ⟨(strtoul p).1 % 2 ^ 32, hh, mi, s, y, ?_, ?_, hhh, hmi, hs, hy, e⟩
    · rw [hmod]; exact hc.2.2.1
    · rw [hmod]; exact hle

/-- The date of an accepted string: every field in its range. -/
theorem string_to_date_ok_date (s : List Char) (d0 : oe_date_t)
    (h : (_string_to_date s d0).1 = OE_OK) :
    ∃ m d hh mi ss y, 1 ≤ m ∧ m ≤ 12 ∧ 1 ≤ d ∧ d ≤ 31 ∧ hh ≤ 23 ∧ mi ≤ 59 ∧ ss ≤ 59 ∧
      y < 2 ^ 32 ∧
      (_string_to_date s d0).2 =
        { year := y, month := m, day := d, hours := hh, minutes := mi, seconds := ss } := by
  have hml := month_loop_range s
  unfold _string_to_date at h ⊢
  simp only at h ⊢
  obtain ⟨hne, _, hday⟩ := after_month_ok _ _ h
  simp only at hne
  rcases hml with e | ⟨h1, h12⟩
  · exact absurd e hne
  · obtain ⟨d, hh, mi, ss, y, hd1, hd31, hhh, hmi, hss, hy, e⟩ := parse_day_ok_date _ _ hday
    refine ⟨_, d, hh, mi, ss, y, h1, h12, hd1, hd31, hhh, hmi, hss, hy, ?_⟩
    unfold after_month
    rw [if_neg (by
      intro hc
      unfold after_month at h
      rw [if_pos hc] at h
      exact failure_ne_ok h)]
    rw [e]

/-- C15: field ranges on success.  For every input string, well formed or
not, on which `_string_to_date` returns `OE_OK`, the date has its month in
1..12, its day in 1..31, its hours at most 23 and its minutes and seconds at
most 59 (and its year is a 32-bit value). -/
theorem string_to_date_ok_ranges (s : List Char) (d0 : oe_date_t)
    (h : (_string_to_date s d0).1 = OE_OK) :
    1 ≤ (_string_to_date s d0).2.month ∧ (_string_to_date s d0).2.month ≤ 12 ∧
    1 ≤ (_string_to_date s d0).2.day ∧ (_string_to_date s d0).2.day ≤ 31 ∧
    (_string_to_date s d0).2.hours ≤ 23 ∧ (_string_to_date s d0).2.minutes ≤ 59 ∧
    (_string_to_date s d0).2.seconds ≤ 59 ∧ (_string_to_date s d0).2.year < 2 ^ 32 := by
  obtain ⟨m, d, hh, mi, ss, y, h1, h12, hd1, hd31, hhh, hmi, hss, hy, e⟩ :=
    string_to_date_ok_date s d0 h
  rw [e]
  exact ⟨h1, h12, hd1, hd31, hhh, hmi, hss, hy⟩

set_option maxRecDepth 100000 in
/-- C15 at "Jan  9 -0:+7:08 +2038 GMT", an accepted string that is not of the
strict layout. -/
theorem string_to_date_ok_ranges_witness :
    (_string_to_date "Jan  9 -0:+7:08 +2038 GMT".toList date_zero).1 = OE_OK ∧
    (1 ≤ (_string_to_date "Jan  9 -0:+7:08 +2038 GMT".toList date_zero).2.month ∧
     (_string_to_date "Jan  9 -0:+7:08 +2038 GMT".toList date_zero).2.month ≤ 12 ∧
     1 ≤ (_string_to_date "Jan  9 -0:+7:08 +2038 GMT".toList date_zero).2.day ∧
     (_string_to_date "Jan  9 -0:+7:08 +2038 GMT".toList date_zero).2.day ≤ 31 ∧
     (_string_to_date "Jan  9 -0:+7:08 +2038 GMT".toList date_zero).2.hours ≤ 23 ∧
     (_string_to_date "Jan  9 -0:+7:08 +2038 GMT".toList date_zero).2.minutes ≤ 59 ∧
     (_string_to_date "Jan  9 -0:+7:08 +2038 GMT".toList date_zero).2.seconds ≤ 59 ∧
     (_string_to_date "Jan  9 -0:+7:08 +2038 GMT".toList date_zero).2.year < 2 ^ 32) :=
  ⟨by decide,
   string_to_date_ok_ranges "Jan  9 -0:+7:08 +2038 GMT".toList date_zero (by decide)⟩

/-! ## The year -/

set_option maxRecDepth 100000 in
/-- C19 as stated fails: the year 4294967296, which is `2 ^ 32`, is accepted
and stored as 0; a year above `ULONG_MAX` is stored as `2 ^ 32 - 1`. -/
theorem string_to_date_year_truncated :
    digits_value "4294967296".toList = 4294967296 ∧
    _string_to_date "Jan 1 00:00:00 4294967296 GMT".toList date_zero =
      (OE_OK, { year := 0, month := 1, day := 1, hours := 0, minutes := 0, seconds := 0 }) ∧
    (_string_to_date "Jan 1 00:00:00 4294967296 GMT".toList date_zero).2.year ≠
      digits_value "4294967296".toList ∧
    _string_to_date "Jan 1 00:00:00 99999999999999999999 GMT".toList date_zero =
      (OE_OK, { year := 4294967295, month := 1, day := 1, hours := 0, minutes := 0,
                seconds := 0 }) := by
  decide

/-- C19, amended: the year has no range restriction and is stored as a 32-bit
value.  For every otherwise well-formed timestamp whose year is a non-empty
run of decimal digits of value `v`, of any magnitude, `_string_to_date`
returns `OE_OK` and the year field is `min v ULONG_MAX` reduced modulo
`2 ^ 32`; it equals `v` exactly when `v < 2 ^ 32`. -/
theorem string_to_date_year (m : Nat) (D H MI S Y : List Char) (d0 : oe_date_t)
    (hm1 : 1 ≤ m) (hm12 : m ≤ 12)
    (hD : digit_run D = true) (hH : digit_run H = true) (hMI : digit_run MI = true)
    (hS : digit_run S = true) (hY : digit_run Y = true)
    (hd1 : 1 ≤ digits_value D) (hd31 : digits_value D ≤ 31) (hh : digits_value H ≤ 23)
    (hmi : digits_value MI ≤ 59) (hs : digits_value S ≤ 59) :
    (_string_to_date (timestamp m D H MI S Y) d0).1 = OE_OK ∧
    (_string_to_date (timestamp m D H MI S Y) d0).2.year =
      min (digits_value Y) ULONG_MAX % 2 ^ 32 ∧
    ((_string_to_date (timestamp m D H MI S Y) d0).2.year = digits_value Y ↔
      digits_value Y < 2 ^ 32) := by
  rw [timestamp_eq_padded,
    string_to_date_padded m [] D [] H [] MI [] S [] Y _ d0 hm1 hm12 rfl hD rfl hH rfl hMI rfl hS
      rfl hY]
  rw [if_neg (by omega), if_neg (by omega), if_neg (by omega), if_neg (by omega),
    check_gmt_literal]
  have hc : clamp_ulong (digits_value Y) = min (digits_value Y) ULONG_MAX := by
    unfold clamp_ulong
    split <;> omega
  have hu : ULONG_MAX = 18446744073709551615 := rfl
  refine ⟨rfl, ?_, ?_⟩
  · simp only [hc]
  · simp only [hc]
    constructor
    · intro e
      have := Nat.mod_lt (min (digits_value Y) ULONG_MAX) (show 0 < 2 ^ 32 by decide)
      omega
    · intro hlt
      rw [Nat.min_eq_left (by omega), Nat.mod_eq_of_lt hlt]

set_option maxRecDepth 100000 in
/-- The amended C19 at "Jan 1 00:00:00 4294969266 GMT": the year field is
4294969266 modulo `2 ^ 32`, which is 1970. -/
theorem string_to_date_year_witness :
    (digit_run "4294969266".toList = true ∧ digits_value "4294969266".toList = 4294969266) ∧
    ((_string_to_date "Jan 1 00:00:00 4294969266 GMT".toList date_zero).1 = OE_OK ∧
     (_string_to_date "Jan 1 00:00:00 4294969266 GMT".toList date_zero).2.year =
       min (digits_value "4294969266".toList) ULONG_MAX % 2 ^ 32 ∧
     ((_string_to_date "Jan 1 00:00:00 4294969266 GMT".toList date_zero).2.year =
        digits_value "4294969266".toList ↔ digits_value "4294969266".toList < 2 ^ 32)) :=
  ⟨by decide,
   string_to_date_year 1 "1".toList "00".toList "00".toList "00".toList "4294969266".toList
     date_zero (by decide) (by decide) (by decide) (by decide) (by decide) (by decide)
     (by decide) (by decide) (by decide) (by decide) (by decide) (by decide)⟩

/-! ## Independence of the prior contents of the outputs -/

/-- C20: two-run independence.  For every input string, `_string_to_date`
returns the same result code and leaves the same date whatever the
destination held before the call; and for every handle state,
`oe_crl_get_update_dates` returns the same result, the same outputs and makes
the same external calls whatever the requested outputs held before the call
(an output is requested when its pointer is not null). -/
theorem outputs_independent_of_prior_contents :
    (∀ (s : List Char) (d d' : oe_date_t), _string_to_date s d = _string_to_date s d') ∧
    (∀ (lib : openssl) (tr : List ext_call) (crl : Option crl_t)
      (last last' next next' : Option oe_date_t),
      last.isSome = last'.isSome → next.isSome = next'.isSome →
      oe_crl_get_update_dates lib tr crl last next =
        oe_crl_get_update_dates lib tr crl last' next') := by
  constructor
  · intro s d d'
    rfl
  · intro lib tr crl last last' next next' hl hn
    have e1 : last.map (fun _ => date_zero) = last'.map (fun _ => date_zero) := by
      cases last <;> cases last' <;> simp_all
    have e2 : next.map (fun _ => date_zero) = next'.map (fun _ => date_zero) := by
      cases next <;> cases next' <;> simp_all
    unfold oe_crl_get_update_dates
    simp only [e1, e2]

/-- C20 at two different prior contents of both outputs, on a handle whose
last-update converts and whose next-update is absent, and at two prior
contents of the destination of the parser. -/
theorem outputs_independent_of_prior_contents_witness :
    _string_to_date "Jan 1 00:00:00 1970 GMT".toList date_zero =
      _string_to_date "Jan 1 00:00:00 1970 GMT".toList
        { year := 9, month := 9, day := 9, hours := 9, minutes := 9, seconds := 9 } ∧
    oe_crl_get_update_dates lib_no_next_update [] (some { magic := OE_CRL_MAGIC, crl := 1 })
        (some date_zero) (some date_zero) =
      oe_crl_get_update_dates lib_no_next_update [] (some { magic := OE_CRL_MAGIC, crl := 1 })
        (some { year := 9, month := 9, day := 9, hours := 9, minutes := 9, seconds := 9 })
        (some { year := 7, month := 7, day := 7, hours := 7, minutes := 7, seconds := 7 }) :=
  ⟨outputs_independent_of_prior_contents.1 _ _ _,
   outputs_independent_of_prior_contents.2 _ _ _ _ _ _ _ rfl rfl⟩

/-! ## At least one digit in every numeric scan -/

theorem strtoul_without_digit (p : List Char) (h : scan_without_digit p = true) :
    strtoul p = (0, 0) := by
  simp only [scan_without_digit, Bool.not_eq_true'] at h
  have hq := drop_takeWhile_length isspace p
  by_cases hs : peek (p.dropWhile isspace) = '-' ∨ peek (p.dropWhile isspace) = '+'
  · rw [if_pos hs] at h
    have ht := takeWhile_nil_of_peek isdigit _ h
    simp only [strtoul, hq, hs, if_true, List.drop_one, ht]
  · rw [if_neg hs] at h
    have ht := takeWhile_nil_of_peek isdigit _ h
    simp only [strtoul, hq, hs, if_false, List.drop_zero, ht, if_true]

theorem numeric_field_has_digit (F : List Char) (h : numeric_field F = true) :
    F.any isdigit = true := by
  unfold numeric_field at h
  simp only at h
  have hne := digit_run_ne_nil h
  have hall := digit_run_all h
  have hsub : ∀ c, c ∈ (if peek (F.dropWhile isspace) = '-' ∨ peek (F.dropWhile isspace) = '+'
      then (F.dropWhile isspace).tail else F.dropWhile isspace) → c ∈ F := by
    intro c hc
    split_ifs at hc
    · exact (List.dropWhile_sublist isspace).subset (List.mem_of_mem_tail hc)
    · exact (List.dropWhile_sublist isspace).subset hc
  obtain ⟨c, hc⟩ := List.exists_mem_of_ne_nil _ hne
  rw [List.any_eq_true]
  exact ⟨c, hsub c hc, hall c hc⟩

theorem string_to_date_at_day (m : Nat) (p : List Char) (d0 : oe_date_t)
    (h1 : 1 ≤ m) (h12 : m ≤ 12) :
    _string_to_date (month_abbrev m ++ ' ' :: p) d0 =
      parse_day { date_zero with month := m } p := by
  have hm : m ≠ UINT_MAX := by unfold UINT_MAX; omega
  simp only [_string_to_date, month_loop_abbrev m h1 h12]
  rw [after_month_space _ _ hm]

theorem parse_day_without_digit (date : oe_date_t) (p : List Char)
    (h : scan_without_digit p = true) : parse_day date p = (OE_FAILURE, date) := by
  simp only [parse_day, strtoul_without_digit p h, true_or, if_true]

theorem parse_hours_without_digit (date : oe_date_t) (p : List Char)
    (h : scan_without_digit p = true) : parse_hours date p = (OE_FAILURE, date) := by
  simp only [parse_hours, strtoul_without_digit p h, true_or, if_true]

theorem parse_minutes_without_digit (date : oe_date_t) (p : List Char)
    (h : scan_without_digit p = true) : parse_minutes date p = (OE_FAILURE, date) := by
  simp only [parse_minutes, strtoul_without_digit p h, true_or, if_true]

theorem parse_seconds_without_digit (date : oe_date_t) (p : List Char)
    (h : scan_without_digit p = true) : parse_seconds date p = (OE_FAILURE, date) := by
  simp only [parse_seconds, strtoul_without_digit p h, true_or, if_true]

theorem parse_year_without_digit (date : oe_date_t) (p : List Char)
    (h : scan_without_digit p = true) : parse_year date p = (OE_FAILURE, date) := by
  simp only [parse_year, strtoul_without_digit p h, true_or, if_true]

theorem parse_day_digits (date : oe_date_t) (D rest : List Char) (hD : digit_run D = true)
    (h1 : 1 ≤ digits_value D) (h31 : digits_value D ≤ 31) :
    parse_day date (D ++ ' ' :: rest) =
      parse_hours { date with day := digits_value D } rest := by
  have h := parse_day_field date [] D rest (by simp) (digit_run_all hD) (digit_run_ne_nil hD)
  rw [List.nil_append, if_neg (by omega)] at h
  exact h

theorem parse_hours_digits (date : oe_date_t) (H rest : List Char) (hH : digit_run H = true)
    (h23 : digits_value H ≤ 23) :
    parse_hours date (H ++ ':' :: rest) =
      parse_minutes { date with hours := digits_value H } rest := by
  have h := parse_hours_field date [] H rest (by simp) (digit_run_all hH) (digit_run_ne_nil hH)
  rw [List.nil_append, if_neg (by omega)] at h
  exact h

theorem parse_minutes_digits (date : oe_date_t) (MI rest : List Char)
    (hMI : digit_run MI = true) (h59 : digits_value MI ≤ 59) :
    parse_minutes date (MI ++ ':' :: rest) =
      parse_seconds { date with minutes := digits_value MI } rest := by
  have h := parse_minutes_field date [] MI rest (by simp) (digit_run_all hMI)
    (digit_run_ne_nil hMI)
  rw [List.nil_append, if_neg (by omega)] at h
  exact h

theorem parse_seconds_digits (date : oe_date_t) (S rest : List Char) (hS : digit_run S = true)
    (h59 : digits_value S ≤ 59) :
    parse_seconds date (S ++ ' ' :: rest) =
      parse_year { date with seconds := digits_value S } rest := by
  have h := parse_seconds_field date [] S rest (by simp) (digit_run_all hS)
    (digit_run_ne_nil hS)
  rw [List.nil_append, if_neg (by omega)] at h
  exact h

set_option maxRecDepth 100000 in
/-- C18 as stated fails: in "Jan 1 00:00:00  1970 GMT" the year field, between
the space that ends the seconds and the next space, is empty, and the string
is accepted with the year 1970: `strtoul` skips the second space as leading
white space. -/
theorem string_to_date_empty_field_accepted :
    layout_with_tail "Jan".toList "1".toList "00".toList "00".toList "00".toList []
        "1970 GMT".toList = "Jan 1 00:00:00  1970 GMT".toList ∧
    ([] : List Char).any isdigit = false ∧
    _string_to_date "Jan 1 00:00:00  1970 GMT".toList date_zero =
      (OE_OK, { year := 1970, month := 1, day := 1, hours := 0, minutes := 0, seconds := 0 }) ∧
    (_string_to_date "Jan 1 00:00:00  1970 GMT".toList date_zero).1 ≠ OE_FAILURE := by
  decide

/-- C18, amended: at least one digit per numeric scan.  For every input on
which `_string_to_date` returns `OE_OK`, the string is of the layout with five
numeric fields each of which is optional white space, an optional sign and a
non-empty digit run, so each scan consumed at least one digit.  And for every
string that is well formed up to one of the five numeric scans, if that scan
meets no digit (after the white space and the optional sign `strtoul` skips,
the next byte is not a digit) the parser returns `OE_FAILURE`. -/
theorem string_to_date_digit_required :
    (∀ (s : List Char) (d0 : oe_date_t), (_string_to_date s d0).1 = OE_OK →
      ∃ M F1 F2 F3 F4 F5 tail, s = layout_with_tail M F1 F2 F3 F4 F5 tail ∧
        ∀ F ∈ [F1, F2, F3, F4, F5], numeric_field F = true ∧ F.any isdigit = true) ∧
    (∀ (m : Nat) (p : List Char) (d0 : oe_date_t), 1 ≤ m → m ≤ 12 →
      scan_without_digit p = true →
      (_string_to_date (month_abbrev m ++ " ".toList ++ p) d0).1 = OE_FAILURE) ∧
    (∀ (m : Nat) (D p : List Char) (d0 : oe_date_t), 1 ≤ m → m ≤ 12 →
      digit_run D = true → 1 ≤ digits_value D → digits_value D ≤ 31 →
      scan_without_digit p = true →
      (_string_to_date (month_abbrev m ++ " ".toList ++ D ++ " ".toList ++ p) d0).1 =
        OE_FAILURE) ∧
    (∀ (m : Nat) (D H p : List Char) (d0 : oe_date_t), 1 ≤ m → m ≤ 12 →
      digit_run D = true → 1 ≤ digits_value D → digits_value D ≤ 31 →
      digit_run H = true → digits_value H ≤ 23 →
      scan_without_digit p = true →
      (_string_to_date (month_abbrev m ++ " ".toList ++ D ++ " ".toList ++ H ++ ":".toList
        ++ p) d0).1 = OE_FAILURE) ∧
    (∀ (m : Nat) (D H MI p : List Char) (d0 : oe_date_t), 1 ≤ m → m ≤ 12 →
      digit_run D = true → 1 ≤ digits_value D → digits_value D ≤ 31 →
      digit_run H = true → digits_value H ≤ 23 →
      digit_run MI = true → digits_value MI ≤ 59 →
      scan_without_digit p = true →
      (_string_to_date (month_abbrev m ++ " ".toList ++ D ++ " ".toList ++ H ++ ":".toList
        ++ MI ++ ":".toList ++ p) d0).1 = OE_FAILURE) ∧
    (∀ (m : Nat) (D H MI S p : List Char) (d0 : oe_date_t), 1 ≤ m → m ≤ 12 →
      digit_run D = true → 1 ≤ digits_value D → digits_value D ≤ 31 →
      digit_run H = true → digits_value H ≤ 23 →
      digit_run MI = true → digits_value MI ≤ 59 →
      digit_run S = true → digits_value S ≤ 59 →
      scan_without_digit p = true →
      (_string_to_date (month_abbrev m ++ " ".toList ++ D ++ " ".toList ++ H ++ ":".toList
        ++ MI ++ ":".toList ++ S ++ " ".toList ++ p) d0).1 = OE_FAILURE) := by
  have hsp : " ".toList = [' '] := rfl
  have hco : ":".toList = [':'] := rfl
  refine ⟨?_, ?_, ?_, ?_, ?_, ?_⟩
  · intro s d0 h
    obtain ⟨mon, X, F1, F2, F3, F4, F5, rest, _, hs, n1, n2, n3, n4, n5, _⟩ :=
      string_to_date_ok_layout s d0 h
    refine ⟨mon ++ X, F1, F2, F3, F4, F5, "GMT".toList ++ rest, ?_, ?_⟩
    · rw [hs, layout_append]
    · intro F hF
      simp only [List.mem_cons, List.mem_singleton, List.not_mem_nil, or_false] at hF
      rcases hF with e | e | e | e | e <;> subst e
      · exact ⟨n1, numeric_field_has_digit _ n1⟩
      · exact ⟨n2, numeric_field_has_digit _ n2⟩
      · exact ⟨n3, numeric_field_has_digit _ n3⟩
      · exact ⟨n4, numeric_field_has_digit _ n4⟩
      · exact ⟨n5, numeric_field_has_digit _ n5⟩
  · intro m p d0 h1 h12 hp
    simp only [hsp, List.append_assoc, List.singleton_append, List.cons_append, List.nil_append]
    rw [string_to_date_at_day m _ d0 h1 h12, parse_day_without_digit _ p hp]
  · intro m D p d0 h1 h12 hD hd1 hd31 hp
    simp only [hsp, List.append_assoc, List.singleton_append, List.cons_append, List.nil_append]
    rw [string_to_date_at_day m _ d0 h1 h12, parse_day_digits _ D _ hD hd1 hd31,
      parse_hours_without_digit _ p hp]
  · intro m D H p d0 h1 h12 hD hd1 hd31 hH hh hp
    simp only [hsp, hco, List.append_assoc, List.singleton_append, List.cons_append, List.nil_append]
    rw [string_to_date_at_day m _ d0 h1 h12, parse_day_digits _ D _ hD hd1 hd31,
      parse_hours_digits _ H _ hH hh, parse_minutes_without_digit _ p hp]
  · intro m D H MI p d0 h1 h12 hD hd1 hd31 hH hh hMI hmi hp
    simp only [hsp, hco, List.append_assoc, List.singleton_append, List.cons_append, List.nil_append]
    rw [string_to_date_at_day m _ d0 h1 h12, parse_day_digits _ D _ hD hd1 hd31,
      parse_hours_digits _ H _ hH hh, parse_minutes_digits _ MI _ hMI hmi,
      parse_seconds_without_digit _ p hp]
  · intro m D H MI S p d0 h1 h12 hD hd1 hd31 hH hh hMI hmi hS hs hp
    simp only [hsp, hco, List.append_assoc, List.singleton_append, List.cons_append, List.nil_append]
    rw [string_to_date_at_day m _ d0 h1 h12, parse_day_digits _ D _ hD hd1 hd31,
      parse_hours_digits _ H _ hH hh, parse_minutes_digits _ MI _ hMI hmi,
      parse_seconds_digits _ S _ hS hs, parse_year_without_digit _ p hp]

set_option maxRecDepth 100000 in
/-- The amended C18 at "Jan 1 00:00:00 + GMT", whose year scan meets a sign
and then no digit. -/
theorem string_to_date_digit_required_witness :
    scan_without_digit "+ GMT".toList = true ∧
    (_string_to_date "Jan 1 00:00:00 + GMT".toList date_zero).1 = OE_FAILURE :=
  ⟨by decide,
   string_to_date_digit_required.2.2.2.2.2 1 "1".toList "00".toList "00".toList "00".toList
     "+ GMT".toList date_zero (by decide) (by decide) (by decide) (by decide) (by decide)
     (by decide) (by decide) (by decide) (by decide) (by decide) (by decide) (by decide)⟩

/-! ## The parser over a buffer with checked reads -/

theorem strncmp_mem_eq (n : Nat) : ∀ (s m : List Char),
    strncmp_mem (s ++ [NUL]) m n = some (strncmp s m n) := by
  induction n with
  | zero => intro s m; simp [strncmp_mem, strncmp]
  | succ n ih =>
    intro s m
    cases s with
    | nil =>
      simp only [List.nil_append, strncmp_mem, strncmp, peek, List.headD_nil]
      split_ifs <;> rfl
    | cons c s =>
      simp only [List.cons_append, strncmp_mem, strncmp, peek, List.headD_cons, List.tail_cons]
      split_ifs
      · rfl
      · rfl
      · exact ih s m.tail

theorem strcmp_mem_eq : ∀ (s m : List Char), strcmp_mem (s ++ [NUL]) m = some (strcmp s m) := by
  intro s
  induction s with
  | nil =>
    intro m
    simp only [List.nil_append, strcmp_mem, strcmp]
    split_ifs with h1
    · rfl
    · rw [not_not] at h1
      rw [← h1]; simp
  | cons c s ih =>
    intro m
    simp only [List.cons_append, strcmp_mem, strcmp]
    split_ifs
    · rfl
    · rfl
    · exact ih m.tail

theorem scan_mem_eq (f : Char → Bool) (hf : f NUL = false) : ∀ s : List Char,
    scan_mem f (s ++ [NUL]) = some (s.takeWhile f).length := by
  intro s
  induction s with
  | nil => simp [scan_mem, hf]
  | cons c s ih =>
    simp only [List.cons_append, scan_mem, List.takeWhile_cons]
    by_cases hc : f c = true
    · simp [hc, ih]
    · simp [hc]

theorem read_byte_append_nul (q : List Char) : read_byte (q ++ [NUL]) = some (peek q) := by
  cases q <;> rfl

theorem drop_append_nul (s : List Char) (p : Nat) (hp : p ≤ s.length) :
    (s ++ [NUL]).drop p = s.drop p ++ [NUL] :=
  List.drop_append_of_le_length hp

theorem length_pos_of_peek_ne_nul (q : List Char) (h : peek q ≠ NUL) : 0 < q.length := by
  cases q with
  | nil => exact absurd rfl h
  | cons c q => simp

theorem length_takeWhile_le_length (f : Char → Bool) (l : List Char) :
    (l.takeWhile f).length ≤ l.length :=
  (List.takeWhile_sublist f).length_le

theorem strtoul_mem_eq (s : List Char) : strtoul_mem (s ++ [NUL]) = some (strtoul s) := by
  have hws : (s.takeWhile isspace).length ≤ s.length := length_takeWhile_le_length _ _
  generalize hw : (s.takeWhile isspace).length = ws at hws
  have hsg : ∀ sg : Nat, sg = (if peek (s.drop ws) = '-' ∨ peek (s.drop ws) = '+' then 1 else 0) →
      ws + sg ≤ s.length := by
    intro sg hsg
    split_ifs at hsg with hc
    · have hne : peek (s.drop ws) ≠ NUL := by
        rcases hc with e | e <;> rw [e] <;> decide
      have := length_pos_of_peek_ne_nul _ hne
      rw [List.length_drop] at this
      omega
    · omega
  generalize hsgd : (if peek (s.drop ws) = '-' ∨ peek (s.drop ws) = '+' then 1 else 0) = sg
    at hsg
  have hsgl := hsg sg rfl
  have hdd : (s.drop ws).drop sg = s.drop (ws + sg) := by
    rw [List.drop_drop, Nat.add_comm]
  have hn : ((s.drop (ws + sg)).takeWhile isdigit).length ≤ (s.drop (ws + sg)).length :=
    length_takeWhile_le_length _ _
  have htake : ((s.drop (ws + sg)) ++ [NUL]).take ((s.drop (ws + sg)).takeWhile isdigit).length =
      (s.drop (ws + sg)).takeWhile isdigit := by
    rw [List.take_append_of_le_length hn, take_takeWhile_length]
  simp only [strtoul_mem, scan_mem_eq isspace isspace_NUL, hw, drop_append_nul s ws hws,
    read_byte_append_nul, hsgd, drop_append_nul s (ws + sg) hsgl,
    scan_mem_eq isdigit isdigit_NUL, htake, strtoul, hdd, List.length_eq_zero]
  split_ifs <;> rfl

theorem strtoul_offset_le (q : List Char) : (strtoul q).2 ≤ q.length := by
  by_cases h : (strtoul q).2 = 0
  · omega
  · obtain ⟨ws, sg, ds, hq, hoff, _⟩ := strtoul_shape q h
    have hl := congrArg List.length hq
    simp only [List.length_append] at hl
    omega

theorem tail_drop (s : List Char) (n : Nat) : (s.drop n).tail = s.drop (n + 1) := by
  rw [List.tail_drop]

/-- The numeric scan at the index `p` of the buffer `s ++ [NUL]`: it is the
scan of `strtoul` on the text from `p`, it ends inside the buffer, and the
byte at its end is the one `*end` reads. -/
theorem scan_field_mem (s : List Char) (p : Nat) (hp : p ≤ s.length) :
    strtoul_mem ((s ++ [NUL]).drop p) = some (strtoul (s.drop p)) ∧
    p + (strtoul (s.drop p)).2 ≤ s.length ∧
    (s.drop p).drop (strtoul (s.drop p)).2 = s.drop (p + (strtoul (s.drop p)).2) ∧
    read_byte ((s ++ [NUL]).drop (p + (strtoul (s.drop p)).2)) =
      some (peek (s.drop (p + (strtoul (s.drop p)).2))) ∧
    (peek (s.drop (p + (strtoul (s.drop p)).2)) ≠ NUL →
      p + (strtoul (s.drop p)).2 + 1 ≤ s.length) ∧
    (s.drop (p + (strtoul (s.drop p)).2)).tail = s.drop (p + (strtoul (s.drop p)).2 + 1) := by
  have hoff := strtoul_offset_le (s.drop p)
  rw [List.length_drop] at hoff
  have hle : p + (strtoul (s.drop p)).2 ≤ s.length := by omega
  refine ⟨?_, hle, ?_, ?_, ?_, ?_⟩
  · rw [drop_append_nul s p hp, strtoul_mem_eq]
  · rw [List.drop_drop, Nat.add_comm]
  · rw [drop_append_nul s _ hle, read_byte_append_nul]
  · intro hne
    have := length_pos_of_peek_ne_nul _ hne
    rw [List.length_drop] at this
    omega
  · rw [tail_drop]

theorem check_gmt_mem_eq (s : List Char) (date : oe_date_t) (p : Nat) (hp : p ≤ s.length) :
    check_gmt_mem (s ++ [NUL]) date p =
      some ((check_gmt date (s.drop p)).1, (check_gmt date (s.drop p)).2, p) := by
  simp only [check_gmt_mem, drop_append_nul s p hp, strcmp_mem_eq, check_gmt]
  split_ifs <;> rfl

theorem parse_year_mem_eq (s : List Char) (date : oe_date_t) (p : Nat) (hp : p ≤ s.length) :
    ∃ p2, parse_year_mem (s ++ [NUL]) date p =
        some ((parse_year date (s.drop p)).1, (parse_year date (s.drop p)).2, p2) ∧
      p2 ≤ s.length := by
  obtain ⟨h1, h2, hdd, h3, h4, h5⟩ := scan_field_mem s p hp
  simp only [parse_year_mem, parse_year, h1, h3, hdd]
  by_cases c0 : (strtoul (s.drop p)).2 = 0
  · exact ⟨p, by simp only [c0, true_or, if_true], hp⟩
  · by_cases c1 : peek (s.drop (p + (strtoul (s.drop p)).2)) = ' '
    · have hn : p + (strtoul (s.drop p)).2 + 1 ≤ s.length := h4 (by rw [c1]; decide)
      refine ⟨p + (strtoul (s.drop p)).2 + 1, ?_, hn⟩
      simp only [c0, c1, if_false, ne_eq, not_true_eq_false, or_self, h5]
      exact check_gmt_mem_eq s _ _ hn
    · exact ⟨p, by simp only [c0, c1, if_false, ne_eq, not_false_eq_true, or_true, if_true], hp⟩

theorem parse_seconds_mem_eq (s : List Char) (date : oe_date_t) (p : Nat) (hp : p ≤ s.length) :
    ∃ p2, parse_seconds_mem (s ++ [NUL]) date p =
        some ((parse_seconds date (s.drop p)).1, (parse_seconds date (s.drop p)).2, p2) ∧
      p2 ≤ s.length := by
  obtain ⟨h1, h2, hdd, h3, h4, h5⟩ := scan_field_mem s p hp
  simp only [parse_seconds_mem, parse_seconds, h1, h3, hdd]
  by_cases c0 : (strtoul (s.drop p)).2 = 0
  · exact ⟨p, by simp only [c0, true_or, if_true], hp⟩
  · by_cases c1 : peek (s.drop (p + (strtoul (s.drop p)).2)) = ' '
    · have hn : p + (strtoul (s.drop p)).2 + 1 ≤ s.length := h4 (by rw [c1]; decide)
      by_cases c2 : (strtoul (s.drop p)).1 > 59
      · exact ⟨p, by simp only [c0, c1, c2, or_true, if_true, if_false], hp⟩
      · obtain ⟨p2, e, hp2⟩ := parse_year_mem_eq s
          { date with seconds := (strtoul (s.drop p)).1 % 2 ^ 32 } _ hn
        refine ⟨p2, ?_, hp2⟩
        simp only [c0, c1, c2, if_false, ne_eq, not_true_eq_false, or_self, h5]
        exact e
    · exact ⟨p, by simp only [c0, c1, if_false, ne_eq, not_false_eq_true, or_true, true_or,
        if_true], hp⟩

theorem parse_minutes_mem_eq (s : List Char) (date : oe_date_t) (p : Nat) (hp : p ≤ s.length) :
    ∃ p2, parse_minutes_mem (s ++ [NUL]) date p =
        some ((parse_minutes date (s.drop p)).1, (parse_minutes date (s.drop p)).2, p2) ∧
      p2 ≤ s.length := by
  obtain ⟨h1, h2, hdd, h3, h4, h5⟩ := scan_field_mem s p hp
  simp only [parse_minutes_mem, parse_minutes, h1, h3, hdd]
  by_cases c0 : (strtoul (s.drop p)).2 = 0
  · exact ⟨p, by simp only [c0, true_or, if_true], hp⟩
  · by_cases c1 : peek (s.drop (p + (strtoul (s.drop p)).2)) = ':'
    · have hn : p + (strtoul (s.drop p)).2 + 1 ≤ s.length := h4 (by rw [c1]; decide)
      by_cases c2 : (strtoul (s.drop p)).1 > 59
      · exact ⟨p, by simp only [c0, c1, c2, or_true, if_true, if_false], hp⟩
      · obtain ⟨p2, e, hp2⟩ := parse_seconds_mem_eq s
          { date with minutes := (strtoul (s.drop p)).1 % 2 ^ 32 } _ hn
        refine ⟨p2, ?_, hp2⟩
        simp only [c0, c1, c2, if_false, ne_eq, not_true_eq_false, or_self, h5]
        exact e
    · exact ⟨p, by simp only [c0, c1, if_false, ne_eq, not_false_eq_true, or_true, true_or,
        if_true], hp⟩

theorem parse_hours_mem_eq (s : List Char) (date : oe_date_t) (p : Nat) (hp : p ≤ s.length) :
    ∃ p2, parse_hours_mem (s ++ [NUL]) date p =
        some ((parse_hours date (s.drop p)).1, (parse_hours date (s.drop p)).2, p2) ∧
      p2 ≤ s.length := by
  obtain ⟨h1, h2, hdd, h3, h4, h5⟩ := scan_field_mem s p hp
  simp only [parse_hours_mem, parse_hours, h1, h3, hdd]
  by_cases c0 : (strtoul (s.drop p)).2 = 0
  · exact ⟨p, by simp only [c0, true_or, if_true], hp⟩
  · by_cases c1 : peek (s.drop (p + (strtoul (s.drop p)).2)) = ':'
    · have hn : p + (strtoul (s.drop p)).2 + 1 ≤ s.length := h4 (by rw [c1]; decide)
      by_cases c2 : (strtoul (s.drop p)).1 > 23
      · exact ⟨p, by simp only [c0, c1, c2, or_true, if_true, if_false], hp⟩
      · obtain ⟨p2, e, hp2⟩ := parse_minutes_mem_eq s
          { date with hours := (strtoul (s.drop p)).1 % 2 ^ 32 } _ hn
        refine ⟨p2, ?_, hp2⟩
        simp only [c0, c1, c2, if_false, ne_eq, not_true_eq_false, or_self, h5]
        exact e
    · exact ⟨p, by simp only [c0, c1, if_false, ne_eq, not_false_eq_true, or_true, true_or,
        if_true], hp⟩

theorem parse_day_mem_eq (s : List Char) (date : oe_date_t) (p : Nat) (hp : p ≤ s.length) :
    ∃ p2, parse_day_mem (s ++ [NUL]) date p =
        some ((parse_day date (s.drop p)).1, (parse_day date (s.drop p)).2, p2) ∧
      p2 ≤ s.length := by
  obtain ⟨h1, h2, hdd, h3, h4, h5⟩ := scan_field_mem s p hp
  simp only [parse_day_mem, parse_day, h1, h3, hdd]
  by_cases c0 : (strtoul (s.drop p)).2 = 0
  · exact ⟨p, by simp only [c0, true_or, if_true], hp⟩
  · by_cases c1 : peek (s.drop (p + (strtoul (s.drop p)).2)) = ' '
    · have hn : p + (strtoul (s.drop p)).2 + 1 ≤ s.length := h4 (by rw [c1]; decide)
      by_cases c2 : (strtoul (s.drop p)).1 < 1 ∨ (strtoul (s.drop p)).1 > 31
      · exact ⟨p, by simp only [c0, c1, c2, or_true, if_true, if_false], hp⟩
      · obtain ⟨p2, e, hp2⟩ := parse_hours_mem_eq s
          { date with day := (strtoul (s.drop p)).1 % 2 ^ 32 } _ hn
        refine ⟨p2, ?_, hp2⟩
        simp only [c0, c1, c2, if_false, ne_eq, not_true_eq_false, or_self, h5]
        exact e
    · exact ⟨p, by simp only [c0, c1, if_false, ne_eq, not_false_eq_true, or_true, true_or,
        if_true], hp⟩

theorem month_loop_mem_eq (s : List Char) (t : List (List Char))
    (ht : ∀ m ∈ t, m.length = 3 ∧ ∀ c ∈ m, c ≠ NUL) :
    ∀ (i month p : Nat), p ≤ s.length →
      ∃ q, month_loop_mem (s ++ [NUL]) t i month p =
          some ((month_loop t i month (s.drop p)).1, q) ∧
        q ≤ s.length ∧ (month_loop t i month (s.drop p)).2 = s.drop q := by
  induction t with
  | nil => intro i month p hp; exact ⟨p, rfl, hp, rfl⟩
  | cons m rest ih =>
    intro i month p hp
    have ih2 := ih (fun x hx => ht x (List.mem_cons_of_mem _ hx))
    simp only [month_loop_mem, month_loop, drop_append_nul s p hp, strncmp_mem_eq]
    by_cases hm : strncmp (s.drop p) m 3 = 0
    · have hmm := ht m (List.mem_cons_self _ _)
      have hsp := strncmp_zero 3 (s.drop p) m hm hmm.1 hmm.2
      have hlen := congrArg List.length hsp
      rw [List.length_append, List.length_drop, hmm.1] at hlen
      have hp3 : p + 3 ≤ s.length := by omega
      have hdd : (s.drop p).drop 3 = s.drop (p + 3) := by rw [List.drop_drop, Nat.add_comm]
      simp only [hm, if_true, hdd]
      exact ih2 (i + 1) (i + 1) (p + 3) hp3
    · simp only [hm, if_false]
      exact ih2 (i + 1) month p hp

theorem after_month_mem_eq (s : List Char) (date : oe_date_t) (p : Nat) (hp : p ≤ s.length) :
    ∃ p2, after_month_mem (s ++ [NUL]) date p =
        some ((after_month date (s.drop p)).1, (after_month date (s.drop p)).2, p2) ∧
      p2 ≤ s.length + 1 ∧
      (s.length < p2 → date.month ≠ UINT_MAX ∧ peek (s.drop p) = NUL ∧
        after_month date (s.drop p) = (OE_FAILURE, date)) := by
  simp only [after_month_mem, after_month, drop_append_nul s p hp, read_byte_append_nul]
  by_cases c0 : date.month = UINT_MAX
  · exact ⟨p, by simp only [c0, true_or, if_true], by omega, fun h => by omega⟩
  · by_cases c1 : peek (s.drop p) = ' '
    · have hpos := length_pos_of_peek_ne_nul (s.drop p) (by rw [c1]; decide)
      rw [List.length_drop] at hpos
      have hn : p + 1 ≤ s.length := by omega
      obtain ⟨p2, e, hp2⟩ := parse_day_mem_eq s date (p + 1) hn
      refine ⟨p2, ?_, by omega, fun h => by omega⟩
      simp only [c0, c1, if_false, ne_eq, not_true_eq_false, or_self, tail_drop]
      exact e
    · refine ⟨p + 1, by simp only [c0, c1, if_false, ne_eq, not_false_eq_true, or_true,
        if_true], by omega, fun h => ⟨c0, ?_, by simp only [c0, c1, ne_eq, not_false_eq_true,
        or_true, if_true]⟩⟩
      have hps : p = s.length := by omega
      rw [hps, List.drop_length]
      rfl

/-- The parser over the buffer `s ++ [NUL]` performs no read past the end of
the buffer and returns what `_string_to_date` returns on `s`; its scan pointer
ends at most one past the terminator, and past the terminator only when the
check after the month loop read the terminator. -/
theorem string_to_date_mem_eq (s : List Char) (d0 : oe_date_t) :
    ∃ p, string_to_date_mem (s ++ [NUL]) d0 =
        some ((_string_to_date s d0).1, (_string_to_date s d0).2, p) ∧
      p ≤ s.length + 1 ∧
      (s.length < p →
        (month_loop _month 0 UINT_MAX s).1 ≠ UINT_MAX ∧
        peek (month_loop _month 0 UINT_MAX s).2 = NUL ∧
        _string_to_date s d0 =
          (OE_FAILURE, { date_zero with month := (month_loop _month 0 UINT_MAX s).1 })) := by
  obtain ⟨q, hq, hql, hqd⟩ :=
    month_loop_mem_eq s _month month_table_entries 0 UINT_MAX 0 (Nat.zero_le _)
  rw [List.drop_zero] at hq hqd
  obtain ⟨p2, e, hp2, hpast⟩ := after_month_mem_eq s
    { date_zero with month := (month_loop _month 0 UINT_MAX s).1 } q hql
  rw [← hqd] at e hpast
  refine ⟨p2, ?_, hp2, hpast⟩
  simp only [string_to_date_mem, hq, _string_to_date]
  exact e

set_option maxRecDepth 100000 in
/-- C16 as stated fails in its last part: on the string "Jan" the byte after
the month, at index 3, is the terminator; the check `*p++ != ' '` reads it and
advances the scan pointer to index 4, past a byte that was found to be null. -/
theorem string_to_date_pointer_past_terminator :
    read_byte (("Jan".toList ++ [NUL]).drop 3) = some NUL ∧
    string_to_date_mem ("Jan".toList ++ [NUL]) date_zero =
      some (OE_FAILURE, { date_zero with month := 1 }, 4) := by
  decide

/-- C16, amended: bounded reads.  Over the buffer that holds the bytes of `s`
followed by one null terminator, with a read past the end yielding `none`,
the parser (the month comparisons, the numeric scans, the separator checks
and the final comparison) is a total function that performs no read past the
terminator: it returns a result, the one `_string_to_date` returns on `s`.
Its scan pointer is advanced past a byte only after that byte has been read;
it ends at most one past the terminator, and it is past the terminator only
when the check after the month loop read the terminator, in which case the
function returns `OE_FAILURE` with only the month written. -/
theorem string_to_date_bounded_reads (s : List Char) (d0 : oe_date_t) :
    ∃ p, string_to_date_mem (s ++ [NUL]) d0 =
        some ((_string_to_date s d0).1, (_string_to_date s d0).2, p) ∧
      p ≤ s.length + 1 ∧
      (s.length < p →
        peek (month_loop _month 0 UINT_MAX s).2 = NUL ∧
        (_string_to_date s d0).1 = OE_FAILURE ∧
        ∃ m, 1 ≤ m ∧ m ≤ 12 ∧ (_string_to_date s d0).2 = { date_zero with month := m }) := by
  obtain ⟨p, e, hp, hpast⟩ := string_to_date_mem_eq s d0
  refine ⟨p, e, hp, fun h => ?_⟩
  obtain ⟨hne, hpk, hr⟩ := hpast h
  refine ⟨hpk, by rw [hr], (month_loop _month 0 UINT_MAX s).1, ?_⟩
  rcases month_loop_range s with hm | hm
  · exact absurd hm hne
  · exact ⟨hm.1, hm.2, by rw [hr]⟩

set_option maxRecDepth 100000 in
/-- The amended C16 on "Jan 1 00:00:00 1970 GMT": no read past the terminator,
the scan pointer ends at index 20, where "GMT" starts; without the terminator
in the buffer the final comparison reads past its end. -/
theorem string_to_date_bounded_reads_example :
    string_to_date_mem ("Jan 1 00:00:00 1970 GMT".toList ++ [NUL]) date_zero =
      some (OE_OK, { year := 1970, month := 1, day := 1, hours := 0, minutes := 0,
                     seconds := 0 }, 20) ∧
    string_to_date_mem "Jan 1 00:00:00 1970 GMT".toList date_zero = none := by
  decide

set_option maxRecDepth 100000 in
/-- The amended C16 on "Jan": the parser returns `OE_FAILURE` without a read
past the terminator, and its scan pointer ends at index 4, one past it. -/
theorem string_to_date_bounded_reads_witness :
    string_to_date_mem ("Jan".toList ++ [NUL]) date_zero =
      some (OE_FAILURE, { date_zero with month := 1 }, 4) ∧
    ∃ p, string_to_date_mem ("Jan".toList ++ [NUL]) date_zero =
        some ((_string_to_date "Jan".toList date_zero).1,
          (_string_to_date "Jan".toList date_zero).2, p) ∧
      p ≤ "Jan".toList.length + 1 ∧
      ("Jan".toList.length < p →
        peek (month_loop _month 0 UINT_MAX "Jan".toList).2 = NUL ∧
        (_string_to_date "Jan".toList date_zero).1 = OE_FAILURE ∧
        ∃ m, 1 ≤ m ∧ m ≤ 12 ∧
          (_string_to_date "Jan".toList date_zero).2 = { date_zero with month := m }) :=
  ⟨by decide, string_to_date_bounded_reads "Jan".toList date_zero⟩

/-! ## The rules of the grammar and the tests of the code -/

theorem numeric_value_le (F : List Char) : numeric_value F ≤ ULONG_MAX := by
  unfold numeric_value
  simp only
  have hu : ULONG_MAX = 18446744073709551615 := rfl
  generalize digits_value (if peek (F.dropWhile isspace) = '-' ∨
    peek (F.dropWhile isspace) = '+' then (F.dropWhile isspace).tail
    else F.dropWhile isspace) = v
  by_cases h1 : v > ULONG_MAX
  · rw [if_pos h1]
  · rw [if_neg h1]
    by_cases h2 : peek (F.dropWhile isspace) = '-'
    · rw [if_pos h2]
      have := Nat.mod_lt (ULONG_MAX + 1 - v) (show 0 < ULONG_MAX + 1 by omega)
      omega
    · rw [if_neg h2]
      omega

/-- The scan of `strtoul` on a numeric field followed by a byte that is not a
digit: it consumes the field and returns its value. -/
theorem strtoul_numeric_field (F r : List Char) (hF : numeric_field F = true)
    (hr : isdigit (peek r) = false) : strtoul (F ++ r) = (numeric_value F, F.length) := by
  have hsplit : F = F.takeWhile isspace ++ F.dropWhile isspace :=
    (List.takeWhile_append_dropWhile isspace F).symm
  have hws : ∀ c ∈ F.takeWhile isspace, isspace c = true := takeWhile_all isspace F
  have hq0 : isspace (peek (F.dropWhile isspace)) = false := peek_dropWhile isspace isspace_NUL F
  unfold numeric_field at hF
  simp only at hF
  unfold numeric_value
  simp only
  generalize F.takeWhile isspace = ws at hsplit hws
  generalize F.dropWhile isspace = q at hsplit hq0 hF
  subst hsplit
  by_cases hs : peek q = '-' ∨ peek q = '+'
  · rw [if_pos hs] at hF
    rw [if_pos hs]
    have hqc : q = peek q :: q.tail := by
      rcases hs with e | e
      · exact peek_ne_NUL_cons rfl (by rw [e]; decide)
      · exact peek_ne_NUL_cons rfl (by rw [e]; decide)
    generalize q.tail = d at hqc hF
    generalize peek q = c at hqc hs hq0
    subst hqc
    have hcs : isspace c = false := by rcases hs with e | e <;> rw [e] <;> rfl
    have h1 : ((ws ++ c :: d) ++ r).takeWhile isspace = ws := by
      rw [List.append_assoc]
      exact takeWhile_run isspace ws _ hws (by simpa [peek] using hcs)
    have h2 : (d ++ r).takeWhile isdigit = d :=
      takeWhile_run isdigit d r (digit_run_all hF) hr
    have hdrop : ((ws ++ c :: d) ++ r).drop ws.length = c :: (d ++ r) := by
      rw [List.append_assoc, List.drop_left]; rfl
    have hpk : peek (c :: (d ++ r)) = c := rfl
    have hne := digit_run_ne_nil hF
    simp only [strtoul, h1, hdrop, hpk, hs, if_true, List.drop_one, List.tail_cons, h2, hne,
      if_false, List.length_append, List.length_cons]
    rw [Prod.mk.injEq]
    exact ⟨rfl, by omega⟩
  · rw [if_neg hs] at hF
    rw [if_neg hs]
    have hd : isdigit (peek q) = true :=
      isdigit_peek_of_run q (digit_run_all hF) (digit_run_ne_nil hF)
    have hm : peek q ≠ '-' := fun e => hs (Or.inl e)
    rw [List.append_assoc, strtoul_field ws q r hws (digit_run_all hF) (digit_run_ne_nil hF) hr]
    simp only [clamp_ulong, hm, if_false, List.length_append]

theorem numeric_field_length_ne_zero {F : List Char} (hF : numeric_field F = true) :
    F.length ≠ 0 := by
  intro h
  rw [List.length_eq_zero] at h
  subst h
  exact absurd hF (by decide)

/-- A text that passes a numeric rule, as `strtoul` scans it. -/
theorem scan_of_field_rule (F rest : List Char) (sep : Char) (hF : numeric_field F = true)
    (hd : isdigit sep = false) :
    strtoul (F ++ sep :: rest) = (numeric_value F, F.length) ∧
    (F ++ sep :: rest).drop F.length = sep :: rest :=
  ⟨strtoul_numeric_field F (sep :: rest) hF (by simpa [peek] using hd), List.drop_left _ _⟩

/-- A scan of `strtoul` that passes the tests of a block, as a rule on the
text. -/
theorem field_rule_of_scan (p : List Char) (sep : Char) (lo hi : Nat) (hc : sep ≠ NUL)
    (hd : isdigit sep = false) (hoff : (strtoul p).2 ≠ 0)
    (hsep : peek (p.drop (strtoul p).2) = sep) (hlo : lo ≤ (strtoul p).1)
    (hhi : (strtoul p).1 ≤ hi) : field_rule sep lo hi p := by
  obtain ⟨F, hp, hF⟩ := field_of_strtoul p sep hc hoff hsep
  have hs := (scan_of_field_rule F (p.drop (strtoul p).2).tail sep hF hd).1
  rw [← hp] at hs
  rw [hs] at hlo hhi
  exact ⟨F, _, hp, hF, hlo, hhi⟩

theorem parse_day_violation (date : oe_date_t) (p : List Char) (h : ¬ field_rule ' ' 1 31 p) :
    parse_day date p = (OE_FAILURE, date) := by
  unfold parse_day
  simp only
  by_cases hc : (strtoul p).2 = 0 ∨ peek (p.drop (strtoul p).2) ≠ ' ' ∨ (strtoul p).1 < 1 ∨
      (strtoul p).1 > 31
  · rw [if_pos hc]
  · exfalso
    push_neg at hc
    exact h (field_rule_of_scan p ' ' 1 31 (by decide) rfl hc.1 hc.2.1 hc.2.2.1 hc.2.2.2)

theorem parse_hours_violation (date : oe_date_t) (p : List Char) (h : ¬ field_rule ':' 0 23 p) :
    parse_hours date p = (OE_FAILURE, date) := by
  unfold parse_hours
  simp only
  by_cases hc : (strtoul p).2 = 0 ∨ peek (p.drop (strtoul p).2) ≠ ':' ∨ (strtoul p).1 > 23
  · rw [if_pos hc]
  · exfalso
    push_neg at hc
    exact h (field_rule_of_scan p ':' 0 23 (by decide) rfl hc.1 hc.2.1 (Nat.zero_le _) hc.2.2)

theorem parse_minutes_violation (date : oe_date_t) (p : List Char)
    (h : ¬ field_rule ':' 0 59 p) : parse_minutes date p = (OE_FAILURE, date) := by
  unfold parse_minutes
  simp only
  by_cases hc : (strtoul p).2 = 0 ∨ peek (p.drop (strtoul p).2) ≠ ':' ∨ (strtoul p).1 > 59
  · rw [if_pos hc]
  · exfalso
    push_neg at hc
    exact h (field_rule_of_scan p ':' 0 59 (by decide) rfl hc.1 hc.2.1 (Nat.zero_le _) hc.2.2)

theorem parse_seconds_violation (date : oe_date_t) (p : List Char)
    (h : ¬ field_rule ' ' 0 59 p) : parse_seconds date p = (OE_FAILURE, date) := by
  unfold parse_seconds
  simp only
  by_cases hc : (strtoul p).2 = 0 ∨ peek (p.drop (strtoul p).2) ≠ ' ' ∨ (strtoul p).1 > 59
  · rw [if_pos hc]
  · exfalso
    push_neg at hc
    exact h (field_rule_of_scan p ' ' 0 59 (by decide) rfl hc.1 hc.2.1 (Nat.zero_le _) hc.2.2)

theorem strtoul_value_le (p : List Char) (h : (strtoul p).2 ≠ 0)
    (hsep : peek (p.drop (strtoul p).2) = ' ') : (strtoul p).1 ≤ ULONG_MAX := by
  obtain ⟨F, hp, hF⟩ := field_of_strtoul p ' ' (by decide) h hsep
  have hs := (scan_of_field_rule F (p.drop (strtoul p).2).tail ' ' hF rfl).1
  rw [← hp] at hs
  rw [hs]
  exact numeric_value_le F

theorem parse_year_violation (date : oe_date_t) (p : List Char)
    (h : ¬ field_rule ' ' 0 ULONG_MAX p) : parse_year date p = (OE_FAILURE, date) := by
  unfold parse_year
  simp only
  by_cases hc : (strtoul p).2 = 0 ∨ peek (p.drop (strtoul p).2) ≠ ' '
  · rw [if_pos hc]
  · exfalso
    push_neg at hc
    exact h (field_rule_of_scan p ' ' 0 ULONG_MAX (by decide) rfl hc.1 hc.2 (Nat.zero_le _)
      (strtoul_value_le p hc.1 hc.2))

theorem parse_day_pass (date : oe_date_t) (F rest : List Char) (hF : numeric_field F = true)
    (h1 : 1 ≤ numeric_value F) (h31 : numeric_value F ≤ 31) :
    parse_day date (F ++ ' ' :: rest) = parse_hours { date with day := numeric_value F } rest := by
  obtain ⟨hs, hdr⟩ := scan_of_field_rule F rest ' ' hF rfl
  have hl := numeric_field_length_ne_zero hF
  unfold parse_day
  simp only [hs, hdr, peek, List.headD_cons, List.tail_cons]
  rw [if_neg (by
    intro h
    rcases h with h | h | h | h
    · exact hl h
    · exact h rfl
    · omega
    · omega), Nat.mod_eq_of_lt (by omega)]

theorem parse_hours_pass (date : oe_date_t) (F rest : List Char) (hF : numeric_field F = true)
    (h23 : numeric_value F ≤ 23) :
    parse_hours date (F ++ ':' :: rest) =
      parse_minutes { date with hours := numeric_value F } rest := by
  obtain ⟨hs, hdr⟩ := scan_of_field_rule F rest ':' hF rfl
  have hl := numeric_field_length_ne_zero hF
  unfold parse_hours
  simp only [hs, hdr, peek, List.headD_cons, List.tail_cons]
  rw [if_neg (by
    intro h
    rcases h with h | h | h
    · exact hl h
    · exact h rfl
    · omega), Nat.mod_eq_of_lt (by omega)]

theorem parse_minutes_pass (date : oe_date_t) (F rest : List Char)
    (hF : numeric_field F = true) (h59 : numeric_value F ≤ 59) :
    parse_minutes date (F ++ ':' :: rest) =
      parse_seconds { date with minutes := numeric_value F } rest := by
  obtain ⟨hs, hdr⟩ := scan_of_field_rule F rest ':' hF rfl
  have hl := numeric_field_length_ne_zero hF
  unfold parse_minutes
  simp only [hs, hdr, peek, List.headD_cons, List.tail_cons]
  rw [if_neg (by
    intro h
    rcases h with h | h | h
    · exact hl h
    · exact h rfl
    · omega), Nat.mod_eq_of_lt (by omega)]

theorem parse_seconds_pass (date : oe_date_t) (F rest : List Char)
    (hF : numeric_field F = true) (h59 : numeric_value F ≤ 59) :
    parse_seconds date (F ++ ' ' :: rest) =
      parse_year { date with seconds := numeric_value F } rest := by
  obtain ⟨hs, hdr⟩ := scan_of_field_rule F rest ' ' hF rfl
  have hl := numeric_field_length_ne_zero hF
  unfold parse_seconds
  simp only [hs, hdr, peek, List.headD_cons, List.tail_cons]
  rw [if_neg (by
    intro h
    rcases h with h | h | h
    · exact hl h
    · exact h rfl
    · omega), Nat.mod_eq_of_lt (by omega)]

theorem parse_year_pass (date : oe_date_t) (F rest : List Char) (hF : numeric_field F = true) :
    parse_year date (F ++ ' ' :: rest) =
      check_gmt { date with year := numeric_value F % 2 ^ 32 } rest := by
  obtain ⟨hs, hdr⟩ := scan_of_field_rule F rest ' ' hF rfl
  have hl := numeric_field_length_ne_zero hF
  unfold parse_year
  simp only [hs, hdr, peek, List.headD_cons, List.tail_cons]
  rw [if_neg (by
    intro h
    rcases h with h | h
    · exact hl h
    · exact h rfl)]

/-! ## The first violated rule -/

theorem consumed_append (k : Nat) (M F1 F2 F3 F4 F5 p : List Char) :
    consumed k M F1 F2 F3 F4 F5 ++ p = M ++ (consumed k [] F1 F2 F3 F4 F5 ++ p) := by
  simp [consumed]

/-- A violated rule ends the function: the block that tests it returns
`OE_FAILURE` and leaves the date as it was on entry. -/
theorem block_after_violation (k : Nat) (hk : k ≤ 6) (date : oe_date_t) (p : List Char)
    (h : ¬ next_rule k p) : block_after k date p = (OE_FAILURE, date) := by
  interval_cases k
  · show after_month date p = _
    have h2 : peek p ≠ ' ' := h
    rw [after_month, if_pos (Or.inr h2)]
  · exact parse_day_violation date p h
  · exact parse_hours_violation date p h
  · exact parse_minutes_violation date p h
  · exact parse_seconds_violation date p h
  · exact parse_year_violation date p h
  · show check_gmt date p = _
    have h2 : ¬ gmt_at_end p = true := h
    rw [check_gmt_eq, if_neg h2]

/-- After a text whose first `k` rules pass, the function is in the block that
tests rule `k`, with exactly the fields of the rules passed written. -/
theorem after_month_consumed (k : Nat) (hk : k ≤ 6) (mo : Nat) (hmo : mo ≠ UINT_MAX)
    (F1 F2 F3 F4 F5 p : List Char) (hf : fields_pass k F1 F2 F3 F4 F5) :
    after_month { date_zero with month := mo } (consumed k [] F1 F2 F3 F4 F5 ++ p) =
      block_after k (written_upto k (field_values mo F1 F2 F3 F4 F5)) p := by
  obtain ⟨f1, f2, f3, f4, f5⟩ := hf
  have hm : ({ date_zero with month := mo } : oe_date_t).month ≠ UINT_MAX := hmo
  interval_cases k
  · have e : consumed 0 [] F1 F2 F3 F4 F5 ++ p = p := by simp [consumed]
    rw [e]; rfl
  · have e : consumed 1 [] F1 F2 F3 F4 F5 ++ p = ' ' :: p := by simp [consumed]
    rw [e, after_month_space _ _ hm]; rfl
  · have e : consumed 2 [] F1 F2 F3 F4 F5 ++ p = ' ' :: (F1 ++ ' ' :: p) := by simp [consumed]
    obtain ⟨n1, l1, u1⟩ := f1 (by decide)
    rw [e, after_month_space _ _ hm, parse_day_pass _ _ _ n1 l1 u1]; rfl
  · have e : consumed 3 [] F1 F2 F3 F4 F5 ++ p = ' ' :: (F1 ++ ' ' :: (F2 ++ ':' :: p)) := by
      simp [consumed]
    obtain ⟨n1, l1, u1⟩ := f1 (by decide)
    obtain ⟨n2, u2⟩ := f2 (by decide)
    rw [e, after_month_space _ _ hm, parse_day_pass _ _ _ n1 l1 u1, parse_hours_pass _ _ _ n2 u2]
    rfl
  · have e : consumed 4 [] F1 F2 F3 F4 F5 ++ p =
        ' ' :: (F1 ++ ' ' :: (F2 ++ ':' :: (F3 ++ ':' :: p))) := by
      simp [consumed]
    obtain ⟨n1, l1, u1⟩ := f1 (by decide)
    obtain ⟨n2, u2⟩ := f2 (by decide)
    obtain ⟨n3, u3⟩ := f3 (by decide)
    rw [e, after_month_space _ _ hm, parse_day_pass _ _ _ n1 l1 u1, parse_hours_pass _ _ _ n2 u2,
      parse_minutes_pass _ _ _ n3 u3]
    rfl
  · have e : consumed 5 [] F1 F2 F3 F4 F5 ++ p =
        ' ' :: (F1 ++ ' ' :: (F2 ++ ':' :: (F3 ++ ':' :: (F4 ++ ' ' :: p)))) := by
      simp [consumed]
    obtain ⟨n1, l1, u1⟩ := f1 (by decide)
    obtain ⟨n2, u2⟩ := f2 (by decide)
    obtain ⟨n3, u3⟩ := f3 (by decide)
    obtain ⟨n4, u4⟩ := f4 (by decide)
    rw [e, after_month_space _ _ hm, parse_day_pass _ _ _ n1 l1 u1, parse_hours_pass _ _ _ n2 u2,
      parse_minutes_pass _ _ _ n3 u3, parse_seconds_pass _ _ _ n4 u4]
    rfl
  · have e : consumed 6 [] F1 F2 F3 F4 F5 ++ p =
        ' ' :: (F1 ++ ' ' :: (F2 ++ ':' :: (F3 ++ ':' :: (F4 ++ ' ' :: (F5 ++ ' ' :: p))))) := by
      simp [consumed]
    obtain ⟨n1, l1, u1⟩ := f1 (by decide)
    obtain ⟨n2, u2⟩ := f2 (by decide)
    obtain ⟨n3, u3⟩ := f3 (by decide)
    obtain ⟨n4, u4⟩ := f4 (by decide)
    have n5 := f5 (by decide)
    rw [e, after_month_space _ _ hm, parse_day_pass _ _ _ n1 l1 u1, parse_hours_pass _ _ _ n2 u2,
      parse_minutes_pass _ _ _ n3 u3, parse_seconds_pass _ _ _ n4 u4, parse_year_pass _ _ _ n5]
    rfl

/-- Every text splits at its first violated rule: some `k ≤ 6` rules pass on
the fields `F1..F5`, and rule `k` is violated by what follows, unless all six
pass (`k = 6`, where the literal may or may not follow). -/
theorem first_violation (q : List Char) :
    ∃ k F1 F2 F3 F4 F5 p, k ≤ 6 ∧ q = consumed k [] F1 F2 F3 F4 F5 ++ p ∧
      fields_pass k F1 F2 F3 F4 F5 ∧ (k < 6 → ¬ next_rule k p) := by
  by_cases r0 : next_rule 0 q
  swap
  · exact ⟨0, [], [], [], [], [], q, by decide, by simp [consumed], by simp [fields_pass],
      fun _ => r0⟩
  have e0 : q = ' ' :: q.tail := peek_ne_NUL_cons r0 (by decide)
  generalize q.tail = q1 at e0
  by_cases r1 : next_rule 1 q1
  swap
  · exact ⟨1, [], [], [], [], [], q1, by decide, by rw [e0]; simp [consumed],
      by simp [fields_pass], fun _ => r1⟩
  obtain ⟨F1, q2, e1, n1, l1, u1⟩ := r1
  by_cases r2 : next_rule 2 q2
  swap
  · exact ⟨2, F1, [], [], [], [], q2, by decide, by rw [e0, e1]; simp [consumed],
      by simp [fields_pass, n1, l1, u1], fun _ => r2⟩
  obtain ⟨F2, q3, e2, n2, _, u2⟩ := r2
  by_cases r3 : next_rule 3 q3
  swap
  · exact ⟨3, F1, F2, [], [], [], q3, by decide, by rw [e0, e1, e2]; simp [consumed],
      by simp [fields_pass, n1, l1, u1, n2, u2], fun _ => r3⟩
  obtain ⟨F3, q4, e3, n3, _, u3⟩ := r3
  by_cases r4 : next_rule 4 q4
  swap
  · exact ⟨4, F1, F2, F3, [], [], q4, by decide, by rw [e0, e1, e2, e3]; simp [consumed],
      by simp [fields_pass, n1, l1, u1, n2, u2, n3, u3], fun _ => r4⟩
  obtain ⟨F4, q5, e4, n4, _, u4⟩ := r4
  by_cases r5 : next_rule 5 q5
  swap
  · exact ⟨5, F1, F2, F3, F4, [], q5, by decide, by rw [e0, e1, e2, e3, e4]; simp [consumed],
      by simp [fields_pass, n1, l1, u1, n2, u2, n3, u3, n4, u4], fun _ => r5⟩
  obtain ⟨F5, q6, e5, n5, _, _⟩ := r5
  exact ⟨6, F1, F2, F3, F4, F5, q6, by decide, by rw [e0, e1, e2, e3, e4, e5]; simp [consumed],
    by simp [fields_pass, n1, l1, u1, n2, u2, n3, u3, n4, u4, n5], fun h => absurd h (by decide)⟩

/-! ## The month loop on the text -/

theorem strncmp_self_append : ∀ (e r : List Char), (∀ c ∈ e, c ≠ NUL) →
    strncmp (e ++ r) e e.length = 0 := by
  intro e
  induction e with
  | nil => intro r _; rfl
  | cons c e ih =>
    intro r h
    have hc : c ≠ NUL := h c (List.mem_cons_self _ _)
    rw [List.cons_append, List.length_cons, strncmp]
    simp only [peek, List.headD_cons, ne_eq, not_true_eq_false, if_false, hc, List.tail_cons]
    exact ih r (fun x hx => h x (List.mem_cons_of_mem _ hx))

theorem month_abbrev_mem (m : Nat) (h1 : 1 ≤ m) (h12 : m ≤ 12) : month_abbrev m ∈ _month := by
  interval_cases m <;> simp [month_abbrev, _month]

theorem strncmp_ne_zero_of_not_begins (p : List Char) (h : ¬ begins_with_month p) :
    ∀ e ∈ _month, strncmp p e 3 ≠ 0 := by
  intro e he hz
  have hh := month_table_entries e he
  obtain ⟨m, h1, h12, hm⟩ := month_abbrev_of_mem e he
  exact h ⟨m, p.drop 3, h1, h12, by rw [← hm]; exact strncmp_zero 3 p e hz hh.1 hh.2⟩

theorem month_loop_none (t : List (List Char)) (p : List Char)
    (h : ∀ e ∈ t, strncmp p e 3 ≠ 0) : ∀ (i mo : Nat), month_loop t i mo p = (mo, p) := by
  induction t with
  | nil => intro i mo; rfl
  | cons m rest ih =>
    intro i mo
    rw [month_loop, if_neg (h m (List.mem_cons_self _ _))]
    exact ih (fun x hx => h x (List.mem_cons_of_mem _ hx)) (i + 1) mo

/-- A text that begins with an entry of the table leaves the loop with the
index of an entry. -/
theorem month_loop_of_begins (t : List (List Char))
    (ht : ∀ m ∈ t, m.length = 3 ∧ ∀ c ∈ m, c ≠ NUL) :
    ∀ (i month : Nat) (p : List Char), (∃ e ∈ t, ∃ r, p = e ++ r) →
      i + 1 ≤ (month_loop t i month p).1 ∧ (month_loop t i month p).1 ≤ i + t.length := by
  induction t with
  | nil => intro i month p h; obtain ⟨e, he, _⟩ := h; exact absurd he (List.not_mem_nil _)
  | cons m rest ih =>
    intro i month p h
    have ht2 : ∀ x ∈ rest, x.length = 3 ∧ ∀ c ∈ x, c ≠ NUL :=
      fun x hx => ht x (List.mem_cons_of_mem _ hx)
    rw [month_loop]
    by_cases hm : strncmp p m 3 = 0
    · rw [if_pos hm]
      rcases month_loop_consumed rest ht2 (i + 1) (i + 1) (p.drop 3) with ⟨h1, _⟩ | ⟨h1, h2, _⟩
      · rw [h1]; simp only [List.length_cons]; omega
      · simp only [List.length_cons]; omega
    · rw [if_neg hm]
      obtain ⟨e, he, r, hp⟩ := h
      have her : e ∈ rest := by
        rcases List.mem_cons.mp he with h0 | h0
        · exfalso
          apply hm
          have hh := ht m (List.mem_cons_self _ _)
          rw [hp, h0, ← hh.1]
          exact strncmp_self_append m r hh.2
        · exact h0
      have := ih ht2 (i + 1) month p ⟨e, her, r, hp⟩
      simp only [List.length_cons]; omega

/-- The loop leaves `UINT_MAX` in the month exactly when the text begins with
no abbreviation, and then it leaves the pointer where it was. -/
theorem month_loop_uint_max (s : List Char) :
    (month_loop _month 0 UINT_MAX s).1 = UINT_MAX ↔ ¬ begins_with_month s := by
  constructor
  · intro h hb
    obtain ⟨m, r, h1, h12, hs⟩ := hb
    have := month_loop_of_begins _month month_table_entries 0 UINT_MAX s
      ⟨month_abbrev m, month_abbrev_mem m h1 h12, r, hs⟩
    rw [h] at this
    have hu : UINT_MAX = 4294967295 := rfl
    have hl : _month.length = 12 := rfl
    omega
  · intro h
    rw [month_loop_none _month s (strncmp_ne_zero_of_not_begins s h) 0 UINT_MAX]

theorem month_loop_split (t1 : List (List Char)) (e : List Char) (t2 : List (List Char))
    (p : List Char) (h1 : ∀ x ∈ t1, strncmp (e ++ p) x 3 ≠ 0) (he : strncmp (e ++ p) e 3 = 0)
    (hl : e.length = 3) (h2 : ∀ x ∈ t2, strncmp p x 3 ≠ 0) :
    ∀ (i mo : Nat), month_loop (t1 ++ e :: t2) i mo (e ++ p) = (i + t1.length + 1, p) := by
  induction t1 with
  | nil =>
    intro i mo
    rw [List.nil_append, month_loop, if_pos he, ← hl, List.drop_left,
      month_loop_none t2 p h2]
    rfl
  | cons m rest ih =>
    intro i mo
    rw [List.cons_append, month_loop, if_neg (h1 m (List.mem_cons_self _ _)),
      ih (fun x hx => h1 x (List.mem_cons_of_mem _ hx)) (i + 1) mo]
    simp only [List.length_cons, Prod.mk.injEq, and_true]
    omega

/-- The month loop on an abbreviation followed by a text that begins with no
abbreviation: the index of the abbreviation, and the pointer after it. -/
theorem month_loop_abbrev_then (m : Nat) (h1 : 1 ≤ m) (h12 : m ≤ 12) (p : List Char)
    (hp : ¬ begins_with_month p) :
    month_loop _month 0 UINT_MAX (month_abbrev m ++ p) = (m, p) := by
  have hn := strncmp_ne_zero_of_not_begins p hp
  have hh := month_table_entries _ (month_abbrev_mem m h1 h12)
  have he : strncmp (month_abbrev m ++ p) (month_abbrev m) 3 = 0 := by
    have := strncmp_self_append (month_abbrev m) p hh.2
    rw [hh.1] at this
    exact this
  have hsplit : _month = _month.take (m - 1) ++ month_abbrev m :: _month.drop m := by
    interval_cases m <;> rfl
  have h2 : ∀ x ∈ _month.drop m, strncmp p x 3 ≠ 0 :=
    fun x hx => hn x (List.mem_of_mem_drop hx)
  have hlen : (_month.take (m - 1)).length = m - 1 := by
    interval_cases m <;> rfl
  have h1 : ∀ x ∈ _month.take (m - 1), strncmp (month_abbrev m ++ p) x 3 ≠ 0 := by
    interval_cases m <;>
      simp [_month, month_abbrev, strncmp, peek, NUL]
  have := month_loop_split (_month.take (m - 1)) (month_abbrev m) (_month.drop m) p h1 he hh.1 h2
    0 UINT_MAX
  rw [← hsplit, hlen] at this
  rw [this]
  simp only [Prod.mk.injEq, and_true]
  omega

/-! ## The outcome of the function, rule by rule -/

theorem consumed_space (k : Nat) (hk : 1 ≤ k) (F1 F2 F3 F4 F5 p : List Char) :
    ∃ r, consumed k [] F1 F2 F3 F4 F5 ++ p = ' ' :: r := by
  simp only [consumed, if_pos hk, List.nil_append, List.append_assoc, List.singleton_append]
  exact ⟨_, rfl⟩

/-- A numeric rule on the text, as the tests of its block on the scan of
`strtoul`. -/
theorem scan_of_rule (sep : Char) (lo hi : Nat) (p : List Char) (hd : isdigit sep = false)
    (h : field_rule sep lo hi p) :
    (strtoul p).2 ≠ 0 ∧ peek (p.drop (strtoul p).2) = sep ∧ lo ≤ (strtoul p).1 ∧
      (strtoul p).1 ≤ hi := by
  obtain ⟨F, rest, hp, hF, hlo, hhi⟩ := h
  obtain ⟨hs, hdr⟩ := scan_of_field_rule F rest sep hF hd
  rw [← hp] at hs hdr
  rw [hs]
  refine ⟨numeric_field_length_ne_zero hF, ?_, hlo, hhi⟩
  show peek (p.drop F.length) = sep
  rw [hdr]; rfl

/-- The outcome of `_string_to_date`, by the first violated rule: either the
text begins with no abbreviation, or the month loop leaves an index `mo` and
the text splits into the rules passed and a rest `p` that violates the next
rule (failure, the fields of the rules passed written) or, after all six, is
the literal (success). -/
theorem string_to_date_cases (s : List Char) (d0 : oe_date_t) :
    (¬ begins_with_month s ∧
      _string_to_date s d0 = (OE_FAILURE, { date_zero with month := UINT_MAX })) ∨
    ∃ k m X mo F1 F2 F3 F4 F5 p, k ≤ 6 ∧ 1 ≤ m ∧ m ≤ 12 ∧ 1 ≤ mo ∧ mo ≤ 12 ∧
      month_loop _month 0 UINT_MAX s = (mo, consumed k [] F1 F2 F3 F4 F5 ++ p) ∧
      s = consumed k (month_abbrev m ++ X) F1 F2 F3 F4 F5 ++ p ∧
      fields_pass k F1 F2 F3 F4 F5 ∧
      ((¬ next_rule k p ∧
        _string_to_date s d0 = (OE_FAILURE, written_upto k (field_values mo F1 F2 F3 F4 F5))) ∨
       (k = 6 ∧ next_rule 6 p ∧
        _string_to_date s d0 = (OE_OK, field_values mo F1 F2 F3 F4 F5))) := by
  have hdef : _string_to_date s d0 =
      after_month { date_zero with month := (month_loop _month 0 UINT_MAX s).1 }
        (month_loop _month 0 UINT_MAX s).2 := rfl
  have hu : UINT_MAX = 4294967295 := rfl
  rcases month_loop_consumed _month month_table_entries 0 UINT_MAX s with
    ⟨h1, _⟩ | ⟨h1, h2, mon, hmon, X, hX⟩
  · left
    refine ⟨(month_loop_uint_max s).mp h1, ?_⟩
    rw [hdef, h1, after_month, if_pos (Or.inl rfl)]
  · right
    have h12 : (month_loop _month 0 UINT_MAX s).1 ≤ 12 := by simpa [_month] using h2
    obtain ⟨m, hm1, hm12, hm⟩ := month_abbrev_of_mem mon hmon
    obtain ⟨k, F1, F2, F3, F4, F5, p, hk, hq, hf, hv⟩ :=
      first_violation (month_loop _month 0 UINT_MAX s).2
    have hne : (month_loop _month 0 UINT_MAX s).1 ≠ UINT_MAX := by omega
    have hrun := after_month_consumed k hk _ hne F1 F2 F3 F4 F5 p hf
    rw [← hq, ← hdef] at hrun
    refine ⟨k, m, X, (month_loop _month 0 UINT_MAX s).1, F1, F2, F3, F4, F5, p, hk, hm1, hm12,
      by omega, h12, by rw [← hq], ?_, hf, ?_⟩
    · rw [consumed_append, List.append_assoc, ← hq, ← hm]
      exact hX
    · by_cases hr : next_rule k p
      · right
        have hk6 : k = 6 := by
          by_contra hne6
          exact hv (by omega) hr
        subst hk6
        refine ⟨rfl, hr, ?_⟩
        rw [hrun]
        have hg : gmt_at_end p = true := hr
        show check_gmt _ p = _
        rw [check_gmt_eq, if_pos hg]
        rfl
      · left
        exact ⟨hr, by rw [hrun, block_after_violation k hk _ p hr]⟩

/-- The failure at the first violated rule, on a text given by its parts: the
month `m`, the fields of the `k` rules passed, and a rest `p` that violates
rule `k`. -/
theorem string_to_date_violation (k m : Nat) (F1 F2 F3 F4 F5 p : List Char) (d0 : oe_date_t)
    (hk : k ≤ 6) (h1 : 1 ≤ m) (h12 : m ≤ 12) (hf : fields_pass k F1 F2 F3 F4 F5)
    (hv : ¬ next_rule k p) (h0 : k = 0 → ¬ begins_with_month p) :
    _string_to_date (consumed k (month_abbrev m) F1 F2 F3 F4 F5 ++ p) d0 =
      (OE_FAILURE, written_upto k (field_values m F1 F2 F3 F4 F5)) := by
  have hu : UINT_MAX = 4294967295 := rfl
  have hml : month_loop _month 0 UINT_MAX (consumed k (month_abbrev m) F1 F2 F3 F4 F5 ++ p) =
      (m, consumed k [] F1 F2 F3 F4 F5 ++ p) := by
    rw [consumed_append]
    by_cases hk0 : k = 0
    · apply month_loop_abbrev_then m h1 h12
      subst hk0
      have e : consumed 0 [] F1 F2 F3 F4 F5 ++ p = p := by simp [consumed]
      rw [e]
      exact h0 rfl
    · obtain ⟨r, hr⟩ := consumed_space k (by omega) F1 F2 F3 F4 F5 p
      rw [hr]
      exact month_loop_abbrev m h1 h12 r
  have hdef : ∀ s, _string_to_date s d0 =
      after_month { date_zero with month := (month_loop _month 0 UINT_MAX s).1 }
        (month_loop _month 0 UINT_MAX s).2 := fun _ => rfl
  rw [hdef, hml]
  show after_month { date_zero with month := m } (consumed k [] F1 F2 F3 F4 F5 ++ p) = _
  rw [after_month_consumed k hk m (by omega) F1 F2 F3 F4 F5 p hf,
    block_after_violation k hk _ p hv]

/-! ## The date after a failure, by the violated rule -/

/-- C7, amended: the date after a parse failure.  Whenever `_string_to_date`
returns a result other than `OE_OK`, the result is `OE_FAILURE`, the month is
not zero, and the date is fixed by the first violated rule.  Either the string
begins with no month abbreviation, and the date is zero except for the month
`UINT_MAX`; or the month loop leaves an index `mo` in 1..12 and the string is
the text of `k ≤ 6` passed rules (the month text, then the numeric fields
`F1..` with their separators, each a numeric field with its value in range)
followed by a rest `p` that violates rule `k`, and the date holds `mo` and the
values of exactly the fields of the `k` rules passed: every field of the
violated rule and of the later rules is zero. -/
theorem string_to_date_failure_date (s : List Char) (d0 : oe_date_t)
    (h : (_string_to_date s d0).1 ≠ OE_OK) :
    (_string_to_date s d0).1 = OE_FAILURE ∧ (_string_to_date s d0).2.month ≠ 0 ∧
    ((¬ begins_with_month s ∧
      (_string_to_date s d0).2 = { date_zero with month := UINT_MAX }) ∨
     ∃ k m X mo F1 F2 F3 F4 F5 p, k ≤ 6 ∧ 1 ≤ m ∧ m ≤ 12 ∧ 1 ≤ mo ∧ mo ≤ 12 ∧
      month_loop _month 0 UINT_MAX s = (mo, consumed k [] F1 F2 F3 F4 F5 ++ p) ∧
      s = consumed k (month_abbrev m ++ X) F1 F2 F3 F4 F5 ++ p ∧
      fields_pass k F1 F2 F3 F4 F5 ∧ ¬ next_rule k p ∧
      (_string_to_date s d0).2 = written_upto k (field_values mo F1 F2 F3 F4 F5)) := by
  rcases string_to_date_cases s d0 with ⟨hb, hr⟩ |
    ⟨k, m, X, mo, F1, F2, F3, F4, F5, p, hk, hm1, hm12, ho1, ho12, hml, hs, hf, hc⟩
  · refine ⟨by rw [hr], by rw [hr]; decide, Or.inl ⟨hb, by rw [hr]⟩⟩
  · rcases hc with ⟨hv, hr⟩ | ⟨_, _, hr⟩
    · refine ⟨by rw [hr], ?_, Or.inr ⟨k, m, X, mo, F1, F2, F3, F4, F5, p, hk, hm1, hm12, ho1,
        ho12, hml, hs, hf, hv, by rw [hr]⟩⟩
      rw [hr]
      show mo ≠ 0
      omega
    · rw [hr] at h
      exact absurd rfl h

set_option maxRecDepth 100000 in
/-- The amended C7 at "Dec 31 23:59:60 2099 GMT", which fails at the seconds. -/
theorem string_to_date_failure_date_witness :
    (_string_to_date "Dec 31 23:59:60 2099 GMT".toList date_zero).1 ≠ OE_OK ∧
    ((_string_to_date "Dec 31 23:59:60 2099 GMT".toList date_zero).1 = OE_FAILURE ∧
     (_string_to_date "Dec 31 23:59:60 2099 GMT".toList date_zero).2.month ≠ 0 ∧
     ((¬ begins_with_month "Dec 31 23:59:60 2099 GMT".toList ∧
       (_string_to_date "Dec 31 23:59:60 2099 GMT".toList date_zero).2 =
         { date_zero with month := UINT_MAX }) ∨
      ∃ k m X mo F1 F2 F3 F4 F5 p, k ≤ 6 ∧ 1 ≤ m ∧ m ≤ 12 ∧ 1 ≤ mo ∧ mo ≤ 12 ∧
       month_loop _month 0 UINT_MAX "Dec 31 23:59:60 2099 GMT".toList =
         (mo, consumed k [] F1 F2 F3 F4 F5 ++ p) ∧
       "Dec 31 23:59:60 2099 GMT".toList =
         consumed k (month_abbrev m ++ X) F1 F2 F3 F4 F5 ++ p ∧
       fields_pass k F1 F2 F3 F4 F5 ∧ ¬ next_rule k p ∧
       (_string_to_date "Dec 31 23:59:60 2099 GMT".toList date_zero).2 =
         written_upto k (field_values mo F1 F2 F3 F4 F5))) :=
  ⟨by decide,
   string_to_date_failure_date "Dec 31 23:59:60 2099 GMT".toList date_zero (by decide)⟩

/-! ## Two outcomes, and failure at the first violated rule -/

set_option maxRecDepth 100000 in
/-- C17 as stated fails: "Feb +29 12:30:45 2024 GMT" violates the day rule of
the grammar (the text after the month and its space is not a run of decimal
digits followed by a space, so the string is not of the strict grammar), yet
the function returns `OE_OK` with the date filled, not `OE_FAILURE`. -/
theorem string_to_date_violation_accepted :
    (¬ ∃ D rest, digit_run D = true ∧ "+29 12:30:45 2024 GMT".toList = D ++ ' ' :: rest) ∧
    ¬ strict_timestamp "Feb +29 12:30:45 2024 GMT".toList ∧
    _string_to_date "Feb +29 12:30:45 2024 GMT".toList date_zero =
      (OE_OK, { year := 2024, month := 2, day := 29, hours := 12, minutes := 30,
                seconds := 45 }) ∧
    (_string_to_date "Feb +29 12:30:45 2024 GMT".toList date_zero).1 ≠ OE_FAILURE := by
  refine ⟨?_, ?_, by decide, by decide⟩
  · rintro ⟨D, rest, hD, heq⟩
    cases D with
    | nil => exact absurd hD (by decide)
    | cons c D =>
      have hc : isdigit c = true := digit_run_all hD c (List.mem_cons_self _ _)
      have h0 : peek "+29 12:30:45 2024 GMT".toList = c := by rw [heq]; rfl
      rw [← h0] at hc
      exact absurd hc (by decide)
  · rintro ⟨m, D, H, MI, S, Y, h1, h12, hD, -, -, -, -, heq⟩
    cases D with
    | nil => exact absurd hD (by decide)
    | cons c D =>
      have hc : isdigit c = true := digit_run_all hD c (List.mem_cons_self _ _)
      interval_cases m <;>
        simp [timestamp, layout, month_abbrev, _month] at heq
      rw [← heq.1] at hc
      exact absurd hc (by decide)

/-- C17, amended: two outcomes, and failure at the first violated rule, with
the numeric rules read the way the code reads them.  For every string and
every prior content of the destination, `_string_to_date` returns `OE_OK` or
`OE_FAILURE`, never `OE_UNEXPECTED` or `OE_INVALID_PARAMETER`.  A string that
begins with no month abbreviation fails with the month `UINT_MAX` and nothing
else written.  A string made of an abbreviation, the text of `k ≤ 6` passed
rules and a rest `p` that violates rule `k` (for `k = 0`, a rest that neither
is a space nor begins with an abbreviation) fails with exactly the fields of
those `k` rules written, whatever `p` holds after the violation.  A numeric
rule is passed by a numeric field (optional white space, an optional sign, a
non-empty run of digits) in range and immediately followed by its separator.
A string on which the function returns `OE_OK` passes all the rules. -/
theorem string_to_date_two_outcomes (s : List Char) (d0 : oe_date_t) :
    ((_string_to_date s d0).1 = OE_OK ∨ (_string_to_date s d0).1 = OE_FAILURE) ∧
    (_string_to_date s d0).1 ≠ OE_UNEXPECTED ∧
    (_string_to_date s d0).1 ≠ OE_INVALID_PARAMETER ∧
    (¬ begins_with_month s →
      _string_to_date s d0 = (OE_FAILURE, { date_zero with month := UINT_MAX })) ∧
    (∀ k m F1 F2 F3 F4 F5 p, k ≤ 6 → 1 ≤ m → m ≤ 12 →
      s = consumed k (month_abbrev m) F1 F2 F3 F4 F5 ++ p → fields_pass k F1 F2 F3 F4 F5 →
      ¬ next_rule k p → (k = 0 → ¬ begins_with_month p) →
      _string_to_date s d0 = (OE_FAILURE, written_upto k (field_values m F1 F2 F3 F4 F5))) ∧
    ((_string_to_date s d0).1 = OE_OK →
      ∃ m X F1 F2 F3 F4 F5 p, 1 ≤ m ∧ m ≤ 12 ∧
        s = consumed 6 (month_abbrev m ++ X) F1 F2 F3 F4 F5 ++ p ∧
        fields_pass 6 F1 F2 F3 F4 F5 ∧ next_rule 6 p) := by
  have hr := string_to_date_result s d0
  refine ⟨hr, ?_, ?_, ?_, ?_, ?_⟩
  · rcases hr with h | h <;> rw [h] <;> decide
  · rcases hr with h | h <;> rw [h] <;> decide
  · intro hb
    rcases string_to_date_cases s d0 with ⟨_, h⟩ | ⟨k, m, X, mo, F1, F2, F3, F4, F5, p, _, hm1,
      hm12, _, _, _, hs, _⟩
    · exact h
    · exfalso
      apply hb
      refine ⟨m, X ++ (consumed k [] F1 F2 F3 F4 F5 ++ p), hm1, hm12, ?_⟩
      rw [hs, consumed_append, List.append_assoc]
  · intro k m F1 F2 F3 F4 F5 p hk h1 h12 hs hf hv h0
    rw [hs]
    exact string_to_date_violation k m F1 F2 F3 F4 F5 p d0 hk h1 h12 hf hv h0
  · intro hok
    rcases string_to_date_cases s d0 with ⟨_, h⟩ | ⟨k, m, X, mo, F1, F2, F3, F4, F5, p, _, hm1,
      hm12, _, _, _, hs, hf, hc⟩
    · rw [h] at hok
      exact absurd hok failure_ne_ok
    · rcases hc with ⟨_, h⟩ | ⟨hk6, hg, _⟩
      · rw [h] at hok
        exact absurd hok failure_ne_ok
      · subst hk6
        exact ⟨m, X, F1, F2, F3, F4, F5, p, hm1, hm12, hs, hf, hg⟩

set_option maxRecDepth 100000 in
/-- The amended C17 at "Feb 30 24:00:00 2001 GMT": the month and the day pass,
the hours violate their rule, and the function fails with the month and the
day written and the other fields zero. -/
theorem string_to_date_two_outcomes_witness :
    (fields_pass 2 "30".toList [] [] [] [] ∧ ¬ next_rule 2 "24:00:00 2001 GMT".toList) ∧
    _string_to_date "Feb 30 24:00:00 2001 GMT".toList date_zero =
      (OE_FAILURE, written_upto 2 (field_values 2 "30".toList [] [] [] [])) ∧
    written_upto 2 (field_values 2 "30".toList [] [] [] []) =
      { year := 0, month := 2, day := 30, hours := 0, minutes := 0, seconds := 0 } :=
  have hf : fields_pass 2 "30".toList [] [] [] [] := by
    unfold fields_pass
    decide
  have hv : ¬ next_rule 2 "24:00:00 2001 GMT".toList :=
    fun h => absurd (scan_of_rule ':' 0 23 _ rfl h).2.2.2 (by decide)
  ⟨⟨hf, hv⟩,
   (string_to_date_two_outcomes "Feb 30 24:00:00 2001 GMT".toList date_zero).2.2.2.2.1
     2 2 "30".toList [] [] [] [] "24:00:00 2001 GMT".toList (by decide) (by decide) (by decide)
     (by decide) hf hv (fun h => absurd h (by decide)),
   by decide⟩

end Crl
